import Mathlib

/-!
# coroutine.js: waitables, routine drivers and their propagation rules

A shallow embedding of `src/coroutine.js`.

* Every instance of `YieldInstruction` (and of its subclasses) lives in a heap
  `State.objs`, addressed by its index.  Generators, promises and the timer
  service are host objects; they are kept in their own tables.
* A method call is a `Call`; `exec fuel call s` runs it from the state `s`.
  The result carries the state in which the call stopped and how it stopped:
  it returned, it raised a value, or the fuel ran out.  A raise keeps every
  field write that was made before it, as in JavaScript.
* `State.log` is a ghost trace of method entries, hook entries, host calls and
  of the two notification loops.  No method reads it.
* The body of a routine is a list of `GenInstr`: values to yield, method calls
  the routine makes itself, a `throw`, a `return`.  This is the only place
  where user code enters; everything else is the module.

Contents: values and objects; the host objects; the methods of the module, one
definition for each, named as in the source; the interpreter `exec`; the
vocabulary of the properties and the examples; the invariant relation `Evolves`
and its proof for every method; bound monotonicity; the trace lemmas; the
relation `Later`, which also follows the timer requests, how a call begins,
the combinator `Wait` and chains of drivers; and the claims C1 to C20, each
under its own heading.
-/

namespace CoroutineJs

/-! ## Values -/

/-- Heap address of an object. -/
abbrev Ref := Nat

/-- The `Error` objects built by the module, host `TypeError`s and the errors of user code. -/
inductive Err where
  /-- The error of `new Error("Multiple-call Callback object is unsupported.")`. -/
  | multipleCall
  /-- The error of `new Error("Wait class constructor's first argument is not yieldable.")`. -/
  | notYieldable
  /-- The error of `new Error("The running procedure is timeout. (Limited in " + seconds + "s)")`. -/
  | timedOut (seconds : Int)
  /-- A host `TypeError`: a method looked up on `null`, or a generator re-entered while running. -/
  | typeError
  /-- An error value of user code. -/
  | user (code : Nat)
  deriving DecidableEq, Repr

/-- JavaScript values that are not argument arrays. -/
inductive Atom where
  | undefined
  | null
  | num (n : Int)
  | error (e : Err)
  /-- An instance of `YieldInstruction` or of one of its subclasses. -/
  | yi (r : Ref)
  /-- A generator object. -/
  | generator (g : Ref)
  /-- A `Callback` object; `r` addresses its `yieldInstruction`. -/
  | callback (r : Ref)
  /-- A `Promise`. -/
  | promise (p : Ref)
  deriving DecidableEq, Repr

/-- JavaScript values: atoms and the rest-parameter arrays `args` of a `Callback` invocation. -/
inductive Value where
  | atom (a : Atom)
  | args (xs : List Atom)
  deriving DecidableEq, Repr

/-- The value `undefined`. -/
abbrev undef : Value := .atom .undefined

/-- The argument `caller` of `Start`: omitted, `null`, or a waitable. -/
inductive Caller where
  | undefined
  | null
  | ref (c : Ref)
  deriving DecidableEq, Repr

/-- The object `{ value, done }` returned by `generator.next` and `generator.throw`. -/
structure IterResult where
  value : Value
  done : Bool
  deriving DecidableEq, Repr

/-- The field `callee` of a `Coroutine`: the stand-in
`{ argumentsQueue: [], Interrupt: (error) => {} }` of the constructor, or a waitable. -/
inductive Callee where
  | stub
  | yi (r : Ref)
  deriving DecidableEq, Repr

/-- The class of an object together with the fields that the class adds. -/
inductive Class where
  | YieldInstruction
  | WaitForSeconds (seconds : Int) (timer : Option Nat)
  | PromiseYieldInstruction (promise : Ref)
  | Coroutine (generator : Ref) (callee : Callee) (current : IterResult)
  | Wait (yieldInstruction : Option Ref) (seconds : Option Int) (timer : Option Nat)
  deriving DecidableEq, Repr

/-- The fields set by `YieldInstruction`'s constructor, and the class of the instance. -/
structure YieldInstruction where
  cls : Class
  callers : List Ref
  done : Bool
  interrupted : Bool
  argumentsQueue : List Value
  error : Value
  deriving DecidableEq, Repr

/-- The object built by `super()`: lines 14-21. -/
def YieldInstruction.new (cls : Class) : YieldInstruction :=
  { cls := cls, callers := [], done := false, interrupted := false,
    argumentsQueue := [], error := undef }

/-! ## Host objects -/

/-- Method calls that user code (the body of a routine) can make. -/
inductive Action where
  | Start (w : Ref) (caller : Caller)
  | End (w : Ref)
  | Interrupt (w : Ref) (error : Value)
  | Throw (w : Ref) (error : Value)
  /-- Invoke the `Callback` whose `yieldInstruction` is `r` with the arguments `args`. -/
  | invoke (r : Ref) (args : List Atom)
  /-- Evaluate `new Wait(object, seconds)`. -/
  | newWait (object : Value) (seconds : Int)
  deriving DecidableEq, Repr

/-- The body of a pausable routine, as far as the module can observe it. -/
inductive GenInstr where
  /-- Run `yield v` outside any `try`: an injected error finishes the routine. -/
  | yield (v : Value)
  /-- Run `try { yield v } catch (e) {}`: an injected error is caught and the body goes on. -/
  | yieldCaught (v : Value)
  /-- Make a method call; an error it raises is not caught by the routine. -/
  | call (a : Action)
  /-- Run `throw e`. -/
  | raise (e : Value)
  /-- Run `return v`. -/
  | ret (v : Value)
  deriving DecidableEq, Repr

/-- Execution state of a generator object. -/
inductive GenStatus where
  | suspendedStart
  | suspendedYield
  | executing
  | completed
  deriving DecidableEq, Repr

/-- A generator object: the code still to run (while suspended at a `yield`, that `yield`
is its head), its status, and the last `{ value, done }` it handed out. -/
structure Generator where
  body : List GenInstr
  status : GenStatus
  result : IterResult
  deriving DecidableEq, Repr

/-- Settlement state of a promise. -/
inductive PromiseState where
  | pending
  | fulfilled
  | rejected (error : Value)
  deriving DecidableEq, Repr

/-- A promise with the `PromiseYieldInstruction`s subscribed by line 150. -/
structure PromiseObj where
  state : PromiseState
  reactions : List Ref
  deriving DecidableEq, Repr

/-- What a timer runs when it fires: line 111 or line 230. -/
inductive TimerFn where
  | End
  | OnTimeOut
  deriving DecidableEq, Repr

/-- A pending request of `setTimeout`. -/
structure Timer where
  handle : Nat
  fn : TimerFn
  target : Ref
  milliseconds : Int
  deriving DecidableEq, Repr

/-- Ghost trace entries. -/
inductive Event where
  | Start (w : Ref) (caller : Caller)
  | End (w : Ref)
  | Interrupt (w : Ref) (error : Value)
  | OnStarted (w : Ref)
  | OnInterrupted (w : Ref)
  | OnThown (w : Ref) (error : Value)
  | OnTimeOut (w : Ref)
  /-- The loop of `w.End()` is about to call `c.Start()`. -/
  | resumes (w c : Ref)
  /-- The loop of `w.Interrupt(error)` is about to call `c.Interrupt(error)`. -/
  | interrupts (w c : Ref) (error : Value)
  | invoke (r : Ref) (args : List Atom)
  | next (g : Ref) (input : Value)
  | inject (g : Ref) (error : Value)
  | setTimeout (handle : Nat) (fn : TimerFn) (target : Ref)
  | clearTimeout (handle : Option Nat)
  | fire (handle : Nat)
  | unhandledRejection (error : Value)
  deriving DecidableEq, Repr

/-- The whole store. -/
structure State where
  objs : List YieldInstruction
  gens : List Generator
  promises : List PromiseObj
  timers : List Timer
  nextHandle : Nat
  log : List Event
  deriving DecidableEq, Repr

/-- How a call stopped. -/
inductive Outcome where
  | ok
  | thrown (error : Value)
  | outOfFuel
  deriving DecidableEq, Repr

/-- Result of running a call. -/
structure Res where
  st : State
  out : Outcome
  deriving DecidableEq, Repr

/-- Everything `exec` can run: the methods, the loops that need a bound, and host events. -/
inductive Call where
  | Start (w : Ref) (caller : Caller)
  | End (w : Ref)
  | Interrupt (w : Ref) (error : Value)
  | Throw (w : Ref) (error : Value)
  /-- One more turn of the `while` loop of `Coroutine.OnStarted`. -/
  | loop (w : Ref)
  | invoke (r : Ref) (args : List Atom)
  | newWait (object : Value) (seconds : Int)
  | OnTimeOut (w : Ref)
  | next (g : Ref) (input : Value)
  | inject (g : Ref) (error : Value)
  /-- Run the body of generator `g` up to its next `yield`, `return` or raise. -/
  | run (g : Ref)
  /-- The timer service fires the pending request `handle`. -/
  | fire (handle : Nat)
  /-- The promise `p` is fulfilled. -/
  | resolve (p : Ref)
  /-- The promise `p` is rejected with `error`. -/
  | reject (p : Ref) (error : Value)
  /-- The job queue delivers the settlement of `p` to its first subscriber. -/
  | react (p : Ref)
  deriving DecidableEq, Repr

/-- The call made by an action of user code. -/
def Action.toCall : Action → Call
  | .Start w caller => .Start w caller
  | .End w => .End w
  | .Interrupt w error => .Interrupt w error
  | .Throw w error => .Throw w error
  | .invoke r args => .invoke r args
  | .newWait object seconds => .newWait object seconds

/-! ## State access -/

/-- Append a ghost trace entry. -/
def State.emit (s : State) (e : Event) : State :=
  { s with log := s.log ++ [e] }

/-- Rewrite the fields of the object at `w`. -/
def State.update (s : State) (w : Ref) (f : YieldInstruction → YieldInstruction) : State :=
  match s.objs[w]? with
  | some o => { s with objs := s.objs.set w (f o) }
  | none => s

/-- Allocate a fresh object; its address is the old heap size. -/
def State.alloc (s : State) (o : YieldInstruction) : State × Ref :=
  ({ s with objs := s.objs ++ [o] }, s.objs.length)

/-- Rewrite the generator at `g`. -/
def State.updateGen (s : State) (g : Ref) (f : Generator → Generator) : State :=
  match s.gens[g]? with
  | some G => { s with gens := s.gens.set g (f G) }
  | none => s

/-- Rewrite the promise at `p`. -/
def State.updatePromise (s : State) (p : Ref) (f : PromiseObj → PromiseObj) : State :=
  match s.promises[p]? with
  | some P => { s with promises := s.promises.set p (f P) }
  | none => s

/-- The assignment `this.timer = t` of `WaitForSeconds` and `Wait`. -/
def YieldInstruction.setTimer (t : Option Nat) (o : YieldInstruction) : YieldInstruction :=
  match o.cls with
  | .WaitForSeconds seconds _ => { o with cls := .WaitForSeconds seconds t }
  | .Wait yieldInstruction seconds _ => { o with cls := .Wait yieldInstruction seconds t }
  | _ => o

/-- The assignment `this.current = r` of `Coroutine`. -/
def YieldInstruction.setCurrent (r : IterResult) (o : YieldInstruction) : YieldInstruction :=
  match o.cls with
  | .Coroutine generator callee _ => { o with cls := .Coroutine generator callee r }
  | _ => o

/-- The assignment `this.callee = c` of `Coroutine`. -/
def YieldInstruction.setCallee (c : Callee) (o : YieldInstruction) : YieldInstruction :=
  match o.cls with
  | .Coroutine generator _ current => { o with cls := .Coroutine generator c current }
  | _ => o

/-- The assignments `this.yieldInstruction = y; this.seconds = seconds` of `Wait`. -/
def YieldInstruction.setWrapped (y : Option Ref) (seconds : Int) (o : YieldInstruction) :
    YieldInstruction :=
  match o.cls with
  | .Wait _ _ timer => { o with cls := .Wait y (some seconds) timer }
  | _ => o

/-- The host call `setTimeout(fn, milliseconds, target)`; returns the new handle. -/
def setTimeout (fn : TimerFn) (milliseconds : Int) (target : Ref) (s : State) : State × Nat :=
  ({ s with
      timers := s.timers ++ [⟨s.nextHandle, fn, target, milliseconds⟩]
      nextHandle := s.nextHandle + 1
      log := s.log ++ [.setTimeout s.nextHandle fn target] },
    s.nextHandle)

/-- The host call `clearTimeout(handle)`; harmless on `null` and on a handle that is gone. -/
def clearTimeout (handle : Option Nat) (s : State) : State :=
  match handle with
  | none => s.emit (.clearTimeout none)
  | some h =>
    { s with
      timers := s.timers.filter (fun t => t.handle != h)
      log := s.log ++ [.clearTimeout (some h)] }

/-! ## Control flow -/

/-- The call returned. -/
def ok (s : State) : Res := ⟨s, .ok⟩

/-- The call raised `error`. -/
def raise (error : Value) (s : State) : Res := ⟨s, .thrown error⟩

/-- A host `TypeError`. -/
def typeError : Value := .atom (.error .typeError)

/-- Sequencing: the continuation runs only if the first part returned. -/
def Res.andThen (r : Res) (k : State → Res) : Res :=
  match r.out with
  | .ok => k r.st
  | _ => r

/-- A `try { ... } catch (error) { ... }` around the first part. -/
def Res.orCatch (r : Res) (handler : Value → State → Res) : Res :=
  match r.out with
  | .thrown error => handler error r.st
  | _ => r

/-! ## The module -/

/-- The function `IsGenerator`: lines 3-10. -/
def IsGenerator (object : Value) : Bool :=
  match object with
  | .atom (.generator _) => true
  | _ => false

/-- The object built by `new Coroutine(generator)`: lines 156-162. -/
def Coroutine.new (generator : Ref) : YieldInstruction :=
  YieldInstruction.new (.Coroutine generator .stub ⟨undef, false⟩)

/-- The object built by `new PromiseYieldInstruction(promise)`: lines 142-146. -/
def PromiseYieldInstruction.new (promise : Ref) : YieldInstruction :=
  YieldInstruction.new (.PromiseYieldInstruction promise)

/-- The object built by `new WaitForSeconds(seconds)`: lines 101-106. -/
def WaitForSeconds.new (seconds : Int) : YieldInstruction :=
  YieldInstruction.new (.WaitForSeconds seconds none)

/-- The function `ConvertToYieldInstruction`: lines 196-215.  `none` is its `null`.  The
first case is the test `IsGenerator(object)`, the next three are the `instanceof` tests. -/
def ConvertToYieldInstruction (object : Value) (s : State) : State × Option Ref :=
  match object with
  | .atom (.generator g) =>
    let (s, r) := s.alloc (Coroutine.new g)
    (s, some r)
  | .atom (.yi r) => (s, some r)
  | .atom (.callback r) => (s, some r)
  | .atom (.promise p) =>
    let (s, r) := s.alloc (PromiseYieldInstruction.new p)
    (s, some r)
  | _ => (s, none)

/-- The hook `OnStarted` of `WaitForSeconds`: lines 108-112. -/
def WaitForSeconds.OnStarted (w : Ref) (seconds : Int) (s : State) : Res :=
  let milliseconds := seconds * 1000
  let (s, handle) := setTimeout .End milliseconds w s
  ok (s.update w (YieldInstruction.setTimer (some handle)))

/-- The hook `OnInterrupted` of `WaitForSeconds`: lines 114-118. -/
def WaitForSeconds.OnInterrupted (w : Ref) (timer : Option Nat) (s : State) : Res :=
  let s := clearTimeout timer s
  ok (s.update w (YieldInstruction.setTimer none))

/-- The hook `OnStarted` of `PromiseYieldInstruction`: line 150 subscribes to the promise. -/
def PromiseYieldInstruction.OnStarted (w : Ref) (promise : Ref) (s : State) : Res :=
  ok (s.updatePromise promise fun P => { P with reactions := P.reactions ++ [w] })

/-- The expression `this.callee.argumentsQueue[0]` of line 168. -/
def Coroutine.input (s : State) (callee : Callee) : Value :=
  match callee with
  | .stub => undef
  | .yi r =>
    match s.objs[r]? with
    | some o => o.argumentsQueue.headD undef
    | none => undef

/-- The hook `OnStarted` of `Coroutine`, lines 164-183: one turn of the `while` loop, or the
`this.End()` after it.  The next turn, after `continue`, is the call `.loop w`. -/
def Coroutine.OnStarted (rec : Call → State → Res) (w : Ref) (s : State) : Res :=
  match s.objs[w]? with
  | none => raise typeError s
  | some self =>
    match self.cls with
    | .Coroutine generator callee current =>
      if current.done then rec (.End w) s
      else
        (rec (.next generator (Coroutine.input s callee)) s).andThen fun s =>
          let current : IterResult :=
            match s.gens[generator]? with
            | some G => G.result
            | none => ⟨undef, true⟩
          let s := s.update w (YieldInstruction.setCurrent current)
          let value := current.value
          let (s, yieldInstruction) := ConvertToYieldInstruction value s
          match yieldInstruction with
          | some r =>
            let s := s.update w (YieldInstruction.setCallee (.yi r))
            rec (.Start r (.ref w)) s
          | none => rec (.loop w) s
    | _ => raise typeError s

/-- The hook `OnInterrupted` of `Coroutine`: lines 185-188. -/
def Coroutine.OnInterrupted (rec : Call → State → Res) (callee : Callee) (s : State) : Res :=
  match callee with
  | .stub => ok s
  | .yi r => rec (.Interrupt r undef) s

/-- The hook `OnThown` of `Coroutine`: lines 190-193. -/
def Coroutine.OnThown (rec : Call → State → Res) (generator : Ref) (error : Value) (s : State) :
    Res :=
  rec (.inject generator error) s

/-- The hook `OnStarted` of `Wait`: lines 233-245. -/
def Wait.OnStarted (rec : Call → State → Res) (w : Ref) (yieldInstruction : Option Ref)
    (timer : Option Nat) (s : State) : Res :=
  match yieldInstruction with
  | none => raise typeError s
  | some y =>
    match s.objs[y]? with
    | none => raise typeError s
    | some inner =>
      if !inner.done then rec (.Start y (.ref w)) s
      else
        let s := clearTimeout timer s
        let s := s.update w fun o =>
          { o with argumentsQueue := o.argumentsQueue ++ [inner.argumentsQueue.headD undef] }
        rec (.End w) s

/-- The method `OnTimeOut` of `Wait`: lines 247-250. -/
def Wait.OnTimeOut (rec : Call → State → Res) (w : Ref) (s : State) : Res :=
  let s := s.emit (.OnTimeOut w)
  match s.objs[w]? with
  | none => raise typeError s
  | some self =>
    match self.cls with
    | .Wait _ (some seconds) _ => rec (.Throw w (.atom (.error (.timedOut seconds)))) s
    | _ => raise typeError s

/-- Dispatch of `this.OnStarted()` on the class of `w`. -/
def OnStarted (rec : Call → State → Res) (w : Ref) (s : State) : Res :=
  let s := s.emit (.OnStarted w)
  match s.objs[w]? with
  | none => raise typeError s
  | some self =>
    match self.cls with
    | .YieldInstruction => ok s
    | .WaitForSeconds seconds _ => WaitForSeconds.OnStarted w seconds s
    | .PromiseYieldInstruction promise => PromiseYieldInstruction.OnStarted w promise s
    | .Coroutine _ _ _ => Coroutine.OnStarted rec w s
    | .Wait yieldInstruction _ timer => Wait.OnStarted rec w yieldInstruction timer s

/-- Dispatch of `this.OnInterrupted()` on the class of `w`. -/
def OnInterrupted (rec : Call → State → Res) (w : Ref) (s : State) : Res :=
  let s := s.emit (.OnInterrupted w)
  match s.objs[w]? with
  | none => raise typeError s
  | some self =>
    match self.cls with
    | .WaitForSeconds _ timer => WaitForSeconds.OnInterrupted w timer s
    | .Coroutine _ callee _ => Coroutine.OnInterrupted rec callee s
    | _ => ok s

/-- Dispatch of `this.OnThown(error)` on the class of `w`; the base hook is `throw error`. -/
def OnThown (rec : Call → State → Res) (w : Ref) (error : Value) (s : State) : Res :=
  let s := s.emit (.OnThown w error)
  match s.objs[w]? with
  | none => raise typeError s
  | some self =>
    match self.cls with
    | .Coroutine generator _ _ => Coroutine.OnThown rec generator error s
    | _ => raise error s

/-- The loop `this.callers.forEach(caller => { caller.Start(); })` of line 71, run by `w` on
the callers still to visit.  A raise leaves the loop, and the rest is not visited.  The loop
walks the array that `callers` held when it began: `push` (line 50) is reached only while
the object is pending, which it is not during the loop, and line 72 assigns a new array.
The entry `resumes w caller` is written to the trace just before each call. -/
def forEachStart (rec : Call → State → Res) (w : Ref) : List Ref → State → Res
  | [], s => ok s
  | caller :: rest, s =>
    (rec (.Start caller .undefined) (s.emit (.resumes w caller))).andThen
      (forEachStart rec w rest)

/-- The loop `this.callers.forEach(caller => { caller.Interrupt(error); })` of line 84, in
the same way; the entry `interrupts w caller error` is written just before each call. -/
def forEachInterrupt (rec : Call → State → Res) (w : Ref) (error : Value) :
    List Ref → State → Res
  | [], s => ok s
  | caller :: rest, s =>
    (rec (.Interrupt caller error) (s.emit (.interrupts w caller error))).andThen
      (forEachInterrupt rec w error rest)

/-- The method `Start`: lines 32-62. -/
def YieldInstruction.Start (rec : Call → State → Res) (w : Ref) (caller : Caller) (s : State) :
    Res :=
  let s := s.emit (.Start w caller)
  match s.objs[w]? with
  | none => raise typeError s
  | some self =>
    if self.interrupted then
      match caller with
      | .undefined => ok s
      | .null => raise typeError s
      | .ref c => rec (.Interrupt c self.error) s
    else
      (match caller with
        | .ref c =>
          if self.done then rec (.Start c .undefined) s
          else ok (s.update w fun o => { o with callers := o.callers ++ [c] })
        | _ => ok s).andThen fun s =>
      (OnStarted rec w s).orCatch fun error s => rec (.Throw w error) s

/-- The method `End`: lines 64-73. -/
def YieldInstruction.End (rec : Call → State → Res) (w : Ref) (s : State) : Res :=
  let s := s.emit (.End w)
  match s.objs[w]? with
  | none => raise typeError s
  | some self =>
    if self.interrupted then ok s
    else
      let s := s.update w fun o => { o with done := true }
      (forEachStart rec w self.callers s).andThen fun s =>
      ok (s.update w fun o => { o with callers := [] })

/-- The method `Interrupt`: lines 75-91. -/
def YieldInstruction.Interrupt (rec : Call → State → Res) (w : Ref) (error : Value)
    (s : State) : Res :=
  let s := s.emit (.Interrupt w error)
  match s.objs[w]? with
  | none => raise typeError s
  | some _ =>
    let s := s.update w fun o => { o with error := error }
    match s.objs[w]? with
    | none => raise typeError s
    | some self =>
      if self.interrupted || self.done then ok s
      else
        let s := s.update w fun o => { o with interrupted := true }
        (OnInterrupted rec w s).andThen fun s =>
        match s.objs[w]? with
        | none => raise typeError s
        | some self =>
          (forEachInterrupt rec w error self.callers s).andThen fun s =>
          match s.objs[w]? with
          | none => raise typeError s
          | some self =>
            let callerCount := self.callers.length
            let s := s.update w fun o => { o with callers := [] }
            if callerCount == 0 && error != undef then OnThown rec w error s
            else ok s

/-- The method `Throw`: lines 93-96. -/
def YieldInstruction.Throw (rec : Call → State → Res) (w : Ref) (error : Value) (s : State) :
    Res :=
  rec (.Interrupt w error) s

/-- An invocation `callback(...args)` of the `Callback` whose waitable is `r`: lines 123-132. -/
def Callback.call (rec : Call → State → Res) (r : Ref) (args : List Atom) (s : State) : Res :=
  let s := s.emit (.invoke r args)
  match s.objs[r]? with
  | none => raise typeError s
  | some _ =>
    let s := s.update r fun o => { o with argumentsQueue := o.argumentsQueue ++ [.args args] }
    match s.objs[r]? with
    | none => raise typeError s
    | some yieldInstruction =>
      (if yieldInstruction.done then rec (.Throw r (.atom (.error .multipleCall))) s
        else ok s).andThen fun s =>
      rec (.End r) s

/-- The constructor of `Wait`: lines 219-231.  The new object is at the old heap size. -/
def Wait.new (rec : Call → State → Res) (object : Value) (seconds : Int) (s : State) : Res :=
  let (s, w) := s.alloc (YieldInstruction.new (.Wait none none none))
  let (s, yieldInstruction) := ConvertToYieldInstruction object s
  (match yieldInstruction with
    | none => rec (.Throw w (.atom (.error .notYieldable))) s
    | some _ => ok s).andThen fun s =>
  let s := s.update w (YieldInstruction.setWrapped yieldInstruction seconds)
  let milliseconds := seconds * 1000
  let (s, handle) := setTimeout .OnTimeOut milliseconds w s
  ok (s.update w (YieldInstruction.setTimer (some handle)))

/-! ## The host -/

/-- Mark generator `g` finished, with `{ value, done: true }` as its last result. -/
def State.finish (s : State) (g : Ref) (value : Value) : State :=
  s.updateGen g fun G => { G with body := [], status := .completed, result := ⟨value, true⟩ }

/-- Run the body of generator `g` from its head instruction. -/
def Generator.run (rec : Call → State → Res) (g : Ref) (s : State) : Res :=
  match s.gens[g]? with
  | none => raise typeError s
  | some G =>
    match G.body with
    | [] => ok (s.finish g undef)
    | .ret v :: _ => ok (s.finish g v)
    | .raise e :: _ => raise e (s.finish g undef)
    | .yield v :: _ =>
      ok (s.updateGen g fun G => { G with status := .suspendedYield, result := ⟨v, false⟩ })
    | .yieldCaught v :: _ =>
      ok (s.updateGen g fun G => { G with status := .suspendedYield, result := ⟨v, false⟩ })
    | .call a :: rest =>
      let s := s.updateGen g fun G => { G with body := rest }
      ((rec a.toCall s).orCatch fun e s => raise e (s.finish g undef)).andThen fun s =>
      rec (.run g) s

/-- The host call `generator.next(input)`. -/
def Generator.next (rec : Call → State → Res) (g : Ref) (input : Value) (s : State) : Res :=
  let s := s.emit (.next g input)
  match s.gens[g]? with
  | none => raise typeError s
  | some G =>
    match G.status with
    | .executing => raise typeError s
    | .completed => ok (s.updateGen g fun G => { G with result := ⟨undef, true⟩ })
    | .suspendedStart =>
      rec (.run g) (s.updateGen g fun G => { G with status := .executing })
    | .suspendedYield =>
      rec (.run g) (s.updateGen g fun G => { G with status := .executing, body := G.body.tail })

/-- The host call `generator.throw(error)`. -/
def Generator.inject (rec : Call → State → Res) (g : Ref) (error : Value) (s : State) : Res :=
  let s := s.emit (.inject g error)
  match s.gens[g]? with
  | none => raise typeError s
  | some G =>
    match G.status with
    | .executing => raise typeError s
    | .completed => raise error s
    | .suspendedStart => raise error (s.finish g undef)
    | .suspendedYield =>
      match G.body with
      | .yieldCaught _ :: rest =>
        rec (.run g) (s.updateGen g fun G => { G with status := .executing, body := rest })
      | _ => raise error (s.finish g undef)

/-- The timer service fires `handle`, if that request is still pending. -/
def fire (rec : Call → State → Res) (handle : Nat) (s : State) : Res :=
  match s.timers.find? (fun t => t.handle == handle) with
  | none => ok s
  | some t =>
    let s := { s with timers := s.timers.filter (fun t => t.handle != handle) }
    let s := s.emit (.fire handle)
    match t.fn with
    | .End => rec (.End t.target) s
    | .OnTimeOut => rec (.OnTimeOut t.target) s

/-- Settle the promise `p` unless it is settled already. -/
def settle (p : Ref) (outcome : PromiseState) (s : State) : Res :=
  ok (s.updatePromise p fun P =>
    match P.state with
    | .pending => { P with state := outcome }
    | _ => P)

/-- A raise inside a promise reaction goes nowhere: it is an unhandled rejection. -/
def Res.swallow (r : Res) : Res :=
  match r.out with
  | .thrown error => ok (r.st.emit (.unhandledRejection error))
  | _ => r

/-- Deliver the settlement of `p` to its first subscriber: the callbacks of line 150. -/
def react (rec : Call → State → Res) (p : Ref) (s : State) : Res :=
  match s.promises[p]? with
  | none => ok s
  | some P =>
    match P.reactions with
    | [] => ok s
    | w :: rest =>
      match P.state with
      | .pending => ok s
      | .fulfilled =>
        let s := s.updatePromise p fun P => { P with reactions := rest }
        ((rec (.End w) s).orCatch fun error s => rec (.Throw w error) s).swallow
      | .rejected error =>
        let s := s.updatePromise p fun P => { P with reactions := rest }
        (rec (.Throw w error) s).swallow

/-! ## The interpreter -/

/-- One call, with `rec` for the calls it makes. -/
def step (rec : Call → State → Res) (c : Call) (s : State) : Res :=
  match c with
  | .Start w caller => YieldInstruction.Start rec w caller s
  | .End w => YieldInstruction.End rec w s
  | .Interrupt w error => YieldInstruction.Interrupt rec w error s
  | .Throw w error => YieldInstruction.Throw rec w error s
  | .loop w => Coroutine.OnStarted rec w s
  | .invoke r args => Callback.call rec r args s
  | .newWait object seconds => Wait.new rec object seconds s
  | .OnTimeOut w => Wait.OnTimeOut rec w s
  | .next g input => Generator.next rec g input s
  | .inject g error => Generator.inject rec g error s
  | .run g => Generator.run rec g s
  | .fire handle => fire rec handle s
  | .resolve p => settle p .fulfilled s
  | .reject p error => settle p (.rejected error) s
  | .react p => react rec p s

/-- Run a call with a bound on the depth of nested calls. -/
def exec : Nat → Call → State → Res
  | 0, _, s => ⟨s, .outOfFuel⟩
  | fuel + 1, c, s => step (exec fuel) c s

/-! ## Vocabulary of the properties -/

/-- The class of an object without its fields. -/
def Class.kind : Class → Nat
  | .YieldInstruction => 0
  | .WaitForSeconds _ _ => 1
  | .PromiseYieldInstruction _ => 2
  | .Coroutine _ _ _ => 3
  | .Wait _ _ _ => 4

/-- The trace entry is an entry of the hook `OnThown` of `w`. -/
def Event.escalates (w : Ref) : Event → Bool
  | .OnThown v _ => v == w
  | _ => false

/-- The trace entry is a notification `c.Interrupt(error)` sent by the loop of `w`. -/
def Event.interruptsFrom (w : Ref) : Event → Bool
  | .interrupts v _ _ => v == w
  | _ => false

/-- The trace entry is a notification `c.Start()` sent by the loop of `w`. -/
def Event.resumesFrom (w : Ref) : Event → Bool
  | .resumes v _ => v == w
  | _ => false

/-- What the fields of one object may become while calls run. -/
structure Trans (o o' : YieldInstruction) : Prop where
  done : o.done = true → o'.done = true
  interrupted : o.interrupted = true → o'.interrupted = true
  exclusive : ¬(o.done = true ∧ o.interrupted = true) →
    ¬(o'.done = true ∧ o'.interrupted = true)
  callers_done : o.done = true → o'.callers = o.callers ∨ o'.callers = []
  callers_interrupted : o.interrupted = true → o'.callers = o.callers
  kind : o'.cls.kind = o.cls.kind

/-- The same, for an object that may not have existed before. -/
def TransFrom : Option YieldInstruction → YieldInstruction → Prop
  | some o, o' => Trans o o'
  | none, o' => ¬(o'.done = true ∧ o'.interrupted = true)

/-- What a piece of trace may contain, given the heap at its start. -/
structure LogOK (s0 : State) (l : List Event) : Prop where
  settled : ∀ (w : Ref) (o : YieldInstruction), s0.objs[w]? = some o → o.done = true ∨ o.interrupted = true →
    ∀ e ∈ l, e.escalates w = false ∧ e.interruptsFrom w = false
  interrupted : ∀ (w : Ref) (o : YieldInstruction), s0.objs[w]? = some o →
    o.interrupted = true →
    ∀ e ∈ l, e.resumesFrom w = false
  resumes : ∀ w : Ref, Event.End w ∉ l → ∀ e ∈ l, e.resumesFrom w = false
  quiet : ∀ (w : Ref) (o : YieldInstruction), s0.objs[w]? = some o → o.done = true →
    o.callers = [] → ∀ e ∈ l, e.resumesFrom w = false

/-- The trace written between `s0` and a later state `s`. -/
def since (s0 s : State) : List Event :=
  s.log.drop s0.log.length

/-- The state `s` can be met while a call that was entered in `s0` runs. -/
structure Evolves (s0 s : State) : Prop where
  len : s0.objs.length ≤ s.objs.length
  objs : ∀ (w : Ref) (o : YieldInstruction), s.objs[w]? = some o → TransFrom s0.objs[w]? o
  log : s.log = s0.log ++ since s0 s
  logOK : LogOK s0 (since s0 s)

/-- The call `c` run from `s` returns in `s1`, with some bound on the call depth. -/
def Returns (c : Call) (s s1 : State) : Prop :=
  ∃ fuel, exec fuel c s = ⟨s1, .ok⟩

/-- What an event must satisfy to be written while a call entered in `s0` runs, after the
trace `l`. -/
structure EmitOK (s0 : State) (l : List Event) (e : Event) : Prop where
  settled : ∀ (w : Ref) (o : YieldInstruction), s0.objs[w]? = some o →
    o.done = true ∨ o.interrupted = true → e.escalates w = false ∧ e.interruptsFrom w = false
  interrupted : ∀ (w : Ref) (o : YieldInstruction), s0.objs[w]? = some o →
    o.interrupted = true → e.resumesFrom w = false
  resumes : ∀ w : Ref, e.resumesFrom w = true → Event.End w ∈ l
  quiet : ∀ (w : Ref) (o : YieldInstruction), s0.objs[w]? = some o → o.done = true →
    o.callers = [] → e.resumesFrom w = false

/-- The function `rec` keeps every state inside `Evolves`. -/
def Pres (rec : Call → State → Res) : Prop :=
  ∀ c s, Evolves s (rec c s).st

/-- The flags of `w` at the entry of the running call, if `w` existed then. -/
def PendingAt (s0 : State) (w : Ref) : Prop :=
  ∀ o, s0.objs[w]? = some o → o.done = false ∧ o.interrupted = false

/-- The result `r1` is what `r` becomes with a larger bound: the same, unless `r` ran out. -/
def Stable (r r1 : Res) : Prop :=
  r.out ≠ .outOfFuel → r1 = r

/-- The function `rec1` agrees with `rec` wherever `rec` did not run out. -/
def Agree (rec rec1 : Call → State → Res) : Prop :=
  ∀ c s, Stable (rec c s) (rec1 c s)

/-- The state in which `Interrupt` calls the hook `OnInterrupted` on a pending object. -/
def interruptedState (w : Ref) (error : Value) (s : State) : State :=
  ((s.emit (.Interrupt w error)).update w fun o => { o with error := error }).update w
    fun o => { o with interrupted := true }

/-- What `Interrupt` does after the loop over the callers: lines 85-90. -/
def afterLoop (rec : Call → State → Res) (w : Ref) (error : Value) (s4 : State) : Res :=
  match s4.objs[w]? with
  | none => raise typeError s4
  | some self =>
    if self.callers.length == 0 && error != undef then
      OnThown rec w error (s4.update w fun o => { o with callers := [] })
    else ok (s4.update w fun o => { o with callers := [] })

/-- What `Interrupt` does after the hook `OnInterrupted`: lines 84-90. -/
def afterHook (rec : Call → State → Res) (w : Ref) (error : Value) (s3 : State) : Res :=
  match s3.objs[w]? with
  | none => raise typeError s3
  | some self => (forEachInterrupt rec w error self.callers s3).andThen (afterLoop rec w error)

/-- An error value of user code. -/
def e7 : Value := .atom (.error (.user 7))

/-- A store with the given objects and generators, and nothing else. -/
def store (objs : List YieldInstruction) (gens : List Generator) : State :=
  { objs := objs, gens := gens, promises := [], timers := [], nextHandle := 0, log := [] }

/-- A fresh instance of the base class, such as the waitable of a new `Callback`. -/
def fresh : YieldInstruction := YieldInstruction.new .YieldInstruction

/-- A generator that has not started. -/
def routine (body : List GenInstr) : Generator :=
  { body := body, status := .suspendedStart, result := ⟨undef, false⟩ }

/-- Outermost calls run one after the other, each with its own bound; a call starts in the
state in which the previous one stopped, whether that one returned or raised. -/
def execAll : List (Nat × Call) → State → State
  | [], s => s
  | (fuel, c) :: rest, s => execAll rest (exec fuel c s).st

/-- No object has both flags set. -/
def Exclusive (s : State) : Prop :=
  ∀ o ∈ s.objs, ¬(o.done = true ∧ o.interrupted = true)

/-- Every object whose `done` or `interrupted` flag is set has an empty `callers` list. -/
def SettledCleared (s : State) : Prop :=
  ∀ o ∈ s.objs, o.done = true ∨ o.interrupted = true → o.callers = []

/-- A waitable `0` and a driver `1` whose routine yields it. -/
def exChild : State :=
  store [fresh, Coroutine.new 0] [routine [.yield (.atom (.yi 0))]]

/-- The driver has been started: it is suspended on the waitable `0`. -/
def exSuspended : State := (exec 6 (.Start 1 .undefined) exChild).st

/-- A waitable `0` with the fresh waitable `1` queued as its caller. -/
def exQueued : State := (exec 2 (.Start 0 (.ref 1)) (store [fresh, fresh] [])).st

/-- A waitable `0` that has failed with `e7` while nobody waited for it. -/
def exFailed : State := (exec 2 (.Interrupt 0 e7) (store [fresh] [])).st

/-- A waitable `0` that has failed with `e7`, and a driver `1` whose routine yields it inside
a `try`. -/
def exLate : State :=
  (exec 2 (.Interrupt 0 e7)
    (store [fresh, Coroutine.new 0] [routine [.yieldCaught (.atom (.yi 0))]])).st

/-- The heap part of `Evolves`: objects stay, and their fields change as `Trans` allows. -/
structure Grows (s0 s : State) : Prop where
  len : s0.objs.length ≤ s.objs.length
  objs : ∀ (w : Ref) (o : YieldInstruction), s.objs[w]? = some o → TransFrom s0.objs[w]? o

/-- The state in which line 179 of a driver `1` calls `Start` on the waitable `0` that its
routine has just yielded, where `0` had failed with `e7` before. -/
def exLateCall : State :=
  store
    [{ fresh with interrupted := true, error := e7 },
      { Coroutine.new 0 with cls := .Coroutine 0 (.yi 0) ⟨.atom (.yi 0), false⟩ }]
    [{ body := [.yieldCaught (.atom (.yi 0))], status := .suspendedYield,
        result := ⟨.atom (.yi 0), false⟩ }]

/-- The state in which `Start` on a pending object calls the hook `OnStarted`: the entry is
traced and the caller, if there is one, has been queued (lines 42-52). -/
def queued (w : Ref) (caller : Caller) (s : State) : State :=
  match caller with
  | .ref c => (s.emit (.Start w caller)).update w fun o => { o with callers := o.callers ++ [c] }
  | _ => s.emit (.Start w caller)

/-- A driver `0` whose routine raises `e7` when it is first advanced. -/
def exRaising : State := store [Coroutine.new 0] [routine [.raise e7]]

/-- A done waitable `0`, a driver `1` whose routine yields the fresh waitable `2`. -/
def exDone : State :=
  (exec 2 (.End 0) (store [fresh, Coroutine.new 0, fresh] [routine [.yield (.atom (.yi 2))]])).st

/-- A pending waitable `0` on which the fresh waitables `1` and `2` were queued, in this
order. -/
def exTwo : State :=
  execAll [(2, .Start 0 (.ref 1)), (2, .Start 0 (.ref 2))] (store [fresh, fresh, fresh] [])

/-- The loop of `End`, as the specification words it: the callers `cs` of `w` are resumed
in the order of the list, each `c.Start()` from the state that the previous one left, and
each of them returns. -/
inductive ResumedInOrder (w : Ref) : List Ref → State → State → Prop where
  | nil (s : State) : ResumedInOrder w [] s s
  | cons {c : Ref} {cs : List Ref} {s s1 s2 : State} :
    Returns (.Start c .undefined) (s.emit (.resumes w c)) s1 → ResumedInOrder w cs s1 s2 →
    ResumedInOrder w (c :: cs) s s2

/-- The trace entry records something that `w` itself did to others: a notification by one
of its two loops, or an entry of its hook `OnThown`. -/
def Event.own (w : Ref) (e : Event) : Bool :=
  e.escalates w || e.interruptsFrom w || e.resumesFrom w

/-- What `w` did according to a trace: the notifications it sent and its escalations, in
order. -/
def own (w : Ref) (l : List Event) : List Event :=
  l.filter (Event.own w)

/-- The trace `l` was written between `s0` and `s`. -/
def Traced (s0 s : State) (l : List Event) : Prop :=
  s.log = s0.log ++ l

/-- The notifications that `w` sent according to a trace, in order. -/
def sent (w : Ref) (l : List Event) : List Event :=
  l.filter fun e => e.interruptsFrom w || e.resumesFrom w

/-- The entries of the hook `OnThown` of `w` in a trace. -/
def escalations (w : Ref) (l : List Event) : List Event :=
  l.filter (Event.escalates w)

/-- A pending waitable `0` with the callers `1` and `2`, in this order: `1` is a driver
suspended on `0` whose routine raises `e7` when it is resumed, `2` is a fresh waitable. -/
def exSkipped : State :=
  execAll [(9, .Start 1 .undefined), (9, .Start 0 (.ref 2))]
    (store [fresh, Coroutine.new 0, fresh] [routine [.yield (.atom (.yi 0)), .raise e7]])

/-- A pending waitable `0` with the caller `1`, a driver suspended on `0` whose routine calls
`End()` on `0` when it is resumed. -/
def exReentrant : State :=
  (exec 9 (.Start 1 .undefined)
    (store [fresh, Coroutine.new 0] [routine [.yield (.atom (.yi 0)), .call (.End 0)]])).st

/-- The waitable that a driver is suspended on, if the object is a driver with one. -/
def YieldInstruction.calleeRef (o : YieldInstruction) : Option Ref :=
  match o.cls with
  | .Coroutine _ (.yi r) _ => some r
  | _ => none

/-- Every reference held in a `callers` list or in a `callee` field addresses an object:
what holds of any heap that JavaScript can build. -/
def WellFormed (s : State) : Prop :=
  ∀ o ∈ s.objs, (∀ c ∈ o.callers, c < s.objs.length) ∧
    ∀ r, o.calleeRef = some r → r < s.objs.length

/-- The result of a call neither raised nor lost an object, and the heap is well formed. -/
def Safe (s : State) (r : Res) : Prop :=
  WellFormed r.st ∧ s.objs.length ≤ r.st.objs.length ∧ ∀ x, r.out ≠ .thrown x


/-- The state `s` comes after `s0`, whatever ran in between: every object is still there with
the flags it had set and with what it had queued at the front of its `argumentsQueue`, the
trace has only grown, and a timer request that is pending in `s` was pending in `s0` or
carries a handle that had not been issued in `s0`. -/
structure Later (s0 s : State) : Prop where
  objs : ∀ (w : Ref) (o : YieldInstruction), s0.objs[w]? = some o →
    ∃ o1, s.objs[w]? = some o1 ∧ (o.done = true → o1.done = true) ∧
      (o.interrupted = true → o1.interrupted = true) ∧
      o.argumentsQueue <+: o1.argumentsQueue
  log : ∃ l, s.log = s0.log ++ l
  handles : s0.nextHandle ≤ s.nextHandle
  timers : ∀ t ∈ s.timers, t ∈ s0.timers ∨ s0.nextHandle ≤ t.handle

/-- The function `rec` only leads to later states. -/
def Keeps (rec : Call → State → Res) : Prop :=
  ∀ c s, Later s (rec c s).st

/-- No request with the handle `h` is pending in `s`. -/
def Cancelled (h : Nat) (s : State) : Prop :=
  ∀ t ∈ s.timers, t.handle ≠ h

/-- The trace written since `s0` begins with the entries `p`. -/
def Begins (s0 : State) (p : List Event) (s : State) : Prop :=
  ∃ l, s.log = s0.log ++ p ++ l

/-- The state in which an invocation of the `Callback` with the waitable `r` goes on after
line 126: the entry is traced and the arguments are queued. -/
def invokedState (r : Ref) (args : List Atom) (s : State) : State :=
  (s.emit (.invoke r args)).update r fun o =>
    { o with argumentsQueue := o.argumentsQueue ++ [.args args] }

/-- The state in which `End` on an object that is not interrupted starts its loop: the entry
is traced and `done` is set (lines 65-70). -/
def endedState (w : Ref) (s : State) : State :=
  (s.emit (.End w)).update w fun o => { o with done := true }

/-- The waitable `0` of a `Callback` that has been invoked once, and a fresh waitable `1`. -/
def exOnce : State := (exec 9 (.invoke 0 [.num 1]) (store [fresh, fresh] [])).st

/-- The same after a second invocation. -/
def exTwice : State := (exec 9 (.invoke 0 [.num 2]) exOnce).st

/-- The timer waitable `0` of ten seconds wrapped in the combinator `1` with a deadline of five
seconds; the combinator has been started and has started the timer waitable. -/
def exDeadline : State :=
  execAll [(9, .newWait (.atom (.yi 0)) 5), (9, .Start 1 .undefined)]
    (store [WaitForSeconds.new 10] [])

/-- The combinator of `exDeadline` after `Interrupt(e7)` from outside. -/
def exOutside : State := (exec 9 (.Interrupt 1 e7) exDeadline).st

/-- A driver `1` suspended on the waitable `0` that its routine yielded inside a `try`; the
handler of the routine yields the waitable `2`. -/
def exCatching : State :=
  (exec 9 (.Start 1 .undefined)
    (store [fresh, Coroutine.new 0, fresh]
      [routine [.yieldCaught (.atom (.yi 0)), .yield (.atom (.yi 2))]])).st

/-- A driver `1` suspended on the waitable `0`; the next step of its routine yields the
waitable `2`, and `3` is a further waitable. -/
def exSecond : State :=
  (exec 9 (.Start 1 .undefined)
    (store [fresh, Coroutine.new 0, fresh, fresh]
      [routine [.yield (.atom (.yi 0)), .yield (.atom (.yi 2))]])).st

/-- A driver `1` whose routine returns the waitable `0` at once. -/
def exReturning : State :=
  store [fresh, Coroutine.new 0] [routine [.ret (.atom (.yi 0))]]

/-- The call `generator.next(this.callee.argumentsQueue[0])` of line 168, as the hook
`OnStarted` of the driver `d` makes it when it is entered in `s`. -/
def stepped (fuel : Nat) (d g : Ref) (callee : Callee) (s : State) : Res :=
  exec fuel (.next g (Coroutine.input (s.emit (.OnStarted d)) callee)) (s.emit (.OnStarted d))

/-- A driver `0` whose routine returns the number `5` at once. -/
def exPlain : State := store [Coroutine.new 0] [routine [.ret (.atom (.num 5))]]

/-- The state in which `Interrupt`, reached from the deadline request `h` of the combinator
`w`, starts its loop over the callers: the request is consumed, `OnTimeOut` (lines 247-250),
`Interrupt` and the hook `OnInterrupted` are traced, and `w` is interrupted with `error`
stored. -/
def timedOutState (h : Nat) (w : Ref) (error : Value) (s : State) : State :=
  (interruptedState w error
    ((({ s with timers := s.timers.filter (fun t => t.handle != h) } : State).emit
      (.fire h)).emit (.OnTimeOut w))).emit (.OnInterrupted w)

/-- The state in which the hook `OnThown` of `w` runs its body, when `Interrupt` calls it
after the loop over no callers: `callers` is assigned and the hook is traced (lines 85-89). -/
def escalatedState (w : Ref) (error : Value) (s3 : State) : State :=
  (s3.update w fun o => { o with callers := [] }).emit (.OnThown w error)

/-- The state in which the hook `OnStarted` of the combinator `w`, entered in `s` and finding
its wrapped waitable done, calls `End`: the deadline request is cancelled and the first
queued argument `arg` of the wrapped waitable is queued (lines 240-243). -/
def completedState (w : Ref) (timer : Option Nat) (arg : Value) (s : State) : State :=
  (clearTimeout timer (s.emit (.OnStarted w))).update w fun o =>
    { o with argumentsQueue := o.argumentsQueue ++ [arg] }

/-- From `s1` on the combinator `w` has completed and its deadline is off: whatever is called
afterwards, `w` is done with the values `q` at the front of its `argumentsQueue`, no request
with the handle `h` is pending, and the timer service does nothing for `h`. -/
def CompletedFor (w : Ref) (h : Nat) (q : List Value) (s1 : State) : Prop :=
  ∀ calls : List (Nat × Call),
    (∃ o, (execAll calls s1).objs[w]? = some o ∧ o.done = true ∧ q <+: o.argumentsQueue) ∧
      Cancelled h (execAll calls s1) ∧
      ∀ n, exec (n + 1) (.fire h) (execAll calls s1) = ok (execAll calls s1)

/-- The `callers` list after `Start(caller)` on a pending object has queued the caller
(lines 49-51). -/
def Caller.joined (caller : Caller) (cs : List Ref) : List Ref :=
  match caller with
  | .ref c => cs ++ [c]
  | _ => cs

/-- A done waitable `0` wrapped in the combinator `1` with a deadline of five seconds, which
has not been started. -/
def exReady : State :=
  execAll [(9, .End 0), (9, .newWait (.atom (.yi 0)) 5)] (store [fresh] [])

/-- The object `d` is a pending driver whose `callee` is `r`: it is suspended on `r`. -/
def suspendedOn (s : State) (d r : Ref) : Bool :=
  match s.objs[d]? with
  | some self =>
    (match self.cls with
      | .Coroutine _ (.yi c) _ => c == r
      | _ => false) && !self.done && !self.interrupted
  | none => false

/-- Each driver of the list is suspended on the next one, and the last one on `t`. -/
def chained (s : State) (t : Ref) : List Ref → Bool
  | [] => false
  | [d] => suspendedOn s d t
  | d :: d1 :: rest => suspendedOn s d d1 && chained s t (d1 :: rest)

/-- In `s0`, a state that comes after `s`, the drivers `ds` and the timer waitable `t` are
interrupted, and the request `h` of `t` has been cancelled by a `clearTimeout` written to
the trace since `s`. -/
structure Unwound (s : State) (t : Ref) (h : Nat) (ds : List Ref) (s0 : State) : Prop where
  later : Later s s0
  drivers : ∀ x ∈ ds, ∃ o, s0.objs[x]? = some o ∧ o.interrupted = true
  timer : ∃ o, s0.objs[t]? = some o ∧ o.interrupted = true
  cleared : Event.clearTimeout (some h) ∈ since s s0
  cancelled : Cancelled h s0
  issued : h < s0.nextHandle

/-- A driver `1` suspended on the driver `2`, which is suspended on the timer waitable `0` of
ten seconds: the routine of `1` yields the routine of `2`, which yields the timer waitable. -/
def exNested : State :=
  (exec 12 (.Start 1 .undefined)
    (store [WaitForSeconds.new 10, Coroutine.new 0]
      [routine [.yield (.atom (.generator 1))], routine [.yield (.atom (.yi 0))]])).st

/-- The trace entry is the entry of a call `Start(c)` on `w` with a caller.  On a settled `w`
every such call notifies `c` directly: `c.Start()` (line 46) or `c.Interrupt(error)`
(line 38). -/
def Event.startsOn (w : Ref) : Event → Bool
  | .Start v (.ref _) => v == w
  | _ => false

/-- The calls `Start(c)` made on `w` according to a trace, in order. -/
def direct (w : Ref) (l : List Event) : List Event :=
  l.filter (Event.startsOn w)

/-- All that `w` told others according to a trace written while `w` is settled: the
notifications of its two loops and the calls `Start(c)` on it, in order. -/
def told (w : Ref) (l : List Event) : List Event :=
  l.filter fun e => e.interruptsFrom w || e.resumesFrom w || e.startsOn w

/-- A pending waitable `0` with the callers `1` and `2`, in this order: `1` is a driver
suspended on `0` whose routine calls `Start(2)` on `0` when it is resumed, `2` is a fresh
waitable. -/
def exRestart : State :=
  execAll [(9, .Start 1 .undefined), (9, .Start 0 (.ref 2))]
    (store [fresh, Coroutine.new 0, fresh]
      [routine [.yield (.atom (.yi 0)), .call (.Start 0 (.ref 2))]])

/-- A pending waitable `0` with the callers `1` and `2`, in this order: `1` is a driver
suspended on `0` whose routine raises `e7` when it is resumed, `2` is a combinator that
wraps `0` with a deadline of five seconds and has been started. -/
def exBlocked : State :=
  execAll [(9, .Start 1 .undefined), (9, .newWait (.atom (.yi 0)) 5), (9, .Start 2 .undefined)]
    (store [fresh, Coroutine.new 0] [routine [.yield (.atom (.yi 0)), .raise e7]])

/-- The same with a fresh waitable `1` queued ahead of the combinator `2`. -/
def exShared : State :=
  execAll [(9, .Start 0 (.ref 1)), (9, .newWait (.atom (.yi 0)) 5), (9, .Start 2 .undefined)]
    (store [fresh, fresh] [])

/-! ## State access lemmas -/

@[simp]
theorem emit_objs (s : State) (e : Event) : (s.emit e).objs = s.objs := rfl

@[simp]
theorem emit_log (s : State) (e : Event) : (s.emit e).log = s.log ++ [e] := rfl

@[simp]
theorem emit_gens (s : State) (e : Event) : (s.emit e).gens = s.gens := rfl

@[simp]
theorem update_log (s : State) (w : Ref) (f : YieldInstruction → YieldInstruction) :
    (s.update w f).log = s.log := by
  unfold State.update
  split <;> rfl

theorem update_objs (s : State) (w : Ref) (f : YieldInstruction → YieldInstruction) (i : Ref) :
    (s.update w f).objs[i]? = if i = w then (s.objs[w]?).map f else s.objs[i]? := by
  unfold State.update
  split
  · rename_i o ho
    by_cases hi : i = w
    · subst hi
      have hlt : i < s.objs.length := by
        rcases List.getElem?_eq_some_iff.1 ho with ⟨h, _⟩
        exact h
      simp [ho, List.getElem?_set_self, hlt]
    · have hne : w ≠ i := fun h => hi h.symm
      simp [hi, List.getElem?_set_ne hne]
  · rename_i ho
    by_cases hi : i = w
    · subst hi
      simp [ho]
    · simp [hi]

@[simp]
theorem update_objs_length (s : State) (w : Ref) (f : YieldInstruction → YieldInstruction) :
    (s.update w f).objs.length = s.objs.length := by
  unfold State.update
  split <;> simp

theorem update_objs_self (s : State) (w : Ref) (f : YieldInstruction → YieldInstruction) :
    (s.update w f).objs[w]? = (s.objs[w]?).map f := by
  simp [update_objs]

theorem update_objs_other (s : State) (w i : Ref) (f : YieldInstruction → YieldInstruction)
    (h : i ≠ w) : (s.update w f).objs[i]? = s.objs[i]? := by
  simp [update_objs, h]

@[simp]
theorem updateGen_objs (s : State) (g : Ref) (f : Generator → Generator) :
    (s.updateGen g f).objs = s.objs := by
  unfold State.updateGen
  split <;> rfl

@[simp]
theorem updateGen_log (s : State) (g : Ref) (f : Generator → Generator) :
    (s.updateGen g f).log = s.log := by
  unfold State.updateGen
  split <;> rfl

@[simp]
theorem updatePromise_objs (s : State) (p : Ref) (f : PromiseObj → PromiseObj) :
    (s.updatePromise p f).objs = s.objs := by
  unfold State.updatePromise
  split <;> rfl

@[simp]
theorem updatePromise_log (s : State) (p : Ref) (f : PromiseObj → PromiseObj) :
    (s.updatePromise p f).log = s.log := by
  unfold State.updatePromise
  split <;> rfl

@[simp]
theorem finish_objs (s : State) (g : Ref) (v : Value) : (s.finish g v).objs = s.objs := by
  simp [State.finish]

@[simp]
theorem finish_log (s : State) (g : Ref) (v : Value) : (s.finish g v).log = s.log := by
  simp [State.finish]

@[simp]
theorem alloc_objs (s : State) (o : YieldInstruction) : (s.alloc o).1.objs = s.objs ++ [o] := rfl

@[simp]
theorem alloc_log (s : State) (o : YieldInstruction) : (s.alloc o).1.log = s.log := rfl

@[simp]
theorem alloc_ref (s : State) (o : YieldInstruction) : (s.alloc o).2 = s.objs.length := rfl

@[simp]
theorem setTimeout_objs (fn : TimerFn) (ms : Int) (t : Ref) (s : State) :
    (setTimeout fn ms t s).1.objs = s.objs := rfl

@[simp]
theorem setTimeout_log (fn : TimerFn) (ms : Int) (t : Ref) (s : State) :
    (setTimeout fn ms t s).1.log = s.log ++ [.setTimeout s.nextHandle fn t] := rfl

@[simp]
theorem clearTimeout_objs (h : Option Nat) (s : State) : (clearTimeout h s).objs = s.objs := by
  cases h <;> rfl

@[simp]
theorem clearTimeout_log (h : Option Nat) (s : State) :
    (clearTimeout h s).log = s.log ++ [.clearTimeout h] := by
  cases h <;> rfl

/-! ## The invariant relation -/

theorem Trans.same (o : YieldInstruction) : Trans o o :=
  ⟨id, id, id, fun _ => Or.inl rfl, fun _ => rfl, rfl⟩

theorem Trans.comp {a b c : YieldInstruction} (h1 : Trans a b) (h2 : Trans b c) :
    Trans a c where
  done h := h2.done (h1.done h)
  interrupted h := h2.interrupted (h1.interrupted h)
  exclusive h := h2.exclusive (h1.exclusive h)
  callers_done h := by
    rcases h1.callers_done h with h3 | h3 <;> rcases h2.callers_done (h1.done h) with h4 | h4
    · exact Or.inl (h4.trans h3)
    · exact Or.inr h4
    · exact Or.inr (h4.trans h3)
    · exact Or.inr h4
  callers_interrupted h :=
    (h2.callers_interrupted (h1.interrupted h)).trans (h1.callers_interrupted h)
  kind := h2.kind.trans h1.kind

theorem TransFrom.step {x : Option YieldInstruction} {b c : YieldInstruction}
    (h1 : TransFrom x b) (h2 : Trans b c) : TransFrom x c := by
  cases x with
  | none => exact h2.exclusive h1
  | some a => exact Trans.comp h1 h2

/-- An update that keeps the flags, the callers and the class keeps `TransFrom`. -/
theorem TransFrom.keep {x : Option YieldInstruction} {o o' : YieldInstruction}
    (h : TransFrom x o) (hd : o'.done = o.done) (hi : o'.interrupted = o.interrupted)
    (hc : o'.callers = o.callers) (hk : o'.cls.kind = o.cls.kind) : TransFrom x o' := by
  refine h.step ⟨?_, ?_, ?_, ?_, ?_, hk⟩
  · intro h1; rw [hd]; exact h1
  · intro h1; rw [hi]; exact h1
  · rw [hd, hi]; exact id
  · intro _; exact Or.inl hc
  · intro _; exact hc

theorem since_append {s0 s : State} {l : List Event} (h : s.log = s0.log ++ l) :
    since s0 s = l := by
  simp [since, h]

theorem since_self (s : State) : since s s = [] := by
  simp [since]

theorem LogOK.nil (s0 : State) : LogOK s0 [] :=
  ⟨fun _ _ _ _ e he => by simp at he, fun _ _ _ _ e he => by simp at he,
    fun _ _ e he => by simp at he, fun _ _ _ _ _ e he => by simp at he⟩

theorem Evolves.start (s : State) : Evolves s s where
  len := le_refl _
  objs w o h := by
    rw [h]
    exact Trans.same o
  log := by simp [since_self]
  logOK := by
    rw [since_self]
    exact LogOK.nil s

/-- Build `Evolves` from an explicit piece of trace. -/
theorem Evolves.intro {s0 s : State} (l : List Event) (hlen : s0.objs.length ≤ s.objs.length)
    (hobjs : ∀ (w : Ref) (o : YieldInstruction), s.objs[w]? = some o → TransFrom s0.objs[w]? o)
    (hlog : s.log = s0.log ++ l) (hok : LogOK s0 l) : Evolves s0 s where
  len := hlen
  objs := hobjs
  log := by rw [since_append hlog]; exact hlog
  logOK := by rw [since_append hlog]; exact hok

theorem Evolves.since_trans {a b c : State} (h1 : Evolves a b) (h2 : Evolves b c) :
    since a c = since a b ++ since b c := by
  apply since_append
  rw [h2.log, h1.log, List.append_assoc]

theorem Evolves.append {a b c : State} (h1 : Evolves a b) (h2 : Evolves b c) : Evolves a c := by
  refine Evolves.intro (since a b ++ since b c) (le_trans h1.len h2.len) ?_ ?_ ?_
  · intro w o ho
    have h3 := h2.objs w o ho
    cases hb : b.objs[w]? with
    | none =>
      rw [hb] at h3
      have ha : a.objs[w]? = none := by
        rw [List.getElem?_eq_none_iff] at hb ⊢
        exact le_trans h1.len hb
      rw [ha]
      exact h3
    | some ob =>
      rw [hb] at h3
      exact (h1.objs w ob hb).step h3
  · rw [h2.log, h1.log, List.append_assoc]
  · refine ⟨?_, ?_, ?_, ?_⟩
    · intro w o ho hs e he
      rcases List.mem_append.1 he with he | he
      · exact h1.logOK.settled w o ho hs e he
      · have hlt : w < b.objs.length :=
          lt_of_lt_of_le (List.getElem?_eq_some_iff.1 ho).1 h1.len
        obtain ⟨ob, hob⟩ : ∃ ob, b.objs[w]? = some ob := ⟨b.objs[w], List.getElem?_eq_getElem hlt⟩
        have ht := h1.objs w ob hob
        rw [ho] at ht
        refine h2.logOK.settled w ob hob ?_ e he
        rcases hs with hs | hs
        · exact Or.inl (ht.done hs)
        · exact Or.inr (ht.interrupted hs)
    · intro w o ho hs e he
      rcases List.mem_append.1 he with he | he
      · exact h1.logOK.interrupted w o ho hs e he
      · have hlt : w < b.objs.length :=
          lt_of_lt_of_le (List.getElem?_eq_some_iff.1 ho).1 h1.len
        obtain ⟨ob, hob⟩ : ∃ ob, b.objs[w]? = some ob := ⟨b.objs[w], List.getElem?_eq_getElem hlt⟩
        have ht := h1.objs w ob hob
        rw [ho] at ht
        exact h2.logOK.interrupted w ob hob (ht.interrupted hs) e he
    · intro w hw e he
      rw [List.mem_append, not_or] at hw
      rcases List.mem_append.1 he with he | he
      · exact h1.logOK.resumes w hw.1 e he
      · exact h2.logOK.resumes w hw.2 e he
    · intro w o ho hd hc e he
      rcases List.mem_append.1 he with he | he
      · exact h1.logOK.quiet w o ho hd hc e he
      · have hlt : w < b.objs.length :=
          lt_of_lt_of_le (List.getElem?_eq_some_iff.1 ho).1 h1.len
        obtain ⟨ob, hob⟩ : ∃ ob, b.objs[w]? = some ob := ⟨b.objs[w], List.getElem?_eq_getElem hlt⟩
        have ht := h1.objs w ob hob
        rw [ho] at ht
        refine h2.logOK.quiet w ob hob (ht.done hd) ?_ e he
        rcases ht.callers_done hd with h3 | h3
        · rw [h3, hc]
        · exact h3

theorem Evolves.congr {s0 s s1 : State} (h : Evolves s0 s) (ho : s1.objs = s.objs)
    (hl : s1.log = s.log) : Evolves s0 s1 := by
  refine Evolves.intro (since s0 s) ?_ ?_ ?_ h.logOK
  · rw [ho]; exact h.len
  · intro w o
    rw [ho]
    exact h.objs w o
  · rw [hl]; exact h.log

theorem Evolves.emit {s0 s : State} (h : Evolves s0 s) (e : Event)
    (he : EmitOK s0 (since s0 s) e) : Evolves s0 (s.emit e) := by
  refine Evolves.intro (since s0 s ++ [e]) h.len h.objs ?_ ⟨?_, ?_, ?_, ?_⟩
  · rw [emit_log, ← List.append_assoc, ← h.log]
  · intro w o ho hs x hx
    rcases List.mem_append.1 hx with hx | hx
    · exact h.logOK.settled w o ho hs x hx
    · rw [List.mem_singleton] at hx
      subst hx
      exact he.settled w o ho hs
  · intro w o ho hs x hx
    rcases List.mem_append.1 hx with hx | hx
    · exact h.logOK.interrupted w o ho hs x hx
    · rw [List.mem_singleton] at hx
      subst hx
      exact he.interrupted w o ho hs
  · intro w hw x hx
    rw [List.mem_append, not_or] at hw
    rcases List.mem_append.1 hx with hx | hx
    · exact h.logOK.resumes w hw.1 x hx
    · rw [List.mem_singleton] at hx
      subst hx
      cases hr : x.resumesFrom w with
      | false => rfl
      | true => exact absurd (he.resumes w hr) hw.1
  · intro w o ho hd hc x hx
    rcases List.mem_append.1 hx with hx | hx
    · exact h.logOK.quiet w o ho hd hc x hx
    · rw [List.mem_singleton] at hx
      subst hx
      exact he.quiet w o ho hd hc

theorem Evolves.update {s0 s : State} (h : Evolves s0 s) (w : Ref)
    (f : YieldInstruction → YieldInstruction)
    (hf : ∀ o, s.objs[w]? = some o → TransFrom s0.objs[w]? o → TransFrom s0.objs[w]? (f o)) :
    Evolves s0 (s.update w f) := by
  refine Evolves.intro (since s0 s) ?_ ?_ ?_ h.logOK
  · rw [update_objs_length]; exact h.len
  · intro i o ho
    rw [update_objs] at ho
    split at ho
    · rename_i hi
      subst hi
      cases hs : s.objs[i]? with
      | none => rw [hs] at ho; simp at ho
      | some o1 =>
        rw [hs] at ho
        simp at ho
        subst ho
        exact hf o1 hs (h.objs i o1 hs)
    · exact h.objs i o ho
  · rw [update_log]; exact h.log

theorem Evolves.alloc {s0 s : State} (h : Evolves s0 s) (o : YieldInstruction)
    (ho : ¬(o.done = true ∧ o.interrupted = true)) : Evolves s0 (s.alloc o).1 := by
  refine Evolves.intro (since s0 s) ?_ ?_ ?_ h.logOK
  · simp only [alloc_objs, List.length_append, List.length_singleton]
    exact le_trans h.len (Nat.le_succ _)
  · intro i x hx
    rw [alloc_objs] at hx
    by_cases hi : i < s.objs.length
    · rw [List.getElem?_append_left hi] at hx
      exact h.objs i x hx
    · have hi2 : s.objs.length ≤ i := Nat.le_of_not_lt hi
      rw [List.getElem?_append_right hi2] at hx
      have h0 : s0.objs[i]? = none := by
        rw [List.getElem?_eq_none_iff]
        exact le_trans h.len hi2
      rw [h0]
      cases hj : i - s.objs.length with
      | zero =>
        rw [hj] at hx
        simp at hx
        subst hx
        exact ho
      | succ j =>
        rw [hj] at hx
        simp at hx
  · rw [alloc_log]; exact h.log

theorem Evolves.call {rec : Call → State → Res} (hrec : Pres rec) {s0 s : State}
    (h : Evolves s0 s) (c : Call) : Evolves s0 (rec c s).st :=
  h.append (hrec c s)

/-! ## Steps that keep the invariant relation -/

@[simp]
theorem ok_st (s : State) : (ok s).st = s := rfl

@[simp]
theorem ok_out (s : State) : (ok s).out = .ok := rfl

@[simp]
theorem raise_st (e : Value) (s : State) : (raise e s).st = s := rfl

@[simp]
theorem raise_out (e : Value) (s : State) : (raise e s).out = .thrown e := rfl

/-- A property of the final state passes through a sequence. -/
theorem Res.andThen_ind {P : State → Prop} {r : Res} {k : State → Res} (h1 : P r.st)
    (hk : ∀ s1, P s1 → P (k s1).st) : P (r.andThen k).st := by
  unfold Res.andThen
  split
  · exact hk _ h1
  · exact h1

/-- A property of the final state passes through a handler. -/
theorem Res.orCatch_ind {P : State → Prop} {r : Res} {k : Value → State → Res} (h1 : P r.st)
    (hk : ∀ e s1, P s1 → P (k e s1).st) : P (r.orCatch k).st := by
  unfold Res.orCatch
  split
  · exact hk _ _ h1
  · exact h1

theorem EmitOK.plain {s0 : State} {l : List Event} {e : Event}
    (h1 : ∀ w, e.escalates w = false) (h2 : ∀ w, e.interruptsFrom w = false)
    (h3 : ∀ w, e.resumesFrom w = false) : EmitOK s0 l e :=
  ⟨fun w _ _ _ => ⟨h1 w, h2 w⟩, fun w _ _ _ => h3 w, fun w h => (by rw [h3 w] at h; cases h),
    fun w _ _ _ _ => h3 w⟩

theorem Evolves.swallowed {s0 : State} {r : Res} (h : Evolves s0 r.st) :
    Evolves s0 r.swallow.st := by
  unfold Res.swallow
  split
  · exact h.emit _ (EmitOK.plain (fun _ => rfl) (fun _ => rfl) (fun _ => rfl))
  · exact h

theorem Evolves.setTimeout {s0 s : State} (h : Evolves s0 s) (fn : TimerFn) (ms : Int)
    (t : Ref) : Evolves s0 (setTimeout fn ms t s).1 :=
  (h.emit (.setTimeout s.nextHandle fn t)
    (EmitOK.plain (fun _ => rfl) (fun _ => rfl) (fun _ => rfl))).congr rfl rfl

theorem Evolves.clearTimeout {s0 s : State} (h : Evolves s0 s) (t : Option Nat) :
    Evolves s0 (clearTimeout t s) :=
  (h.emit (.clearTimeout t)
    (EmitOK.plain (fun _ => rfl) (fun _ => rfl) (fun _ => rfl))).congr (by simp) (by simp)

theorem Evolves.updateGen {s0 s : State} (h : Evolves s0 s) (g : Ref)
    (f : Generator → Generator) : Evolves s0 (s.updateGen g f) :=
  h.congr (by simp) (by simp)

theorem Evolves.updatePromise {s0 s : State} (h : Evolves s0 s) (p : Ref)
    (f : PromiseObj → PromiseObj) : Evolves s0 (s.updatePromise p f) :=
  h.congr (by simp) (by simp)

theorem Evolves.finish {s0 s : State} (h : Evolves s0 s) (g : Ref) (v : Value) :
    Evolves s0 (s.finish g v) :=
  h.congr (by simp) (by simp)

theorem new_fresh (cls : Class) :
    ¬((YieldInstruction.new cls).done = true ∧ (YieldInstruction.new cls).interrupted = true) := by
  simp [YieldInstruction.new]

theorem Evolves.convert {s0 s : State} (h : Evolves s0 s) (v : Value) :
    Evolves s0 (ConvertToYieldInstruction v s).1 := by
  unfold ConvertToYieldInstruction
  split
  · exact h.alloc _ (new_fresh _)
  · exact h
  · exact h
  · exact h.alloc _ (new_fresh _)
  · exact h

/-- An update of fields other than the flags and the callers. -/
theorem Evolves.framed {s0 s : State} (h : Evolves s0 s) (w : Ref)
    (f : YieldInstruction → YieldInstruction) (hd : ∀ o, (f o).done = o.done)
    (hi : ∀ o, (f o).interrupted = o.interrupted) (hc : ∀ o, (f o).callers = o.callers)
    (hk : ∀ o, (f o).cls.kind = o.cls.kind) : Evolves s0 (s.update w f) :=
  h.update w f fun o _ ht => ht.keep (hd o) (hi o) (hc o) (hk o)

theorem setTimer_frame (t : Option Nat) (o : YieldInstruction) :
    (o.setTimer t).done = o.done ∧ (o.setTimer t).interrupted = o.interrupted ∧
      (o.setTimer t).callers = o.callers ∧ (o.setTimer t).cls.kind = o.cls.kind := by
  unfold YieldInstruction.setTimer
  split <;> simp_all [Class.kind]

theorem setCurrent_frame (r : IterResult) (o : YieldInstruction) :
    (o.setCurrent r).done = o.done ∧ (o.setCurrent r).interrupted = o.interrupted ∧
      (o.setCurrent r).callers = o.callers ∧ (o.setCurrent r).cls.kind = o.cls.kind := by
  unfold YieldInstruction.setCurrent
  split <;> simp_all [Class.kind]

theorem setCallee_frame (c : Callee) (o : YieldInstruction) :
    (o.setCallee c).done = o.done ∧ (o.setCallee c).interrupted = o.interrupted ∧
      (o.setCallee c).callers = o.callers ∧ (o.setCallee c).cls.kind = o.cls.kind := by
  unfold YieldInstruction.setCallee
  split <;> simp_all [Class.kind]

theorem setWrapped_frame (y : Option Ref) (n : Int) (o : YieldInstruction) :
    (o.setWrapped y n).done = o.done ∧ (o.setWrapped y n).interrupted = o.interrupted ∧
      (o.setWrapped y n).callers = o.callers ∧ (o.setWrapped y n).cls.kind = o.cls.kind := by
  unfold YieldInstruction.setWrapped
  split <;> simp_all [Class.kind]

theorem Evolves.setTimer {s0 s : State} (h : Evolves s0 s) (w : Ref) (t : Option Nat) :
    Evolves s0 (s.update w (YieldInstruction.setTimer t)) :=
  h.framed w _ (fun o => (setTimer_frame t o).1) (fun o => (setTimer_frame t o).2.1)
    (fun o => (setTimer_frame t o).2.2.1) (fun o => (setTimer_frame t o).2.2.2)

theorem Evolves.setCurrent {s0 s : State} (h : Evolves s0 s) (w : Ref) (r : IterResult) :
    Evolves s0 (s.update w (YieldInstruction.setCurrent r)) :=
  h.framed w _ (fun o => (setCurrent_frame r o).1) (fun o => (setCurrent_frame r o).2.1)
    (fun o => (setCurrent_frame r o).2.2.1) (fun o => (setCurrent_frame r o).2.2.2)

theorem Evolves.setCallee {s0 s : State} (h : Evolves s0 s) (w : Ref) (c : Callee) :
    Evolves s0 (s.update w (YieldInstruction.setCallee c)) :=
  h.framed w _ (fun o => (setCallee_frame c o).1) (fun o => (setCallee_frame c o).2.1)
    (fun o => (setCallee_frame c o).2.2.1) (fun o => (setCallee_frame c o).2.2.2)

theorem Evolves.setWrapped {s0 s : State} (h : Evolves s0 s) (w : Ref) (y : Option Ref)
    (n : Int) : Evolves s0 (s.update w (YieldInstruction.setWrapped y n)) :=
  h.framed w _ (fun o => (setWrapped_frame y n o).1) (fun o => (setWrapped_frame y n o).2.1)
    (fun o => (setWrapped_frame y n o).2.2.1) (fun o => (setWrapped_frame y n o).2.2.2)

/-- The write `this.done = true` of `End`, made on an object that is not interrupted. -/
theorem TransFrom.setDone {x : Option YieldInstruction} {o : YieldInstruction}
    (h : TransFrom x o) (hi : o.interrupted = false) : TransFrom x { o with done := true } := by
  refine h.step ⟨fun _ => rfl, id, ?_, fun _ => Or.inl rfl, fun _ => rfl, rfl⟩
  intro _ h2
  rw [hi] at h2
  exact absurd h2.2 (by decide)

/-- The write `this.interrupted = true` of `Interrupt`, made on a pending object. -/
theorem TransFrom.setInterrupted {x : Option YieldInstruction} {o : YieldInstruction}
    (h : TransFrom x o) (hd : o.done = false) (hi : o.interrupted = false) :
    TransFrom x { o with interrupted := true } := by
  cases x with
  | none =>
    intro h2
    rw [hd] at h2
    exact absurd h2.1 (by decide)
  | some a =>
    have h1 : Trans a o := h
    have had : a.done = false := by
      cases hx : a.done with
      | false => rfl
      | true => rw [h1.done hx] at hd; cases hd
    have hai : a.interrupted = false := by
      cases hx : a.interrupted with
      | false => rfl
      | true => rw [h1.interrupted hx] at hi; cases hi
    refine ⟨?_, fun _ => rfl, ?_, ?_, ?_, h1.kind⟩
    · intro h2; rw [had] at h2; cases h2
    · intro _ h2
      rw [hd] at h2
      exact absurd h2.1 (by decide)
    · intro h2; rw [had] at h2; cases h2
    · intro h2; rw [hai] at h2; cases h2

/-- The write `this.callers.push(caller)` of `Start`, made on a pending object. -/
theorem TransFrom.push {x : Option YieldInstruction} {o : YieldInstruction}
    (h : TransFrom x o) (hd : o.done = false) (hi : o.interrupted = false) (cs : List Ref) :
    TransFrom x { o with callers := cs } := by
  refine h.step ⟨id, id, id, ?_, ?_, rfl⟩
  · intro h2; rw [hd] at h2; cases h2
  · intro h2; rw [hi] at h2; cases h2

/-- The write `this.callers = []`, in a call that was entered while the object was not
interrupted. -/
theorem TransFrom.clear {x : Option YieldInstruction} {o : YieldInstruction}
    (h : TransFrom x o) (hx : ∀ a, x = some a → a.interrupted = false) :
    TransFrom x { o with callers := [] } := by
  cases x with
  | none => exact h
  | some a =>
    have h1 : Trans a o := h
    have hai := hx a rfl
    refine ⟨h1.done, h1.interrupted, h1.exclusive, fun _ => Or.inr rfl, ?_, h1.kind⟩
    intro h2; rw [hai] at h2; cases h2

/-! ## Every method keeps the invariant relation -/

section Methods

variable {rec : Call → State → Res}

theorem WaitForSeconds.timer_evolves {s0 s : State} (h : Evolves s0 s) (w : Ref)
    (seconds : Int) : Evolves s0 (WaitForSeconds.OnStarted w seconds s).st :=
  (h.setTimeout _ _ _).setTimer _ _

theorem Coroutine.turn_evolves (hrec : Pres rec) {s0 s : State} (h : Evolves s0 s)
    (w : Ref) : Evolves s0 (Coroutine.OnStarted rec w s).st := by
  unfold Coroutine.OnStarted
  split
  · exact h
  · split
    · split
      · exact h.call hrec _
      · refine Res.andThen_ind (h.call hrec _) ?_
        intro s1 h1
        simp only []
        split
        · exact (((h1.setCurrent _ _).convert _).setCallee _ _).call hrec _
        · exact ((h1.setCurrent _ _).convert _).call hrec _
    · exact h

theorem Wait.started_evolves (hrec : Pres rec) {s0 s : State} (h : Evolves s0 s)
    (w : Ref) (y : Option Ref) (t : Option Nat) :
    Evolves s0 (Wait.OnStarted rec w y t s).st := by
  unfold Wait.OnStarted
  split
  · exact h
  · split
    · exact h
    · split
      · exact h.call hrec _
      · refine Evolves.call hrec ?_ _
        exact (h.clearTimeout _).framed _ _ (fun _ => rfl) (fun _ => rfl) (fun _ => rfl)
          (fun _ => rfl)

theorem OnStarted_evolves (hrec : Pres rec) {s0 s : State} (h : Evolves s0 s) (w : Ref) :
    Evolves s0 (OnStarted rec w s).st := by
  have h1 : Evolves s0 (s.emit (.OnStarted w)) :=
    h.emit _ (EmitOK.plain (fun _ => rfl) (fun _ => rfl) (fun _ => rfl))
  unfold OnStarted
  simp only []
  split
  · exact h1
  · split
    · exact h1
    · exact WaitForSeconds.timer_evolves h1 _ _
    · exact h1.updatePromise _ _
    · exact Coroutine.turn_evolves hrec h1 _
    · exact Wait.started_evolves hrec h1 _ _ _

theorem OnInterrupted_evolves (hrec : Pres rec) {s0 s : State} (h : Evolves s0 s) (w : Ref) :
    Evolves s0 (OnInterrupted rec w s).st := by
  have h1 : Evolves s0 (s.emit (.OnInterrupted w)) :=
    h.emit _ (EmitOK.plain (fun _ => rfl) (fun _ => rfl) (fun _ => rfl))
  unfold OnInterrupted
  simp only []
  split
  · exact h1
  · split
    · exact (h1.clearTimeout _).setTimer _ _
    · unfold Coroutine.OnInterrupted
      split
      · exact h1
      · exact h1.call hrec _
    · exact h1

theorem escalates_eq {w v : Ref} {x : Value} (h : (Event.OnThown w x).escalates v = true) :
    v = w := by
  simp [Event.escalates] at h
  exact h.symm

theorem OnThown_evolves (hrec : Pres rec) {s0 s : State} (h : Evolves s0 s) (w : Ref)
    (error : Value) (hp : PendingAt s0 w) : Evolves s0 (OnThown rec w error s).st := by
  have h1 : Evolves s0 (s.emit (.OnThown w error)) := by
    refine h.emit _ ⟨?_, fun _ _ _ _ => rfl, fun v hv => (by cases hv), fun _ _ _ _ _ => rfl⟩
    intro v o ho hs
    refine ⟨?_, rfl⟩
    cases hv : (Event.OnThown w error).escalates v with
    | false => rfl
    | true =>
      have := escalates_eq hv
      subst this
      have hp2 := hp o ho
      rcases hs with hs | hs
      · rw [hp2.1] at hs; cases hs
      · rw [hp2.2] at hs; cases hs
  unfold OnThown
  simp only []
  split
  · exact h1
  · split
    · exact h1.call hrec _
    · exact h1

theorem forEachInterrupt_evolves (hrec : Pres rec) {s0 : State} (w : Ref) (error : Value)
    (hp : PendingAt s0 w) (cs : List Ref) :
    ∀ s, Evolves s0 s → Evolves s0 (forEachInterrupt rec w error cs s).st := by
  induction cs with
  | nil => intro s h; exact h
  | cons c cs ih =>
    intro s h
    unfold forEachInterrupt
    refine Res.andThen_ind ?_ ih
    refine Evolves.call hrec ?_ _
    refine h.emit _ ⟨?_, fun _ _ _ _ => rfl, fun v hv => (by cases hv), fun _ _ _ _ _ => rfl⟩
    intro v o ho hs
    refine ⟨rfl, ?_⟩
    cases hv : (Event.interrupts w c error).interruptsFrom v with
    | false => rfl
    | true =>
      have hvw : v = w := by
        simp [Event.interruptsFrom] at hv
        exact hv.symm
      subst hvw
      have hp2 := hp o ho
      rcases hs with hs | hs
      · rw [hp2.1] at hs; cases hs
      · rw [hp2.2] at hs; cases hs

theorem forEachStart_evolves (hrec : Pres rec) {s0 : State} (w : Ref)
    (hp : ∀ o, s0.objs[w]? = some o → o.interrupted = false) (cs : List Ref)
    (hq : ∀ o, s0.objs[w]? = some o → o.callers = [] → cs = []) :
    ∀ s, Evolves s0 s ∧ Event.End w ∈ since s0 s →
      Evolves s0 (forEachStart rec w cs s).st ∧
        Event.End w ∈ since s0 (forEachStart rec w cs s).st := by
  induction cs with
  | nil => intro s h; exact h
  | cons c cs ih =>
    intro s h
    have hq1 : ∀ o, s0.objs[w]? = some o → o.callers ≠ [] := by
      intro o ho hc
      cases hq o ho hc
    unfold forEachStart
    refine Res.andThen_ind (P := fun x => Evolves s0 x ∧ Event.End w ∈ since s0 x) ?_
      (ih fun o ho hc => absurd hc (hq1 o ho))
    have h1 : Evolves s0 (s.emit (.resumes w c)) := by
      refine h.1.emit _ ⟨fun _ _ _ _ => ⟨rfl, rfl⟩, ?_, ?_, ?_⟩
      · intro v o ho hs
        cases hv : (Event.resumes w c).resumesFrom v with
        | false => rfl
        | true =>
          have hvw : v = w := by
            simp [Event.resumesFrom] at hv
            exact hv.symm
          subst hvw
          rw [hp o ho] at hs
          cases hs
      · intro v hv
        have hvw : v = w := by
          simp [Event.resumesFrom] at hv
          exact hv.symm
        subst hvw
        exact h.2
      · intro v o ho _ hc
        cases hv : (Event.resumes w c).resumesFrom v with
        | false => rfl
        | true =>
          have hvw : v = w := by
            simp [Event.resumesFrom] at hv
            exact hv.symm
          subst hvw
          exact absurd hc (hq1 o ho)
    have h2 : Event.End w ∈ since s0 (s.emit (.resumes w c)) := by
      have : since s0 (s.emit (.resumes w c)) = since s0 s ++ [.resumes w c] := by
        apply since_append
        rw [emit_log, ← List.append_assoc, ← h.1.log]
      rw [this]
      exact List.mem_append_left _ h.2
    refine ⟨h1.call hrec _, ?_⟩
    have h3 := h1.since_trans (hrec (.Start c .undefined) (s.emit (.resumes w c)))
    rw [h3]
    exact List.mem_append_left _ h2


theorem Start_evolves (hrec : Pres rec) (w : Ref) (caller : Caller) (s : State) :
    Evolves s (YieldInstruction.Start rec w caller s).st := by
  have h0 : Evolves s (s.emit (.Start w caller)) :=
    (Evolves.start s).emit _ (EmitOK.plain (fun _ => rfl) (fun _ => rfl) (fun _ => rfl))
  unfold YieldInstruction.Start
  simp only []
  split
  · exact h0
  · rename_i self hself
    split
    · split
      · exact h0
      · exact h0
      · exact h0.call hrec _
    · rename_i hi
      refine Res.andThen_ind ?_ ?_
      · split
        · split
          · exact h0.call hrec _
          · rename_i hd
            refine h0.update _ _ ?_
            intro o ho ht
            rw [hself] at ho
            cases ho
            exact ht.push (by simpa using hd) (by simpa using hi) _
        · exact h0
      · intro s1 h1
        refine Res.orCatch_ind (OnStarted_evolves hrec h1 w) ?_
        intro e s2 h2
        exact h2.call hrec _

theorem End_evolves (hrec : Pres rec) (w : Ref) (s : State) :
    Evolves s (YieldInstruction.End rec w s).st := by
  have h0 : Evolves s (s.emit (.End w)) :=
    (Evolves.start s).emit _ (EmitOK.plain (fun _ => rfl) (fun _ => rfl) (fun _ => rfl))
  have hE : Event.End w ∈ since s (s.emit (.End w)) := by
    have : since s (s.emit (.End w)) = [.End w] := since_append (by simp)
    rw [this]
    exact List.mem_singleton.2 rfl
  unfold YieldInstruction.End
  simp only []
  split
  · exact h0
  · rename_i self hself
    split
    · exact h0
    · rename_i hi
      have hi2 : self.interrupted = false := by simpa using hi
      have hp : ∀ o, s.objs[w]? = some o → o.interrupted = false := by
        intro o ho
        rw [emit_objs] at hself
        rw [hself] at ho
        cases ho
        exact hi2
      have h1 : Evolves s ((s.emit (.End w)).update w fun o => { o with done := true }) := by
        refine h0.update _ _ ?_
        intro o ho ht
        rw [hself] at ho
        cases ho
        exact ht.setDone hi2
      have hE1 : Event.End w ∈
          since s ((s.emit (.End w)).update w fun o => { o with done := true }) := by
        have : since s ((s.emit (.End w)).update w fun o => { o with done := true })
            = [.End w] := since_append (by simp)
        rw [this]
        exact List.mem_singleton.2 rfl
      have hq : ∀ o, s.objs[w]? = some o → o.callers = [] → self.callers = [] := by
        intro o ho hc
        rw [emit_objs] at hself
        rw [hself] at ho
        cases ho
        exact hc
      have h2 := forEachStart_evolves hrec w hp self.callers hq _ ⟨h1, hE1⟩
      refine Res.andThen_ind h2.1 ?_
      intro s1 h3
      refine h3.update _ _ ?_
      intro o _ ht
      exact ht.clear fun a ha => hp a ha

theorem Interrupt_evolves (hrec : Pres rec) (w : Ref) (error : Value) (s : State) :
    Evolves s (YieldInstruction.Interrupt rec w error s).st := by
  have h0 : Evolves s (s.emit (.Interrupt w error)) :=
    (Evolves.start s).emit _ (EmitOK.plain (fun _ => rfl) (fun _ => rfl) (fun _ => rfl))
  unfold YieldInstruction.Interrupt
  simp only []
  split
  · exact h0
  · rename_i self0 hself0
    have h1 : Evolves s ((s.emit (.Interrupt w error)).update w
        fun o => { o with error := error }) :=
      h0.framed _ _ (fun _ => rfl) (fun _ => rfl) (fun _ => rfl) (fun _ => rfl)
    split
    · exact h1
    · rename_i self hself
      split
      · exact h1
      · rename_i hflags
        have hself2 : self = { self0 with error := error } := by
          rw [update_objs_self, hself0] at hself
          simpa using hself.symm
        have hd : self.done = false := by
          cases hx : self.done with
          | false => rfl
          | true => simp [hx] at hflags
        have hi : self.interrupted = false := by
          cases hx : self.interrupted with
          | false => rfl
          | true => simp [hx] at hflags
        have hp : PendingAt s w := by
          intro o ho
          rw [emit_objs] at hself0
          rw [hself0] at ho
          cases ho
          rw [hself2] at hd hi
          exact ⟨hd, hi⟩
        have h2 : Evolves s (((s.emit (.Interrupt w error)).update w
            fun o => { o with error := error }).update w
            fun o => { o with interrupted := true }) := by
          refine h1.update _ _ ?_
          intro o ho ht
          rw [hself] at ho
          cases ho
          exact ht.setInterrupted hd hi
        refine Res.andThen_ind (OnInterrupted_evolves hrec h2 w) ?_
        intro s3 h3
        split
        · exact h3
        · rename_i self3 _
          refine Res.andThen_ind (forEachInterrupt_evolves hrec w error hp self3.callers s3 h3) ?_
          intro s4 h4
          split
          · exact h4
          · have h5 : Evolves s (s4.update w fun o => { o with callers := [] }) := by
              refine h4.update _ _ ?_
              intro o _ ht
              exact ht.clear fun a ha => (hp a ha).2
            split
            · exact OnThown_evolves hrec h5 w error hp
            · exact h5

theorem Throw_evolves (hrec : Pres rec) (w : Ref) (error : Value) (s : State) :
    Evolves s (YieldInstruction.Throw rec w error s).st :=
  hrec _ _

theorem Callback.call_evolves (hrec : Pres rec) (r : Ref) (args : List Atom) (s : State) :
    Evolves s (Callback.call rec r args s).st := by
  have h0 : Evolves s (s.emit (.invoke r args)) :=
    (Evolves.start s).emit _ (EmitOK.plain (fun _ => rfl) (fun _ => rfl) (fun _ => rfl))
  unfold Callback.call
  simp only []
  split
  · exact h0
  · have h1 : Evolves s ((s.emit (.invoke r args)).update r
        fun o => { o with argumentsQueue := o.argumentsQueue ++ [.args args] }) :=
      h0.framed _ _ (fun _ => rfl) (fun _ => rfl) (fun _ => rfl) (fun _ => rfl)
    split
    · exact h1
    · refine Res.andThen_ind ?_ ?_
      · split
        · exact h1.call hrec _
        · exact h1
      · intro s2 h2
        exact h2.call hrec _

theorem Wait.new_evolves (hrec : Pres rec) (object : Value) (seconds : Int) (s : State) :
    Evolves s (Wait.new rec object seconds s).st := by
  have h0 : Evolves s (s.alloc (YieldInstruction.new (.Wait none none none))).1 :=
    (Evolves.start s).alloc _ (new_fresh _)
  have h1 := h0.convert object
  unfold Wait.new
  simp only []
  refine Res.andThen_ind ?_ ?_
  · split
    · exact h1.call hrec _
    · exact h1
  · intro s2 h2
    exact ((h2.setWrapped _ _ _).setTimeout _ _ _).setTimer _ _

theorem Wait.OnTimeOut_evolves (hrec : Pres rec) (w : Ref) (s : State) :
    Evolves s (Wait.OnTimeOut rec w s).st := by
  have h0 : Evolves s (s.emit (.OnTimeOut w)) :=
    (Evolves.start s).emit _ (EmitOK.plain (fun _ => rfl) (fun _ => rfl) (fun _ => rfl))
  unfold Wait.OnTimeOut
  simp only []
  split
  · exact h0
  · split
    · exact h0.call hrec _
    · exact h0

theorem Generator.run_evolves (hrec : Pres rec) (g : Ref) (s : State) :
    Evolves s (Generator.run rec g s).st := by
  have h0 := Evolves.start s
  unfold Generator.run
  split
  · exact h0
  · split
    · exact h0.finish _ _
    · exact h0.finish _ _
    · exact h0.finish _ _
    · exact h0.updateGen _ _
    · exact h0.updateGen _ _
    · simp only []
      refine Res.andThen_ind ?_ ?_
      · refine Res.orCatch_ind ((h0.updateGen _ _).call hrec _) ?_
        intro e s1 h1
        exact h1.finish _ _
      · intro s1 h1
        exact h1.call hrec _

theorem Generator.next_evolves (hrec : Pres rec) (g : Ref) (input : Value) (s : State) :
    Evolves s (Generator.next rec g input s).st := by
  have h0 : Evolves s (s.emit (.next g input)) :=
    (Evolves.start s).emit _ (EmitOK.plain (fun _ => rfl) (fun _ => rfl) (fun _ => rfl))
  unfold Generator.next
  simp only []
  split
  · exact h0
  · split
    · exact h0
    · exact h0.updateGen _ _
    · exact (h0.updateGen _ _).call hrec _
    · exact (h0.updateGen _ _).call hrec _

theorem Generator.inject_evolves (hrec : Pres rec) (g : Ref) (error : Value) (s : State) :
    Evolves s (Generator.inject rec g error s).st := by
  have h0 : Evolves s (s.emit (.inject g error)) :=
    (Evolves.start s).emit _ (EmitOK.plain (fun _ => rfl) (fun _ => rfl) (fun _ => rfl))
  unfold Generator.inject
  simp only []
  split
  · exact h0
  · split
    · exact h0
    · exact h0
    · exact h0.finish _ _
    · split
      · exact (h0.updateGen _ _).call hrec _
      · exact h0.finish _ _

theorem fire_evolves (hrec : Pres rec) (handle : Nat) (s : State) :
    Evolves s (fire rec handle s).st := by
  unfold fire
  split
  · exact Evolves.start s
  · have h0 : Evolves s
        ({ s with timers := s.timers.filter fun t => t.handle != handle }.emit (.fire handle)) :=
      Evolves.emit
        (show Evolves s { s with timers := s.timers.filter fun t => t.handle != handle } from
          Evolves.congr (Evolves.start s) rfl rfl)
        (.fire handle) (EmitOK.plain (fun _ => rfl) (fun _ => rfl) (fun _ => rfl))
    simp only []
    split
    · exact h0.call hrec _
    · exact h0.call hrec _

theorem settle_evolves (p : Ref) (outcome : PromiseState) (s : State) :
    Evolves s (settle p outcome s).st :=
  (Evolves.start s).updatePromise _ _

theorem react_evolves (hrec : Pres rec) (p : Ref) (s : State) :
    Evolves s (react rec p s).st := by
  have h0 := Evolves.start s
  unfold react
  split
  · exact h0
  · split
    · exact h0
    · split
      · exact h0
      · refine Evolves.swallowed ?_
        refine Res.orCatch_ind ((h0.updatePromise _ _).call hrec _) ?_
        intro e s1 h1
        exact h1.call hrec _
      · exact Evolves.swallowed ((h0.updatePromise _ _).call hrec _)

theorem step_evolves (hrec : Pres rec) : Pres (step rec) := by
  intro c s
  cases c with
  | Start w caller => exact Start_evolves hrec w caller s
  | End w => exact End_evolves hrec w s
  | Interrupt w error => exact Interrupt_evolves hrec w error s
  | Throw w error => exact Throw_evolves hrec w error s
  | loop w => exact Coroutine.turn_evolves hrec (Evolves.start s) w
  | invoke r args => exact Callback.call_evolves hrec r args s
  | newWait object seconds => exact Wait.new_evolves hrec object seconds s
  | OnTimeOut w => exact Wait.OnTimeOut_evolves hrec w s
  | next g input => exact Generator.next_evolves hrec g input s
  | inject g error => exact Generator.inject_evolves hrec g error s
  | run g => exact Generator.run_evolves hrec g s
  | fire handle => exact fire_evolves hrec handle s
  | resolve p => exact settle_evolves p _ s
  | reject p error => exact settle_evolves p _ s
  | react p => exact react_evolves hrec p s

end Methods

/-- Every call keeps the invariant relation, whatever the bound and however it stops. -/
theorem exec_evolves (fuel : Nat) : Pres (exec fuel) := by
  induction fuel with
  | zero => intro c s; exact Evolves.start s
  | succ n ih => exact step_evolves ih

/-! ## A larger bound changes nothing once a call has stopped -/

theorem Stable.self (r : Res) : Stable r r := fun _ => rfl

theorem Stable.seq {r r1 : Res} {k k1 : State → Res} (hr : Stable r r1)
    (hk : ∀ s, Stable (k s) (k1 s)) : Stable (r.andThen k) (r1.andThen k1) := by
  intro h
  have hne : r.out ≠ .outOfFuel := by
    intro ho
    apply h
    simp [Res.andThen, ho]
  have h1 := hr hne
  subst h1
  cases ho : r1.out with
  | ok =>
    simp only [Res.andThen, ho] at h ⊢
    exact hk _ h
  | thrown e => simp only [Res.andThen, ho]
  | outOfFuel => exact absurd ho hne

theorem Stable.handle {r r1 : Res} {k k1 : Value → State → Res} (hr : Stable r r1)
    (hk : ∀ e s, Stable (k e s) (k1 e s)) : Stable (r.orCatch k) (r1.orCatch k1) := by
  intro h
  have hne : r.out ≠ .outOfFuel := by
    intro ho
    apply h
    simp [Res.orCatch, ho]
  have h1 := hr hne
  subst h1
  cases ho : r1.out with
  | ok => simp only [Res.orCatch, ho]
  | thrown e =>
    simp only [Res.orCatch, ho] at h ⊢
    exact hk _ _ h
  | outOfFuel => exact absurd ho hne

theorem Stable.drop {r r1 : Res} (hr : Stable r r1) : Stable r.swallow r1.swallow := by
  intro h
  have hne : r.out ≠ .outOfFuel := by
    intro ho
    apply h
    simp [Res.swallow, ho]
  have h1 := hr hne
  subst h1
  rfl

section Fuel

variable {rec rec1 : Call → State → Res}

theorem Coroutine.turn_stable (ha : Agree rec rec1) (w : Ref) (s : State) :
    Stable (Coroutine.OnStarted rec w s) (Coroutine.OnStarted rec1 w s) := by
  unfold Coroutine.OnStarted
  split
  · exact Stable.self _
  · split
    · split
      · exact ha _ _
      · refine Stable.seq (ha _ _) ?_
        intro s1
        simp only []
        split
        · exact ha _ _
        · exact ha _ _
    · exact Stable.self _

theorem Wait.started_stable (ha : Agree rec rec1) (w : Ref) (y : Option Ref)
    (t : Option Nat) (s : State) :
    Stable (Wait.OnStarted rec w y t s) (Wait.OnStarted rec1 w y t s) := by
  unfold Wait.OnStarted
  split
  · exact Stable.self _
  · split
    · exact Stable.self _
    · split
      · exact ha _ _
      · exact ha _ _

theorem OnStarted_stable (ha : Agree rec rec1) (w : Ref) (s : State) :
    Stable (OnStarted rec w s) (OnStarted rec1 w s) := by
  unfold OnStarted
  simp only []
  split
  · exact Stable.self _
  · split
    · exact Stable.self _
    · exact Stable.self _
    · exact Stable.self _
    · exact Coroutine.turn_stable ha _ _
    · exact Wait.started_stable ha _ _ _ _

theorem OnInterrupted_stable (ha : Agree rec rec1) (w : Ref) (s : State) :
    Stable (OnInterrupted rec w s) (OnInterrupted rec1 w s) := by
  unfold OnInterrupted
  simp only []
  split
  · exact Stable.self _
  · split
    · exact Stable.self _
    · unfold Coroutine.OnInterrupted
      split
      · exact Stable.self _
      · exact ha _ _
    · exact Stable.self _

theorem OnThown_stable (ha : Agree rec rec1) (w : Ref) (error : Value) (s : State) :
    Stable (OnThown rec w error s) (OnThown rec1 w error s) := by
  unfold OnThown
  simp only []
  split
  · exact Stable.self _
  · split
    · exact ha _ _
    · exact Stable.self _

theorem forEachStart_stable (ha : Agree rec rec1) (w : Ref) (cs : List Ref) :
    ∀ s, Stable (forEachStart rec w cs s) (forEachStart rec1 w cs s) := by
  induction cs with
  | nil => intro s; exact Stable.self _
  | cons c cs ih =>
    intro s
    unfold forEachStart
    exact Stable.seq (ha _ _) ih

theorem forEachInterrupt_stable (ha : Agree rec rec1) (w : Ref) (error : Value)
    (cs : List Ref) :
    ∀ s, Stable (forEachInterrupt rec w error cs s) (forEachInterrupt rec1 w error cs s) := by
  induction cs with
  | nil => intro s; exact Stable.self _
  | cons c cs ih =>
    intro s
    unfold forEachInterrupt
    exact Stable.seq (ha _ _) ih

theorem Start_stable (ha : Agree rec rec1) (w : Ref) (caller : Caller) (s : State) :
    Stable (YieldInstruction.Start rec w caller s) (YieldInstruction.Start rec1 w caller s) := by
  unfold YieldInstruction.Start
  simp only []
  split
  · exact Stable.self _
  · split
    · split
      · exact Stable.self _
      · exact Stable.self _
      · exact ha _ _
    · refine Stable.seq ?_ ?_
      · split
        · split
          · exact ha _ _
          · exact Stable.self _
        · exact Stable.self _
      · intro s1
        refine Stable.handle (OnStarted_stable ha _ _) ?_
        intro e s2
        exact ha _ _

theorem End_stable (ha : Agree rec rec1) (w : Ref) (s : State) :
    Stable (YieldInstruction.End rec w s) (YieldInstruction.End rec1 w s) := by
  unfold YieldInstruction.End
  simp only []
  split
  · exact Stable.self _
  · split
    · exact Stable.self _
    · exact Stable.seq (forEachStart_stable ha _ _ _) fun _ => Stable.self _

theorem Interrupt_stable (ha : Agree rec rec1) (w : Ref) (error : Value) (s : State) :
    Stable (YieldInstruction.Interrupt rec w error s)
      (YieldInstruction.Interrupt rec1 w error s) := by
  unfold YieldInstruction.Interrupt
  simp only []
  split
  · exact Stable.self _
  · split
    · exact Stable.self _
    · split
      · exact Stable.self _
      · refine Stable.seq (OnInterrupted_stable ha _ _) ?_
        intro s3
        split
        · exact Stable.self _
        · refine Stable.seq (forEachInterrupt_stable ha _ _ _ _) ?_
          intro s4
          split
          · exact Stable.self _
          · split
            · exact OnThown_stable ha _ _ _
            · exact Stable.self _

theorem Callback.call_stable (ha : Agree rec rec1) (r : Ref) (args : List Atom) (s : State) :
    Stable (Callback.call rec r args s) (Callback.call rec1 r args s) := by
  unfold Callback.call
  simp only []
  split
  · exact Stable.self _
  · split
    · exact Stable.self _
    · refine Stable.seq ?_ fun _ => ha _ _
      split
      · exact ha _ _
      · exact Stable.self _

theorem Wait.new_stable (ha : Agree rec rec1) (object : Value) (seconds : Int) (s : State) :
    Stable (Wait.new rec object seconds s) (Wait.new rec1 object seconds s) := by
  unfold Wait.new
  simp only []
  refine Stable.seq ?_ fun _ => Stable.self _
  split
  · exact ha _ _
  · exact Stable.self _

theorem Wait.OnTimeOut_stable (ha : Agree rec rec1) (w : Ref) (s : State) :
    Stable (Wait.OnTimeOut rec w s) (Wait.OnTimeOut rec1 w s) := by
  unfold Wait.OnTimeOut
  simp only []
  split
  · exact Stable.self _
  · split
    · exact ha _ _
    · exact Stable.self _

theorem Generator.run_stable (ha : Agree rec rec1) (g : Ref) (s : State) :
    Stable (Generator.run rec g s) (Generator.run rec1 g s) := by
  unfold Generator.run
  split
  · exact Stable.self _
  · split
    · exact Stable.self _
    · exact Stable.self _
    · exact Stable.self _
    · exact Stable.self _
    · exact Stable.self _
    · simp only []
      refine Stable.seq ?_ fun _ => ha _ _
      exact Stable.handle (ha _ _) fun _ _ => Stable.self _

theorem Generator.next_stable (ha : Agree rec rec1) (g : Ref) (input : Value) (s : State) :
    Stable (Generator.next rec g input s) (Generator.next rec1 g input s) := by
  unfold Generator.next
  simp only []
  split
  · exact Stable.self _
  · split
    · exact Stable.self _
    · exact Stable.self _
    · exact ha _ _
    · exact ha _ _

theorem Generator.inject_stable (ha : Agree rec rec1) (g : Ref) (error : Value) (s : State) :
    Stable (Generator.inject rec g error s) (Generator.inject rec1 g error s) := by
  unfold Generator.inject
  simp only []
  split
  · exact Stable.self _
  · split
    · exact Stable.self _
    · exact Stable.self _
    · exact Stable.self _
    · split
      · exact ha _ _
      · exact Stable.self _

theorem fire_stable (ha : Agree rec rec1) (handle : Nat) (s : State) :
    Stable (fire rec handle s) (fire rec1 handle s) := by
  unfold fire
  split
  · exact Stable.self _
  · simp only []
    split
    · exact ha _ _
    · exact ha _ _

theorem react_stable (ha : Agree rec rec1) (p : Ref) (s : State) :
    Stable (react rec p s) (react rec1 p s) := by
  unfold react
  split
  · exact Stable.self _
  · split
    · exact Stable.self _
    · split
      · exact Stable.self _
      · exact Stable.drop (Stable.handle (ha _ _) fun _ _ => ha _ _)
      · exact Stable.drop (ha _ _)

theorem step_stable (ha : Agree rec rec1) : Agree (step rec) (step rec1) := by
  intro c s
  cases c with
  | Start w caller => exact Start_stable ha w caller s
  | End w => exact End_stable ha w s
  | Interrupt w error => exact Interrupt_stable ha w error s
  | Throw w error => exact ha _ _
  | loop w => exact Coroutine.turn_stable ha w s
  | invoke r args => exact Callback.call_stable ha r args s
  | newWait object seconds => exact Wait.new_stable ha object seconds s
  | OnTimeOut w => exact Wait.OnTimeOut_stable ha w s
  | next g input => exact Generator.next_stable ha g input s
  | inject g error => exact Generator.inject_stable ha g error s
  | run g => exact Generator.run_stable ha g s
  | fire handle => exact fire_stable ha handle s
  | resolve p => exact Stable.self _
  | reject p error => exact Stable.self _
  | react p => exact react_stable ha p s

end Fuel

theorem exec_succ_agree (fuel : Nat) : Agree (exec fuel) (exec (fuel + 1)) := by
  induction fuel with
  | zero =>
    intro c s h
    exact absurd rfl h
  | succ n ih => exact step_stable ih

/-- A call that stopped for another reason than the bound stops the same way with every
larger bound. -/
theorem exec_mono {fuel : Nat} {c : Call} {s : State} {r : Res} (h : exec fuel c s = r)
    (hr : r.out ≠ .outOfFuel) (fuel1 : Nat) (hle : fuel ≤ fuel1) : exec fuel1 c s = r := by
  induction hle with
  | refl => exact h
  | step _ ih =>
    rw [← ih]
    exact exec_succ_agree _ c s (by rw [ih]; exact hr)

/-! ## The bodies of `End` and `Interrupt`, case by case -/

theorem Res.andThen_ok {r : Res} {k : State → Res} (h : (r.andThen k).out = .ok) :
    r.out = .ok ∧ r.andThen k = k r.st := by
  unfold Res.andThen at h ⊢
  cases ho : r.out with
  | ok => simp
  | thrown e => rw [ho] at h; simp only [ho] at h; cases h
  | outOfFuel => rw [ho] at h; simp only [ho] at h; cases h

/-- The body of `End` on an object that is not interrupted. -/
theorem End_unfold (rec : Call → State → Res) {w : Ref} {s : State} {self : YieldInstruction}
    (hself : s.objs[w]? = some self) (hi : self.interrupted = false) :
    YieldInstruction.End rec w s =
      (forEachStart rec w self.callers
        ((s.emit (.End w)).update w fun o => { o with done := true })).andThen
        fun s2 => ok (s2.update w fun o => { o with callers := [] }) := by
  unfold YieldInstruction.End
  simp only [emit_objs, hself, hi]
  rfl

/-- The body of `End` on an interrupted object. -/
theorem End_interrupted (rec : Call → State → Res) {w : Ref} {s : State}
    {self : YieldInstruction} (hself : s.objs[w]? = some self) (hi : self.interrupted = true) :
    YieldInstruction.End rec w s = ok (s.emit (.End w)) := by
  unfold YieldInstruction.End
  simp only [emit_objs, hself, hi]
  rfl

/-- The body of `Interrupt` on a pending object. -/
theorem Interrupt_pending (rec : Call → State → Res) {w : Ref} {s : State}
    {self : YieldInstruction} (error : Value) (hself : s.objs[w]? = some self)
    (hd : self.done = false) (hi : self.interrupted = false) :
    YieldInstruction.Interrupt rec w error s =
      (OnInterrupted rec w (interruptedState w error s)).andThen (afterHook rec w error) := by
  unfold YieldInstruction.Interrupt
  simp only [emit_objs, hself, update_objs_self, Option.map_some', hd, hi]
  rfl

/-- The body of `Interrupt` on an object that is done or interrupted. -/
theorem Interrupt_settled (rec : Call → State → Res) {w : Ref} {s : State}
    {self : YieldInstruction} (error : Value) (hself : s.objs[w]? = some self)
    (h : self.done = true ∨ self.interrupted = true) :
    YieldInstruction.Interrupt rec w error s =
      ok ((s.emit (.Interrupt w error)).update w fun o => { o with error := error }) := by
  unfold YieldInstruction.Interrupt
  rcases h with h | h <;> simp [hself, update_objs_self, h]

/-! ## The heap part of the invariant, from any state -/

theorem Evolves.grows {s0 s : State} (h : Evolves s0 s) : Grows s0 s :=
  ⟨h.len, h.objs⟩

theorem Grows.here (s : State) : Grows s s :=
  (Evolves.start s).grows

theorem Grows.chain {a b c : State} (h1 : Grows a b) (h2 : Grows b c) : Grows a c := by
  refine ⟨le_trans h1.len h2.len, ?_⟩
  intro w o ho
  have h3 := h2.objs w o ho
  cases hb : b.objs[w]? with
  | none =>
    rw [hb] at h3
    have ha : a.objs[w]? = none := by
      rw [List.getElem?_eq_none_iff] at hb ⊢
      exact le_trans h1.len hb
    rw [ha]
    exact h3
  | some ob =>
    rw [hb] at h3
    exact (h1.objs w ob hb).step h3

theorem Grows.same_objs {s0 s s1 : State} (h : Grows s0 s) (ho : s1.objs = s.objs) :
    Grows s0 s1 := by
  refine ⟨?_, ?_⟩
  · rw [ho]; exact h.len
  · intro w o
    rw [ho]
    exact h.objs w o

theorem Grows.find {s0 s : State} (h : Grows s0 s) {w : Ref} {o : YieldInstruction}
    (ho : s0.objs[w]? = some o) : ∃ o1, s.objs[w]? = some o1 ∧ Trans o o1 := by
  have hlt : w < s.objs.length := lt_of_lt_of_le (List.getElem?_eq_some_iff.1 ho).1 h.len
  refine ⟨s.objs[w], List.getElem?_eq_getElem hlt, ?_⟩
  have := h.objs w _ (List.getElem?_eq_getElem hlt)
  rw [ho] at this
  exact this

section Heap

variable {rec : Call → State → Res}

theorem forEachStart_grows (hrec : Pres rec) (w : Ref) (cs : List Ref) :
    ∀ s, Grows s (forEachStart rec w cs s).st := by
  induction cs with
  | nil => intro s; exact Grows.here s
  | cons c cs ih =>
    intro s
    unfold forEachStart
    refine Res.andThen_ind (P := fun x => Grows s x) ?_ fun s1 h1 => h1.chain (ih s1)
    exact ((Grows.here s).same_objs (emit_objs s _)).chain (hrec _ _).grows

theorem forEachInterrupt_grows (hrec : Pres rec) (w : Ref) (error : Value) (cs : List Ref) :
    ∀ s, Grows s (forEachInterrupt rec w error cs s).st := by
  induction cs with
  | nil => intro s; exact Grows.here s
  | cons c cs ih =>
    intro s
    unfold forEachInterrupt
    refine Res.andThen_ind (P := fun x => Grows s x) ?_ fun s1 h1 => h1.chain (ih s1)
    exact ((Grows.here s).same_objs (emit_objs s _)).chain (hrec _ _).grows

theorem OnThown_grows (hrec : Pres rec) (w : Ref) (error : Value) (s : State) :
    Grows s (OnThown rec w error s).st := by
  have h0 : Grows s (s.emit (.OnThown w error)) := (Grows.here s).same_objs (emit_objs s _)
  unfold OnThown
  simp only []
  split
  · exact h0
  · split
    · exact h0.chain (hrec _ _).grows
    · exact h0


end Heap

theorem Evolves.lookup {s0 s : State} (h : Evolves s0 s) {w : Ref} {o : YieldInstruction}
    (ho : s0.objs[w]? = some o) : ∃ o1, s.objs[w]? = some o1 ∧ Trans o o1 := by
  have hlt : w < s.objs.length := lt_of_lt_of_le (List.getElem?_eq_some_iff.1 ho).1 h.len
  refine ⟨s.objs[w], List.getElem?_eq_getElem hlt, ?_⟩
  have := h.objs w _ (List.getElem?_eq_getElem hlt)
  rw [ho] at this
  exact this

theorem execAll_evolves (calls : List (Nat × Call)) : ∀ s, Evolves s (execAll calls s) := by
  induction calls with
  | nil => intro s; exact Evolves.start s
  | cons c rest ih =>
    intro s
    exact (exec_evolves c.1 c.2 s).append (ih _)

theorem Evolves.exclusive {s0 s : State} (h : Evolves s0 s) (h0 : Exclusive s0) :
    Exclusive s := by
  intro o ho
  obtain ⟨w, hw, hget⟩ := List.getElem_of_mem ho
  have h1 := h.objs w o (by rw [List.getElem?_eq_getElem hw, hget])
  cases h2 : s0.objs[w]? with
  | none =>
    rw [h2] at h1
    exact h1
  | some a =>
    rw [h2] at h1
    exact h1.exclusive (h0 a (List.getElem?_mem h2))

/-! ## Facts about `Interrupt` on a pending object -/

theorem OnThown_evolves_after (rec : Call → State → Res) (hrec : Pres rec) (w : Ref)
    (error : Value) (s : State) :
    Evolves (s.emit (.OnThown w error)) (OnThown rec w error s).st := by
  unfold OnThown
  simp only []
  split
  · exact Evolves.start _
  · split
    · exact hrec _ _
    · exact Evolves.start _

/-- After the loop of `Interrupt`, the object is interrupted with no caller left. -/
theorem afterLoop_cleared (rec : Call → State → Res) (hrec : Pres rec) (w : Ref)
    (error : Value) (s4 : State) (o4 : YieldInstruction) (h4 : s4.objs[w]? = some o4)
    (hi : o4.interrupted = true) :
    ∃ o1, (afterLoop rec w error s4).st.objs[w]? = some o1 ∧ o1.interrupted = true ∧
      o1.callers = [] := by
  have h5 : (s4.update w fun o => { o with callers := [] }).objs[w]? =
      some { o4 with callers := [] } := by
    rw [update_objs_self, h4]
    rfl
  unfold afterLoop
  rw [h4]
  simp only []
  split
  · have hev := OnThown_evolves_after rec hrec w error
      (s4.update w fun o => { o with callers := [] })
    obtain ⟨o1, h1, ht⟩ := hev.lookup (by rw [emit_objs]; exact h5)
    exact ⟨o1, h1, ht.interrupted hi, ht.callers_interrupted hi⟩
  · exact ⟨_, h5, hi, rfl⟩

/-- The object `w` in the state in which the hook `OnInterrupted` is called. -/
theorem interruptedState_get {w : Ref} {s : State} {self : YieldInstruction} (error : Value)
    (hself : s.objs[w]? = some self) :
    (interruptedState w error s).objs[w]? =
      some { self with error := error, interrupted := true } := by
  unfold interruptedState
  rw [update_objs_self, update_objs_self, emit_objs, hself]
  rfl


section Bodies

variable {rec : Call → State → Res}

/-- The body of `Start` on a pending object. -/
theorem Start_pending (rec : Call → State → Res) {w : Ref} {s : State}
    {self : YieldInstruction} (caller : Caller) (hself : s.objs[w]? = some self)
    (hd : self.done = false) (hi : self.interrupted = false) :
    YieldInstruction.Start rec w caller s =
      (OnStarted rec w (queued w caller s)).orCatch fun error s2 => rec (.Throw w error) s2 := by
  unfold YieldInstruction.Start queued
  cases caller <;> simp [hself, hd, hi, Res.andThen]

/-- The body of `Start(c)` on a done object. -/
theorem Start_done (rec : Call → State → Res) {w : Ref} {s : State}
    {self : YieldInstruction} (c : Ref) (hself : s.objs[w]? = some self)
    (hd : self.done = true) (hi : self.interrupted = false) :
    YieldInstruction.Start rec w (.ref c) s =
      (rec (.Start c .undefined) (s.emit (.Start w (.ref c)))).andThen fun s1 =>
        (OnStarted rec w s1).orCatch fun error s2 => rec (.Throw w error) s2 := by
  unfold YieldInstruction.Start
  simp [hself, hd, hi]

/-- However `Interrupt` on a pending object stops, the object is interrupted afterwards. -/
theorem Interrupt_pending_sets_flag (hrec : Pres rec) {w : Ref} {s : State}
    {self : YieldInstruction} (error : Value) (hself : s.objs[w]? = some self)
    (hd : self.done = false) (hi : self.interrupted = false) :
    ∃ o1, (YieldInstruction.Interrupt rec w error s).st.objs[w]? = some o1 ∧
      o1.interrupted = true := by
  rw [Interrupt_pending rec error hself hd hi]
  refine Res.andThen_ind (P := fun x => ∃ o1, x.objs[w]? = some o1 ∧ o1.interrupted = true) ?_ ?_
  · obtain ⟨o3, h3, ht3⟩ :=
      (OnInterrupted_evolves hrec (Evolves.start (interruptedState w error s)) w).lookup
        (interruptedState_get error hself)
    exact ⟨o3, h3, ht3.interrupted rfl⟩
  · intro s3 ⟨o3, h3, hi3⟩
    unfold afterHook
    rw [h3]
    simp only []
    refine Res.andThen_ind
      (P := fun x => ∃ o1, x.objs[w]? = some o1 ∧ o1.interrupted = true) ?_ ?_
    · obtain ⟨o4, h4, ht4⟩ := (forEachInterrupt_grows hrec w error o3.callers s3).find h3
      exact ⟨o4, h4, ht4.interrupted hi3⟩
    · intro s4 ⟨o4, h4, hi4⟩
      obtain ⟨o1, h1, hi1, _⟩ := afterLoop_cleared rec hrec w error s4 o4 h4 hi4
      exact ⟨o1, h1, hi1⟩

end Bodies

/-! ## The loop of `End` and the callers it resumes -/

theorem Res.andThen_eq_ok {r : Res} {k : State → Res} {s2 : State}
    (h : r.andThen k = ⟨s2, .ok⟩) : r = ⟨r.st, .ok⟩ ∧ k r.st = ⟨s2, .ok⟩ := by
  have hout : (r.andThen k).out = .ok := by rw [h]
  obtain ⟨h1, h2⟩ := Res.andThen_ok hout
  rw [h2] at h
  refine ⟨?_, h⟩
  cases r with
  | mk st out =>
    simp only at h1
    rw [h1]

theorem exec_agree_le {n m : Nat} (h : n ≤ m) : Agree (exec n) (exec m) := by
  intro c s hne
  exact exec_mono rfl hne m h

theorem forEachStart_returns {n : Nat} {w : Ref} {cs : List Ref} :
    ∀ {s s2 : State}, forEachStart (exec n) w cs s = ⟨s2, .ok⟩ → ResumedInOrder w cs s s2 := by
  induction cs with
  | nil =>
    intro s s2 h
    unfold forEachStart at h
    cases h
    exact ResumedInOrder.nil s
  | cons c cs ih =>
    intro s s2 h
    unfold forEachStart at h
    obtain ⟨h1, h2⟩ := Res.andThen_eq_ok h
    exact ResumedInOrder.cons ⟨n, h1⟩ (ih h2)

theorem forEachStart_of_resumed {w : Ref} {cs : List Ref} {s s2 : State}
    (h : ResumedInOrder w cs s s2) : ∃ n, forEachStart (exec n) w cs s = ⟨s2, .ok⟩ := by
  induction h with
  | nil s => exact ⟨0, rfl⟩
  | @cons c cs s s1 s2 hc _ ih =>
    obtain ⟨n1, h1⟩ := hc
    obtain ⟨n2, h2⟩ := ih
    refine ⟨max n1 n2, ?_⟩
    have ha := exec_mono h1 (by simp) (max n1 n2) (le_max_left _ _)
    have hb := forEachStart_stable (exec_agree_le (le_max_right n1 n2)) w cs s1
      (by rw [h2]; simp)
    unfold forEachStart
    rw [ha]
    unfold Res.andThen
    simp only []
    rw [hb, h2]

/-- When `End()` returns on an object that was not interrupted, the object is done and has
no caller left. -/
theorem End_returns_cleared {s s1 : State} {w : Ref} {self : YieldInstruction}
    (hself : s.objs[w]? = some self) (hi : self.interrupted = false)
    (h : Returns (.End w) s s1) :
    ∃ o1, s1.objs[w]? = some o1 ∧ o1.done = true ∧ o1.callers = [] := by
  obtain ⟨fuel, h⟩ := h
  cases fuel with
  | zero => cases h
  | succ n =>
    have hE : exec (n + 1) (.End w) s = YieldInstruction.End (exec n) w s := rfl
    rw [hE, End_unfold (exec n) hself hi] at h
    obtain ⟨_, h2⟩ := Res.andThen_eq_ok h
    have hs1 : ((s.emit (.End w)).update w fun o => { o with done := true }).objs[w]? =
        some { self with done := true } := by
      rw [update_objs_self, emit_objs, hself]
      rfl
    obtain ⟨o2, ho2, ht⟩ := (forEachStart_grows (exec_evolves n) w self.callers
      ((s.emit (.End w)).update w fun o => { o with done := true })).find hs1
    cases h2
    refine ⟨{ o2 with callers := [] }, ?_, ht.done rfl, rfl⟩
    rw [update_objs_self, ho2]
    rfl

/-! ## What an object did, read from the trace -/

theorem Traced.empty (s : State) : Traced s s [] := by
  simp [Traced]

theorem Traced.cat {a b c : State} {l1 l2 : List Event} (h1 : Traced a b l1)
    (h2 : Traced b c l2) : Traced a c (l1 ++ l2) := by
  unfold Traced at *
  rw [h2, h1, List.append_assoc]

theorem Traced.emitted (s : State) (e : Event) : Traced s (s.emit e) [e] := rfl

theorem Traced.same_log {a b c : State} {l : List Event} (h : Traced a b l)
    (hl : c.log = b.log) : Traced a c l := by
  unfold Traced at *
  rw [hl, h]

theorem Evolves.traced {s0 s : State} (h : Evolves s0 s) : Traced s0 s (since s0 s) :=
  h.log

theorem Traced.since_eq {s0 s : State} {l : List Event} (h : Traced s0 s l) :
    since s0 s = l :=
  since_append h

theorem own_append (w : Ref) (l1 l2 : List Event) : own w (l1 ++ l2) = own w l1 ++ own w l2 := by
  simp [own]

theorem own_eq_nil {w : Ref} {l : List Event} (h : ∀ e ∈ l, e.own w = false) : own w l = [] := by
  unfold own
  rw [List.filter_eq_nil_iff]
  intro e he
  rw [h e he]
  exact Bool.false_ne_true

/-- While `w` is interrupted, whatever runs makes `w` send nothing and escalate nothing. -/
theorem Evolves.own_interrupted {s0 s : State} (h : Evolves s0 s) {w : Ref}
    {o : YieldInstruction} (ho : s0.objs[w]? = some o) (hi : o.interrupted = true) :
    own w (since s0 s) = [] := by
  apply own_eq_nil
  intro e he
  have h1 := h.logOK.settled w o ho (Or.inr hi) e he
  have h2 := h.logOK.interrupted w o ho hi e he
  simp [Event.own, h1.1, h1.2, h2]

/-- While `w` is done, whatever runs without entering `End` on `w` makes `w` send nothing
and escalate nothing. -/
theorem Evolves.own_done {s0 s : State} (h : Evolves s0 s) {w : Ref}
    {o : YieldInstruction} (ho : s0.objs[w]? = some o) (hd : o.done = true)
    (hE : Event.End w ∉ since s0 s) : own w (since s0 s) = [] := by
  apply own_eq_nil
  intro e he
  have h1 := h.logOK.settled w o ho (Or.inl hd) e he
  have h2 := h.logOK.resumes w hE e he
  simp [Event.own, h1.1, h1.2, h2]

/-- Once `w` is done with no caller left, whatever runs makes `w` send nothing and escalate
nothing. -/
theorem Evolves.own_done_cleared {s0 s : State} (h : Evolves s0 s) {w : Ref}
    {o : YieldInstruction} (ho : s0.objs[w]? = some o) (hd : o.done = true)
    (hc : o.callers = []) : own w (since s0 s) = [] := by
  apply own_eq_nil
  intro e he
  have h1 := h.logOK.settled w o ho (Or.inl hd) e he
  have h2 := h.logOK.quiet w o ho hd hc e he
  simp [Event.own, h1.1, h1.2, h2]


section Traces

variable {rec : Call → State → Res}

theorem Res.andThen_cases (r : Res) (k : State → Res) :
    (r.out = .ok ∧ r.andThen k = k r.st) ∨ (r.out ≠ .ok ∧ r.andThen k = r) := by
  unfold Res.andThen
  cases h : r.out with
  | ok => exact Or.inl ⟨rfl, rfl⟩
  | thrown e => exact Or.inr ⟨fun h2 => (by cases h2), rfl⟩
  | outOfFuel => exact Or.inr ⟨fun h2 => (by cases h2), rfl⟩

theorem own_interrupts (w c : Ref) (error : Value) :
    own w [Event.interrupts w c error] = [Event.interrupts w c error] := by
  simp [own, Event.own, Event.interruptsFrom]

theorem own_resumes (w c : Ref) : own w [Event.resumes w c] = [Event.resumes w c] := by
  simp [own, Event.own, Event.resumesFrom]

theorem own_OnThown (w : Ref) (error : Value) :
    own w [Event.OnThown w error] = [Event.OnThown w error] := by
  simp [own, Event.own, Event.escalates]

/-- The loop of `Interrupt`, run while `w` is interrupted: `w` notifies a first part of the
callers, all of them if the loop returns, and does nothing else. -/
theorem forEachInterrupt_trace (hrec : Pres rec) (w : Ref) (error : Value) (cs : List Ref) :
    ∀ (s3 : State) (o3 : YieldInstruction), s3.objs[w]? = some o3 → o3.interrupted = true →
      ∃ l k, Traced s3 (forEachInterrupt rec w error cs s3).st l ∧ k ≤ cs.length ∧
        own w l = (cs.take k).map (fun c => Event.interrupts w c error) ∧
        ((forEachInterrupt rec w error cs s3).out = .ok → k = cs.length) := by
  induction cs with
  | nil =>
    intro s3 o3 _ _
    exact ⟨[], 0, Traced.empty s3, le_refl _, rfl, fun _ => rfl⟩
  | cons c cs ih =>
    intro s3 o3 h3 hi3
    have hev := hrec (.Interrupt c error) (s3.emit (.interrupts w c error))
    have hown := hev.own_interrupted (w := w) (o := o3) (by rw [emit_objs]; exact h3) hi3
    have htr := (Traced.emitted s3 (.interrupts w c error)).cat hev.traced
    unfold forEachInterrupt
    rcases Res.andThen_cases (rec (.Interrupt c error) (s3.emit (.interrupts w c error)))
      (forEachInterrupt rec w error cs) with ⟨_, heq⟩ | ⟨hne, heq⟩
    · rw [heq]
      obtain ⟨o4, h4, ht4⟩ := hev.lookup (w := w) (o := o3) (by rw [emit_objs]; exact h3)
      obtain ⟨l, k, hl, hk, hown2, hok⟩ := ih _ o4 h4 (ht4.interrupted hi3)
      refine ⟨_, k + 1, htr.cat hl, Nat.succ_le_succ hk, ?_, ?_⟩
      · rw [own_append, own_append, own_interrupts, hown, hown2]
        rfl
      · intro h
        rw [hok h]
        rfl
    · rw [heq]
      refine ⟨_, 1, htr, by simp, ?_, fun h => absurd h hne⟩
      rw [own_append, own_interrupts, hown]
      rfl

/-- The end of `Interrupt`, lines 85-90, run while `w` is interrupted: `w` escalates once if
it has no caller and the error is not `undefined`, and does nothing otherwise. -/
theorem afterLoop_trace (hrec : Pres rec) (w : Ref) (error : Value) (s4 : State)
    (o4 : YieldInstruction) (h4 : s4.objs[w]? = some o4) (hi4 : o4.interrupted = true) :
    ∃ l, Traced s4 (afterLoop rec w error s4).st l ∧
      own w l =
        if (o4.callers.length == 0 && error != undef) = true then [Event.OnThown w error]
        else [] := by
  have h5 : (s4.update w fun o => { o with callers := [] }).objs[w]? =
      some { o4 with callers := [] } := by
    rw [update_objs_self, h4]
    rfl
  have ht5 : Traced s4 (s4.update w fun o => { o with callers := [] }) [] :=
    (Traced.empty s4).same_log (by simp)
  unfold afterLoop
  rw [h4]
  simp only []
  split
  · have hev := OnThown_evolves_after rec hrec w error
      (s4.update w fun o => { o with callers := [] })
    have hown := hev.own_interrupted (w := w) (o := { o4 with callers := [] })
      (by rw [emit_objs]; exact h5) hi4
    refine ⟨_, (ht5.cat (Traced.emitted _ (.OnThown w error))).cat hev.traced, ?_⟩
    rw [own_append, own_append, own_OnThown, hown]
    rfl
  · exact ⟨[], ht5, rfl⟩

theorem interruptedState_traced (w : Ref) (error : Value) (s : State) :
    Traced s (interruptedState w error s) [Event.Interrupt w error] := by
  unfold interruptedState
  exact (Traced.emitted s (.Interrupt w error)).same_log (by simp)

/-- What a pending `w` does during `Interrupt(error)`: it notifies a first part of its
callers, all of them if the call returns; it escalates once if it had no caller, the error
is not `undefined` and the hook `OnInterrupted` returned; and it does nothing else. -/
theorem Interrupt_pending_trace (hrec : Pres rec) {w : Ref} {s : State}
    {self : YieldInstruction} (error : Value) (hself : s.objs[w]? = some self)
    (hd : self.done = false) (hi : self.interrupted = false) :
    ∃ l k, Traced s (YieldInstruction.Interrupt rec w error s).st l ∧
      k ≤ self.callers.length ∧
      ((YieldInstruction.Interrupt rec w error s).out = .ok → k = self.callers.length) ∧
      (self.callers = [] → error ≠ undef →
        (OnInterrupted rec w (interruptedState w error s)).out = .ok →
        own w l = [Event.OnThown w error]) ∧
      (self.callers ≠ [] ∨ error = undef →
        own w l = (self.callers.take k).map (fun c => Event.interrupts w c error)) := by
  have hI := interruptedState_get error hself
  have htI := interruptedState_traced w error s
  have hownI : own w [Event.Interrupt w error] = [] := by
    simp [own, Event.own, Event.escalates, Event.interruptsFrom, Event.resumesFrom]
  have hev3 := OnInterrupted_evolves hrec (Evolves.start (interruptedState w error s)) w
  have hown3 := hev3.own_interrupted hI rfl
  obtain ⟨o3, h3, ht3⟩ := hev3.lookup hI
  have hc3 : o3.callers = self.callers := ht3.callers_interrupted rfl
  have hi3 : o3.interrupted = true := ht3.interrupted rfl
  rw [Interrupt_pending rec error hself hd hi]
  rcases Res.andThen_cases (OnInterrupted rec w (interruptedState w error s))
    (afterHook rec w error) with ⟨hok3, heq⟩ | ⟨hne, heq⟩
  · rw [heq]
    unfold afterHook
    rw [h3]
    simp only []
    obtain ⟨l2, k, htr2, hk, hown2, hk2⟩ :=
      forEachInterrupt_trace hrec w error o3.callers _ o3 h3 hi3
    obtain ⟨o4, h4, ht4⟩ := (forEachInterrupt_grows hrec w error o3.callers
      (OnInterrupted rec w (interruptedState w error s)).st).find h3
    have hc4 : o4.callers = self.callers := (ht4.callers_interrupted hi3).trans hc3
    rw [hc3] at hk hown2
    rcases Res.andThen_cases (forEachInterrupt rec w error o3.callers
      (OnInterrupted rec w (interruptedState w error s)).st) (afterLoop rec w error)
      with ⟨hok4, heq4⟩ | ⟨hne4, heq4⟩
    · rw [heq4]
      obtain ⟨l3, htr3, hown5⟩ := afterLoop_trace hrec w error _ o4 h4 (ht4.interrupted hi3)
      rw [hc4] at hown5
      refine ⟨_, k, ((htI.cat hev3.traced).cat htr2).cat htr3, hk,
        fun _ => (hk2 hok4).trans (by rw [hc3]), ?_, ?_⟩
      · intro hnil hne _
        have hcond : (self.callers.length == 0 && error != undef) = true := by
          simp [hnil, hne]
        rw [own_append, own_append, own_append, hownI, hown3, hown2, hown5, if_pos hcond, hnil]
        simp
      · intro hcase
        have hcond : ¬(self.callers.length == 0 && error != undef) = true := by
          rcases hcase with hcase | hcase
          · simp [hcase]
          · simp [hcase]
        rw [own_append, own_append, own_append, hownI, hown3, hown2, hown5, if_neg hcond]
        simp
    · rw [heq4]
      refine ⟨_, k, (htI.cat hev3.traced).cat htr2, hk, fun h => absurd h hne4, ?_, ?_⟩
      · intro hnil _ _
        exfalso
        apply hne4
        rw [hc3, hnil]
        rfl
      · intro _
        rw [own_append, own_append, hownI, hown3, hown2]
        simp
  · rw [heq]
    refine ⟨_, 0, htI.cat hev3.traced, Nat.zero_le _, fun h => absurd h hne,
      fun _ _ h => absurd h hne, ?_⟩
    intro _
    rw [own_append, hownI, hown3]
    rfl


end Traces

section EndTraces

variable {rec : Call → State → Res}

theorem sent_own (w : Ref) (l : List Event) : sent w (own w l) = sent w l := by
  unfold sent own
  rw [List.filter_filter]
  congr 1
  funext e
  simp only [Event.own]
  cases e.escalates w <;> cases e.interruptsFrom w <;> cases e.resumesFrom w <;> rfl

theorem escalations_own (w : Ref) (l : List Event) :
    escalations w (own w l) = escalations w l := by
  unfold escalations own
  rw [List.filter_filter]
  congr 1
  funext e
  simp only [Event.own]
  cases e.escalates w <;> cases e.interruptsFrom w <;> cases e.resumesFrom w <;> rfl

theorem sent_interrupts (w : Ref) (error : Value) (cs : List Ref) :
    sent w (cs.map fun c => Event.interrupts w c error) =
      cs.map fun c => Event.interrupts w c error := by
  unfold sent
  rw [List.filter_eq_self]
  intro e he
  obtain ⟨c, _, rfl⟩ := List.mem_map.1 he
  simp [Event.interruptsFrom]

theorem sent_resumes (w : Ref) (cs : List Ref) :
    sent w (cs.map fun c => Event.resumes w c) = cs.map fun c => Event.resumes w c := by
  unfold sent
  rw [List.filter_eq_self]
  intro e he
  obtain ⟨c, _, rfl⟩ := List.mem_map.1 he
  simp [Event.resumesFrom]

theorem escalations_interrupts (w : Ref) (error : Value) (cs : List Ref) :
    escalations w (cs.map fun c => Event.interrupts w c error) = [] := by
  unfold escalations
  rw [List.filter_eq_nil_iff]
  intro e he
  obtain ⟨c, _, rfl⟩ := List.mem_map.1 he
  simp [Event.escalates]

/-- The loop of `End`, run while `w` is done: if it returns and `End` is not entered again
on `w` meanwhile, `w` notifies each caller of the list once, in order, and does nothing
else. -/
theorem forEachStart_trace (hrec : Pres rec) (w : Ref) (cs : List Ref) :
    ∀ (s1 : State) (o1 : YieldInstruction), s1.objs[w]? = some o1 → o1.done = true →
      ∃ l, Traced s1 (forEachStart rec w cs s1).st l ∧
        ((forEachStart rec w cs s1).out = .ok → Event.End w ∉ l →
          own w l = cs.map fun c => Event.resumes w c) := by
  induction cs with
  | nil =>
    intro s1 o1 _ _
    exact ⟨[], Traced.empty s1, fun _ _ => rfl⟩
  | cons c cs ih =>
    intro s1 o1 h1 hd1
    have hev := hrec (.Start c .undefined) (s1.emit (.resumes w c))
    have h1e : (s1.emit (.resumes w c)).objs[w]? = some o1 := by rw [emit_objs]; exact h1
    have htr := (Traced.emitted s1 (.resumes w c)).cat hev.traced
    unfold forEachStart
    rcases Res.andThen_cases (rec (.Start c .undefined) (s1.emit (.resumes w c)))
      (forEachStart rec w cs) with ⟨_, heq⟩ | ⟨hne, heq⟩
    · rw [heq]
      obtain ⟨o2, h2, ht2⟩ := hev.lookup h1e
      obtain ⟨l, hl, hown2⟩ := ih _ o2 h2 (ht2.done hd1)
      refine ⟨_, htr.cat hl, ?_⟩
      intro hok hE
      simp only [List.mem_append, not_or] at hE
      rw [own_append, own_append, own_resumes, hev.own_done h1e hd1 hE.1.2, hown2 hok hE.2]
      rfl
    · rw [heq]
      exact ⟨_, htr, fun h => absurd h hne⟩

/-- What `w` does during an `End()` that finds it not interrupted: if the call returns and
`End` is not entered again on `w` meanwhile, `w` notifies each of its callers once, in
order, and does nothing else. -/
theorem End_trace (hrec : Pres rec) {w : Ref} {s : State} {self : YieldInstruction}
    (hself : s.objs[w]? = some self) (hi : self.interrupted = false) :
    ∃ l, Traced s (YieldInstruction.End rec w s).st (Event.End w :: l) ∧
      ((YieldInstruction.End rec w s).out = .ok → Event.End w ∉ l →
        own w l = self.callers.map fun c => Event.resumes w c) := by
  have hs1 : ((s.emit (.End w)).update w fun o => { o with done := true }).objs[w]? =
      some { self with done := true } := by
    rw [update_objs_self, emit_objs, hself]
    rfl
  have ht1 : Traced s ((s.emit (.End w)).update w fun o => { o with done := true })
      [Event.End w] :=
    (Traced.emitted s (.End w)).same_log (by simp)
  obtain ⟨l, hl, hown⟩ := forEachStart_trace hrec w self.callers _ _ hs1 rfl
  rw [End_unfold rec hself hi]
  rcases Res.andThen_cases (forEachStart rec w self.callers
    ((s.emit (.End w)).update w fun o => { o with done := true }))
    (fun s2 => ok (s2.update w fun o => { o with callers := [] })) with ⟨hok, heq⟩ | ⟨hne, heq⟩
  · rw [heq]
    refine ⟨l, (ht1.cat hl).same_log (by simp), ?_⟩
    intro _ hE
    exact hown hok hE
  · rw [heq]
    exact ⟨l, ht1.cat hl, fun h => absurd h hne⟩


end EndTraces

theorem since_cons_count {s0 s : State} {w : Ref} {l : List Event}
    (h : Traced s0 s (Event.End w :: l)) (hc : (since s0 s).count (Event.End w) = 1) :
    Event.End w ∉ l := by
  rw [h.since_eq, List.count_cons_self] at hc
  have : l.count (Event.End w) = 0 := by omega
  exact List.count_eq_zero.1 this

/-! ## The hooks of the base class -/

/-- The hook `OnInterrupted` of every class but `Coroutine` returns. -/
theorem OnInterrupted_default_ok (rec : Call → State → Res) {w : Ref} {s : State}
    {self : YieldInstruction} (hself : s.objs[w]? = some self) (hk : self.cls.kind ≠ 3) :
    (OnInterrupted rec w s).out = .ok := by
  unfold OnInterrupted
  simp only [emit_objs, hself]
  cases hc : self.cls with
  | YieldInstruction => rfl
  | WaitForSeconds seconds timer => rfl
  | PromiseYieldInstruction promise => rfl
  | Coroutine generator callee current =>
    rw [hc] at hk
    exact absurd rfl hk
  | Wait y seconds timer => rfl

/-- The hook `OnThown` of every class but `Coroutine` raises the error. -/
theorem OnThown_default_raises (rec : Call → State → Res) {w : Ref} {s : State}
    {self : YieldInstruction} (error : Value) (hself : s.objs[w]? = some self)
    (hk : self.cls.kind ≠ 3) : (OnThown rec w error s).out = .thrown error := by
  unfold OnThown
  simp only [emit_objs, hself]
  cases hc : self.cls with
  | YieldInstruction => rfl
  | WaitForSeconds seconds timer => rfl
  | PromiseYieldInstruction promise => rfl
  | Coroutine generator callee current =>
    rw [hc] at hk
    exact absurd rfl hk
  | Wait y seconds timer => rfl

theorem mem_of_own {w : Ref} {l : List Event} {e : Event} (h : e ∈ own w l) : e ∈ l :=
  (List.mem_filter.1 h).1

/-! ## A cancellation never raises -/

theorem WellFormed.same_heap {s s1 : State} (h : WellFormed s) (ho : s1.objs = s.objs) :
    WellFormed s1 := by
  unfold WellFormed
  rw [ho]
  exact h

theorem WellFormed.rewrite {s : State} (h : WellFormed s) (w : Ref)
    (f : YieldInstruction → YieldInstruction)
    (hc : ∀ o, ∀ c ∈ (f o).callers, c ∈ o.callers)
    (hr : ∀ o, (f o).calleeRef = o.calleeRef) : WellFormed (s.update w f) := by
  intro o ho
  rw [update_objs_length]
  unfold State.update at ho
  split at ho
  · rename_i o0 h0
    rcases List.mem_or_eq_of_mem_set ho with ho | ho
    · exact h o ho
    · subst ho
      have h1 := h o0 (List.getElem?_mem h0)
      refine ⟨fun c hcm => h1.1 c (hc o0 c hcm), fun r hrm => h1.2 r ?_⟩
      rw [← hr o0]
      exact hrm
  · exact h o ho

theorem WellFormed.get {s : State} (h : WellFormed s) {w : Ref} {o : YieldInstruction}
    (ho : s.objs[w]? = some o) :
    (∀ c ∈ o.callers, c < s.objs.length) ∧ ∀ r, o.calleeRef = some r → r < s.objs.length :=
  h o (List.getElem?_mem ho)

theorem setTimer_calleeRef (t : Option Nat) (o : YieldInstruction) :
    (o.setTimer t).calleeRef = o.calleeRef ∧ (o.setTimer t).callers = o.callers := by
  cases hc : o.cls with
  | Coroutine g callee cur =>
    cases callee <;> simp [YieldInstruction.setTimer, YieldInstruction.calleeRef, hc]
  | _ => simp [YieldInstruction.setTimer, YieldInstruction.calleeRef, hc]

theorem Safe.ok_of {s s1 : State} (h : WellFormed s1) (hl : s.objs.length ≤ s1.objs.length) :
    Safe s (ok s1) :=
  ⟨h, hl, fun x hx => by cases hx⟩

theorem Safe.sequence {s : State} {r : Res} {k : State → Res} (h : Safe s r)
    (hk : ∀ s1, WellFormed s1 → s.objs.length ≤ s1.objs.length → Safe s (k s1)) :
    Safe s (r.andThen k) := by
  unfold Res.andThen
  split
  · exact hk _ h.1 h.2.1
  · exact h

theorem Safe.weaken {s0 s : State} {r : Res} (h : Safe s r)
    (hl : s0.objs.length ≤ s.objs.length) : Safe s0 r :=
  ⟨h.1, le_trans hl h.2.1, h.2.2⟩

/-- The loop of `Interrupt(undefined)` on valid callers never raises, if the calls it makes
do not. -/
theorem forEachInterrupt_safe {rec : Call → State → Res}
    (hrec : ∀ s w, WellFormed s → w < s.objs.length → Safe s (rec (.Interrupt w undef) s))
    (w : Ref) (cs : List Ref) :
    ∀ s, WellFormed s → (∀ c ∈ cs, c < s.objs.length) →
      Safe s (forEachInterrupt rec w undef cs s) := by
  induction cs with
  | nil =>
    intro s h _
    exact Safe.ok_of h (le_refl _)
  | cons c cs ih =>
    intro s h hcs
    unfold forEachInterrupt
    have h1 : Safe s (rec (.Interrupt c undef) (s.emit (.interrupts w c undef))) :=
      (hrec (s.emit (.interrupts w c undef)) c (h.same_heap rfl)
        (hcs c (List.mem_cons_self _ _))).weaken (le_refl _)
    refine Safe.sequence h1 ?_
    intro s1 hw1 hl1
    refine (ih s1 hw1 ?_).weaken hl1
    intro c1 hc1
    exact lt_of_lt_of_le (hcs c1 (List.mem_cons_of_mem _ hc1)) hl1

/-- The hook `OnInterrupted` never raises in a well-formed heap, if the calls it makes do
not. -/
theorem OnInterrupted_safe {rec : Call → State → Res}
    (hrec : ∀ s w, WellFormed s → w < s.objs.length → Safe s (rec (.Interrupt w undef) s))
    (w : Ref) (s : State) (h : WellFormed s) (hw : w < s.objs.length) :
    Safe s (OnInterrupted rec w s) := by
  obtain ⟨o, ho⟩ : ∃ o, s.objs[w]? = some o := ⟨s.objs[w], List.getElem?_eq_getElem hw⟩
  unfold OnInterrupted
  simp only [emit_objs, ho]
  cases hc : o.cls with
  | YieldInstruction => exact Safe.ok_of (h.same_heap rfl) (le_refl _)
  | WaitForSeconds seconds timer =>
    refine Safe.ok_of ?_ (by simp)
    refine WellFormed.rewrite (h.same_heap (by simp)) w _ ?_ ?_
    · intro o1 c hc1
      rw [(setTimer_calleeRef none o1).2] at hc1
      exact hc1
    · intro o1
      exact (setTimer_calleeRef none o1).1
  | PromiseYieldInstruction promise => exact Safe.ok_of (h.same_heap rfl) (le_refl _)
  | Coroutine generator callee current =>
    unfold Coroutine.OnInterrupted
    cases callee with
    | stub => exact Safe.ok_of (h.same_heap rfl) (le_refl _)
    | yi r =>
      have hr : r < s.objs.length := by
        refine (h.get ho).2 r ?_
        unfold YieldInstruction.calleeRef
        rw [hc]
      exact hrec _ r (h.same_heap rfl) hr
  | Wait y seconds timer => exact Safe.ok_of (h.same_heap rfl) (le_refl _)

/-- A cancellation `Interrupt(undefined)` never raises in a well-formed heap. -/
theorem Interrupt_undef_safe (fuel : Nat) :
    ∀ s w, WellFormed s → w < s.objs.length → Safe s (exec fuel (.Interrupt w undef) s) := by
  induction fuel with
  | zero =>
    intro s w h _
    exact ⟨h, le_refl _, fun x hx => by cases hx⟩
  | succ n ih =>
    intro s w h hw
    obtain ⟨o, ho⟩ : ∃ o, s.objs[w]? = some o := ⟨s.objs[w], List.getElem?_eq_getElem hw⟩
    have hE : exec (n + 1) (.Interrupt w undef) s =
        YieldInstruction.Interrupt (exec n) w undef s := rfl
    rw [hE]
    by_cases hset : o.done = true ∨ o.interrupted = true
    · rw [Interrupt_settled (exec n) undef ho hset]
      refine Safe.ok_of ?_ (by simp)
      refine WellFormed.rewrite ?_ w _ (fun _ _ hc => hc) (fun _ => rfl)
      exact h.same_heap rfl
    · have hd : o.done = false := by
        cases hx : o.done with
        | false => rfl
        | true => exact absurd (Or.inl hx) hset
      have hi : o.interrupted = false := by
        cases hx : o.interrupted with
        | false => rfl
        | true => exact absurd (Or.inr hx) hset
      rw [Interrupt_pending (exec n) undef ho hd hi]
      have hwI : WellFormed (interruptedState w undef s) := by
        unfold interruptedState
        refine WellFormed.rewrite ?_ w _ (fun _ _ hc => hc) (fun _ => rfl)
        refine WellFormed.rewrite ?_ w _ (fun _ _ hc => hc) (fun _ => rfl)
        exact h.same_heap rfl
      have hlI : (interruptedState w undef s).objs.length = s.objs.length := by
        unfold interruptedState
        simp
      have h3 := OnInterrupted_safe ih w (interruptedState w undef s) hwI (by rw [hlI]; exact hw)
      have h3s : Safe s (OnInterrupted (exec n) w (interruptedState w undef s)) :=
        ⟨h3.1, by rw [← hlI]; exact h3.2.1, h3.2.2⟩
      refine Safe.sequence h3s ?_
      intro s3 hw3 hl3
      have hlt3 : w < s3.objs.length := lt_of_lt_of_le hw hl3
      obtain ⟨o3, ho3⟩ : ∃ o3, s3.objs[w]? = some o3 :=
        ⟨s3.objs[w], List.getElem?_eq_getElem hlt3⟩
      unfold afterHook
      rw [ho3]
      simp only []
      refine Safe.sequence ((forEachInterrupt_safe ih w o3.callers s3 hw3 (hw3.get ho3).1).weaken hl3) ?_
      intro s4 hw4 hl4
      have hlt4 : w < s4.objs.length := lt_of_lt_of_le hw hl4
      obtain ⟨o4, ho4⟩ : ∃ o4, s4.objs[w]? = some o4 :=
        ⟨s4.objs[w], List.getElem?_eq_getElem hlt4⟩
      unfold afterLoop
      rw [ho4]
      have hcond : ¬(o4.callers.length == 0 && undef != undef) = true := by simp
      simp only [hcond, if_false]
      refine Safe.ok_of ?_ (by simpa using hl4)
      refine WellFormed.rewrite hw4 w _ ?_ (fun _ => rfl)
      intro _ c hc
      cases hc

/-- In a well-formed heap, the hook `OnInterrupted` returns whenever the bound is not
exhausted inside it. -/
theorem OnInterrupted_returns (fuel : Nat) {w : Ref} {s : State} {self : YieldInstruction}
    (error : Value) (h : WellFormed s) (hself : s.objs[w]? = some self)
    (hne : (OnInterrupted (exec fuel) w (interruptedState w error s)).out ≠ .outOfFuel) :
    (OnInterrupted (exec fuel) w (interruptedState w error s)).out = .ok := by
  have hw : w < s.objs.length := (List.getElem?_eq_some_iff.1 hself).1
  have hwI : WellFormed (interruptedState w error s) := by
    unfold interruptedState
    refine WellFormed.rewrite ?_ w _ (fun _ _ hc => hc) (fun _ => rfl)
    refine WellFormed.rewrite ?_ w _ (fun _ _ hc => hc) (fun _ => rfl)
    exact h.same_heap rfl
  have hlI : (interruptedState w error s).objs.length = s.objs.length := by
    unfold interruptedState
    simp
  have h3 := OnInterrupted_safe (Interrupt_undef_safe fuel) w (interruptedState w error s) hwI
    (by rw [hlI]; exact hw)
  cases ho : (OnInterrupted (exec fuel) w (interruptedState w error s)).out with
  | ok => rfl
  | thrown x => exact absurd ho (h3.2.2 x)
  | outOfFuel => exact absurd ho hne


/-! ## Later states -/

theorem Later.now (s : State) : Later s s :=
  ⟨fun _ o h => ⟨o, h, id, id, List.prefix_refl _⟩, ⟨[], by simp⟩, Nat.le_refl _,
    fun _ h => Or.inl h⟩

theorem Later.after {a b c : State} (h1 : Later a b) (h2 : Later b c) : Later a c := by
  refine ⟨?_, ?_, Nat.le_trans h1.handles h2.handles, ?_⟩
  · intro w o ho
    obtain ⟨o1, ho1, hd1, hi1, hq1⟩ := h1.objs w o ho
    obtain ⟨o2, ho2, hd2, hi2, hq2⟩ := h2.objs w o1 ho1
    exact ⟨o2, ho2, fun h => hd2 (hd1 h), fun h => hi2 (hi1 h), hq1.trans hq2⟩
  · obtain ⟨l1, hl1⟩ := h1.log
    obtain ⟨l2, hl2⟩ := h2.log
    exact ⟨l1 ++ l2, by rw [hl2, hl1, List.append_assoc]⟩
  · intro t ht
    rcases h2.timers t ht with h | h
    · exact h1.timers t h
    · exact Or.inr (Nat.le_trans h1.handles h)

/-- A step that leaves the heap and the timers alone. -/
theorem Later.alike {s0 s s1 : State} (h : Later s0 s) (ho : s1.objs = s.objs)
    (hl : ∃ l, s1.log = s.log ++ l) (hn : s1.nextHandle = s.nextHandle)
    (ht : s1.timers = s.timers) : Later s0 s1 := by
  refine h.after ⟨?_, hl, by rw [hn], ?_⟩
  · intro w o hw
    exact ⟨o, by rw [ho]; exact hw, id, id, List.prefix_refl _⟩
  · intro t h1
    rw [ht] at h1
    exact Or.inl h1

theorem Later.logged {s0 s : State} (h : Later s0 s) (e : Event) : Later s0 (s.emit e) :=
  h.alike rfl ⟨[e], rfl⟩ rfl rfl

@[simp]
theorem update_timers (s : State) (w : Ref) (f : YieldInstruction → YieldInstruction) :
    (s.update w f).timers = s.timers := by
  unfold State.update
  split <;> rfl

@[simp]
theorem update_nextHandle (s : State) (w : Ref) (f : YieldInstruction → YieldInstruction) :
    (s.update w f).nextHandle = s.nextHandle := by
  unfold State.update
  split <;> rfl

@[simp]
theorem update_gens (s : State) (w : Ref) (f : YieldInstruction → YieldInstruction) :
    (s.update w f).gens = s.gens := by
  unfold State.update
  split <;> rfl

@[simp]
theorem updateGen_timers (s : State) (g : Ref) (f : Generator → Generator) :
    (s.updateGen g f).timers = s.timers := by
  unfold State.updateGen
  split <;> rfl

@[simp]
theorem updateGen_nextHandle (s : State) (g : Ref) (f : Generator → Generator) :
    (s.updateGen g f).nextHandle = s.nextHandle := by
  unfold State.updateGen
  split <;> rfl

@[simp]
theorem updatePromise_timers (s : State) (p : Ref) (f : PromiseObj → PromiseObj) :
    (s.updatePromise p f).timers = s.timers := by
  unfold State.updatePromise
  split <;> rfl

@[simp]
theorem updatePromise_nextHandle (s : State) (p : Ref) (f : PromiseObj → PromiseObj) :
    (s.updatePromise p f).nextHandle = s.nextHandle := by
  unfold State.updatePromise
  split <;> rfl

/-- A write that clears neither flag. -/
theorem Later.rewritten {s0 s : State} (h : Later s0 s) (w : Ref)
    (f : YieldInstruction → YieldInstruction) (hd : ∀ o, o.done = true → (f o).done = true)
    (hi : ∀ o, o.interrupted = true → (f o).interrupted = true)
    (hq : ∀ o, o.argumentsQueue <+: (f o).argumentsQueue) : Later s0 (s.update w f) := by
  refine h.after ⟨?_, ⟨[], by simp [update_log]⟩, by simp, ?_⟩
  · intro x o hx
    by_cases hxw : x = w
    · subst hxw
      exact ⟨f o, by rw [update_objs_self, hx]; rfl, fun h1 => hd o h1, fun h1 => hi o h1,
        hq o⟩
    · exact ⟨o, by rw [update_objs_other _ _ _ _ hxw]; exact hx, id, id, List.prefix_refl _⟩
  · intro t ht
    rw [update_timers] at ht
    exact Or.inl ht

theorem Later.timer_set {s0 s : State} (h : Later s0 s) (w : Ref) (t : Option Nat) :
    Later s0 (s.update w (YieldInstruction.setTimer t)) :=
  h.rewritten w _ (fun o h1 => by rw [(setTimer_frame t o).1]; exact h1)
    (fun o h1 => by rw [(setTimer_frame t o).2.1]; exact h1)
    (fun o => by unfold YieldInstruction.setTimer; split <;> exact List.prefix_refl _)

theorem Later.current_set {s0 s : State} (h : Later s0 s) (w : Ref) (r : IterResult) :
    Later s0 (s.update w (YieldInstruction.setCurrent r)) :=
  h.rewritten w _ (fun o h1 => by rw [(setCurrent_frame r o).1]; exact h1)
    (fun o h1 => by rw [(setCurrent_frame r o).2.1]; exact h1)
    (fun o => by unfold YieldInstruction.setCurrent; split <;> exact List.prefix_refl _)

theorem Later.callee_set {s0 s : State} (h : Later s0 s) (w : Ref) (c : Callee) :
    Later s0 (s.update w (YieldInstruction.setCallee c)) :=
  h.rewritten w _ (fun o h1 => by rw [(setCallee_frame c o).1]; exact h1)
    (fun o h1 => by rw [(setCallee_frame c o).2.1]; exact h1)
    (fun o => by unfold YieldInstruction.setCallee; split <;> exact List.prefix_refl _)

theorem Later.wrapped_set {s0 s : State} (h : Later s0 s) (w : Ref) (y : Option Ref)
    (n : Int) : Later s0 (s.update w (YieldInstruction.setWrapped y n)) :=
  h.rewritten w _ (fun o h1 => by rw [(setWrapped_frame y n o).1]; exact h1)
    (fun o h1 => by rw [(setWrapped_frame y n o).2.1]; exact h1)
    (fun o => by unfold YieldInstruction.setWrapped; split <;> exact List.prefix_refl _)

theorem Later.allocated {s0 s : State} (h : Later s0 s) (o : YieldInstruction) :
    Later s0 (s.alloc o).1 := by
  refine h.after ⟨?_, ⟨[], by simp⟩, Nat.le_refl _, fun _ ht => Or.inl ht⟩
  intro w a hw
  refine ⟨a, ?_, id, id, List.prefix_refl _⟩
  rw [alloc_objs]
  have hlt : w < s.objs.length := (List.getElem?_eq_some_iff.1 hw).1
  rw [List.getElem?_append_left hlt]
  exact hw

theorem Later.converted {s0 s : State} (h : Later s0 s) (v : Value) :
    Later s0 (ConvertToYieldInstruction v s).1 := by
  unfold ConvertToYieldInstruction
  split
  · exact h.allocated _
  · exact h
  · exact h
  · exact h.allocated _
  · exact h

theorem Later.scheduled {s0 s : State} (h : Later s0 s) (fn : TimerFn) (ms : Int) (t : Ref) :
    Later s0 (setTimeout fn ms t s).1 := by
  refine h.after ⟨fun w o hw => ⟨o, hw, id, id, List.prefix_refl _⟩, ⟨_, rfl⟩, Nat.le_succ _, ?_⟩
  intro x hx
  have hx1 : x ∈ s.timers ++ [⟨s.nextHandle, fn, t, ms⟩] := hx
  rcases List.mem_append.1 hx1 with h1 | h1
  · exact Or.inl h1
  · rw [List.mem_singleton] at h1
    subst h1
    exact Or.inr (Nat.le_refl _)

theorem Later.cancelled {s0 s : State} (h : Later s0 s) (t : Option Nat) :
    Later s0 (clearTimeout t s) := by
  cases t with
  | none => exact h.logged _
  | some x =>
    refine h.after ⟨fun w o hw => ⟨o, hw, id, id, List.prefix_refl _⟩, ⟨_, rfl⟩, Nat.le_refl _, ?_⟩
    intro y hy
    have hy1 : y ∈ s.timers.filter (fun t => t.handle != x) := hy
    exact Or.inl (List.mem_filter.1 hy1).1

theorem Later.generator {s0 s : State} (h : Later s0 s) (g : Ref)
    (f : Generator → Generator) : Later s0 (s.updateGen g f) :=
  h.alike (by simp) ⟨[], by simp⟩ (by simp) (by simp)

theorem Later.promise {s0 s : State} (h : Later s0 s) (p : Ref)
    (f : PromiseObj → PromiseObj) : Later s0 (s.updatePromise p f) :=
  h.alike (by simp) ⟨[], by simp⟩ (by simp) (by simp)

theorem Later.finished {s0 s : State} (h : Later s0 s) (g : Ref) (v : Value) :
    Later s0 (s.finish g v) :=
  h.generator g _

theorem Later.invoked {rec : Call → State → Res} (hrec : Keeps rec) {s0 s : State}
    (h : Later s0 s) (c : Call) : Later s0 (rec c s).st :=
  h.after (hrec c s)

theorem Later.dropped {s0 : State} {r : Res} (h : Later s0 r.st) : Later s0 r.swallow.st := by
  unfold Res.swallow
  split
  · exact h.logged _
  · exact h

section LaterMethods

variable {rec : Call → State → Res} {s0 s : State}

theorem Coroutine.turn_later (hrec : Keeps rec) (h : Later s0 s) (w : Ref) :
    Later s0 (Coroutine.OnStarted rec w s).st := by
  unfold Coroutine.OnStarted
  split
  · exact h
  · split
    · split
      · exact h.invoked hrec _
      · refine Res.andThen_ind (h.invoked hrec _) ?_
        intro s1 h1
        simp only []
        split
        · exact ((h1.current_set _ _).converted _ |>.callee_set _ _).invoked hrec _
        · exact ((h1.current_set _ _).converted _).invoked hrec _
    · exact h

theorem Wait.started_later (hrec : Keeps rec) (h : Later s0 s) (w : Ref) (y : Option Ref)
    (t : Option Nat) : Later s0 (Wait.OnStarted rec w y t s).st := by
  unfold Wait.OnStarted
  split
  · exact h
  · split
    · exact h
    · split
      · exact h.invoked hrec _
      · refine Later.invoked hrec ?_ _
        refine Later.rewritten (h.cancelled _) _ _ ?_ ?_ ?_
        · exact fun _ h1 => h1
        · exact fun _ h1 => h1
        · exact fun _ => List.prefix_append _ _

theorem OnStarted_later (hrec : Keeps rec) (h : Later s0 s) (w : Ref) :
    Later s0 (OnStarted rec w s).st := by
  unfold OnStarted
  simp only []
  split
  · exact h.logged _
  · split
    · exact h.logged _
    · exact ((h.logged _).scheduled _ _ _).timer_set _ _
    · exact (h.logged _).promise _ _
    · exact Coroutine.turn_later hrec (h.logged _) _
    · exact Wait.started_later hrec (h.logged _) _ _ _

theorem OnInterrupted_later (hrec : Keeps rec) (h : Later s0 s) (w : Ref) :
    Later s0 (OnInterrupted rec w s).st := by
  unfold OnInterrupted
  simp only []
  split
  · exact h.logged _
  · split
    · exact ((h.logged _).cancelled _).timer_set _ _
    · unfold Coroutine.OnInterrupted
      split
      · exact h.logged _
      · exact (h.logged _).invoked hrec _
    · exact h.logged _

theorem OnThown_later (hrec : Keeps rec) (h : Later s0 s) (w : Ref) (error : Value) :
    Later s0 (OnThown rec w error s).st := by
  unfold OnThown
  simp only []
  split
  · exact h.logged _
  · split
    · exact (h.logged _).invoked hrec _
    · exact h.logged _

theorem forEachStart_later (hrec : Keeps rec) (w : Ref) (cs : List Ref) :
    ∀ {s : State}, Later s0 s → Later s0 (forEachStart rec w cs s).st := by
  induction cs with
  | nil => intro s h; exact h
  | cons c cs ih =>
    intro s h
    exact Res.andThen_ind ((h.logged _).invoked hrec _) fun s1 h1 => ih h1

theorem forEachInterrupt_later (hrec : Keeps rec) (w : Ref) (error : Value) (cs : List Ref) :
    ∀ {s : State}, Later s0 s → Later s0 (forEachInterrupt rec w error cs s).st := by
  induction cs with
  | nil => intro s h; exact h
  | cons c cs ih =>
    intro s h
    exact Res.andThen_ind ((h.logged _).invoked hrec _) fun s1 h1 => ih h1

theorem Start_later (hrec : Keeps rec) (h : Later s0 s) (w : Ref) (caller : Caller) :
    Later s0 (YieldInstruction.Start rec w caller s).st := by
  unfold YieldInstruction.Start
  simp only []
  split
  · exact h.logged _
  · split
    · split
      · exact h.logged _
      · exact h.logged _
      · exact (h.logged _).invoked hrec _
    · refine Res.andThen_ind ?_ ?_
      · split
        · split
          · exact (h.logged _).invoked hrec _
          · refine Later.rewritten (h.logged _) _ _ ?_ ?_ ?_
            · exact fun _ h1 => h1
            · exact fun _ h1 => h1
            · exact fun _ => List.prefix_refl _
        · exact h.logged _
      · intro s1 h1
        exact Res.orCatch_ind (OnStarted_later hrec h1 _) fun e s2 h2 => h2.invoked hrec _

theorem End_later (hrec : Keeps rec) (h : Later s0 s) (w : Ref) :
    Later s0 (YieldInstruction.End rec w s).st := by
  unfold YieldInstruction.End
  simp only []
  split
  · exact h.logged _
  · split
    · exact h.logged _
    · refine Res.andThen_ind (forEachStart_later hrec _ _ ?_) ?_
      · refine Later.rewritten (h.logged _) _ _ ?_ ?_ ?_
        · exact fun _ _ => rfl
        · exact fun _ h1 => h1
        · exact fun _ => List.prefix_refl _
      · intro s1 h1
        refine Later.rewritten h1 _ _ ?_ ?_ ?_
        · exact fun _ h2 => h2
        · exact fun _ h2 => h2
        · exact fun _ => List.prefix_refl _

theorem afterLoop_later (hrec : Keeps rec) (h : Later s0 s) (w : Ref) (error : Value) :
    Later s0 (afterLoop rec w error s).st := by
  unfold afterLoop
  split
  · exact h
  · have h1 : Later s0 (s.update w fun o => { o with callers := [] }) := by
      refine Later.rewritten h _ _ ?_ ?_ ?_
      · exact fun _ h2 => h2
      · exact fun _ h2 => h2
      · exact fun _ => List.prefix_refl _
    split
    · exact OnThown_later hrec h1 _ _
    · exact h1

theorem afterHook_later (hrec : Keeps rec) (h : Later s0 s) (w : Ref) (error : Value) :
    Later s0 (afterHook rec w error s).st := by
  unfold afterHook
  split
  · exact h
  · exact Res.andThen_ind (forEachInterrupt_later hrec _ _ _ h)
      fun s1 h1 => afterLoop_later hrec h1 _ _

theorem Interrupt_later (hrec : Keeps rec) (h : Later s0 s) (w : Ref) (error : Value) :
    Later s0 (YieldInstruction.Interrupt rec w error s).st := by
  unfold YieldInstruction.Interrupt
  simp only []
  split
  · exact h.logged _
  · have h1 : Later s0
        ((s.emit (.Interrupt w error)).update w fun o => { o with error := error }) := by
      refine Later.rewritten (h.logged _) _ _ ?_ ?_ ?_
      · exact fun _ h2 => h2
      · exact fun _ h2 => h2
      · exact fun _ => List.prefix_refl _
    split
    · exact h1
    · split
      · exact h1
      · refine Res.andThen_ind (OnInterrupted_later hrec ?_ _) ?_
        · refine Later.rewritten h1 _ _ ?_ ?_ ?_
          · exact fun _ h2 => h2
          · exact fun _ _ => rfl
          · exact fun _ => List.prefix_refl _
        · intro s1 h2
          exact afterHook_later hrec h2 w error

theorem Callback.call_later (hrec : Keeps rec) (h : Later s0 s) (r : Ref) (args : List Atom) :
    Later s0 (Callback.call rec r args s).st := by
  unfold Callback.call
  simp only []
  split
  · exact h.logged _
  · have h1 : Later s0 ((s.emit (.invoke r args)).update r fun o =>
        { o with argumentsQueue := o.argumentsQueue ++ [.args args] }) := by
      refine Later.rewritten (h.logged _) _ _ ?_ ?_ ?_
      · exact fun _ h2 => h2
      · exact fun _ h2 => h2
      · exact fun _ => List.prefix_append _ _
    split
    · exact h1
    · refine Res.andThen_ind ?_ fun s1 h2 => h2.invoked hrec _
      split
      · exact h1.invoked hrec _
      · exact h1

theorem Wait.new_later (hrec : Keeps rec) (h : Later s0 s) (object : Value) (seconds : Int) :
    Later s0 (Wait.new rec object seconds s).st := by
  unfold Wait.new
  simp only []
  refine Res.andThen_ind ?_ ?_
  · split
    · exact ((h.allocated _).converted _).invoked hrec _
    · exact (h.allocated _).converted _
  · intro s1 h1
    exact ((h1.wrapped_set _ _ _).scheduled _ _ _).timer_set _ _

theorem Wait.OnTimeOut_later (hrec : Keeps rec) (h : Later s0 s) (w : Ref) :
    Later s0 (Wait.OnTimeOut rec w s).st := by
  unfold Wait.OnTimeOut
  simp only []
  split
  · exact h.logged _
  · split
    · exact (h.logged _).invoked hrec _
    · exact h.logged _

theorem Generator.run_later (hrec : Keeps rec) (h : Later s0 s) (g : Ref) :
    Later s0 (Generator.run rec g s).st := by
  unfold Generator.run
  split
  · exact h
  · split
    · exact h.finished _ _
    · exact h.finished _ _
    · exact h.finished _ _
    · exact h.generator _ _
    · exact h.generator _ _
    · refine Res.andThen_ind ?_ fun s1 h1 => h1.invoked hrec _
      exact Res.orCatch_ind ((h.generator _ _).invoked hrec _) fun e s1 h1 => h1.finished _ _

theorem Generator.next_later (hrec : Keeps rec) (h : Later s0 s) (g : Ref) (input : Value) :
    Later s0 (Generator.next rec g input s).st := by
  unfold Generator.next
  simp only []
  split
  · exact h.logged _
  · split
    · exact h.logged _
    · exact (h.logged _).generator _ _
    · exact ((h.logged _).generator _ _).invoked hrec _
    · exact ((h.logged _).generator _ _).invoked hrec _

theorem Generator.inject_later (hrec : Keeps rec) (h : Later s0 s) (g : Ref) (error : Value) :
    Later s0 (Generator.inject rec g error s).st := by
  unfold Generator.inject
  simp only []
  split
  · exact h.logged _
  · split
    · exact h.logged _
    · exact h.logged _
    · exact (h.logged _).finished _ _
    · split
      · exact ((h.logged _).generator _ _).invoked hrec _
      · exact (h.logged _).finished _ _

theorem fire_later (hrec : Keeps rec) (h : Later s0 s) (handle : Nat) :
    Later s0 (fire rec handle s).st := by
  unfold fire
  split
  · exact h
  · have h1 : Later s0 ({ s with timers := s.timers.filter (fun t => t.handle != handle) } :
        State) := by
      refine h.after ⟨fun w o hw => ⟨o, hw, id, id, List.prefix_refl _⟩, ⟨[], by simp⟩, Nat.le_refl _, ?_⟩
      intro y hy
      exact Or.inl (List.mem_filter.1 hy).1
    simp only []
    split
    · exact (h1.logged _).invoked hrec _
    · exact (h1.logged _).invoked hrec _

theorem react_later (hrec : Keeps rec) (h : Later s0 s) (p : Ref) :
    Later s0 (react rec p s).st := by
  unfold react
  split
  · exact h
  · split
    · exact h
    · split
      · exact h
      · exact Later.dropped (Res.orCatch_ind ((h.promise _ _).invoked hrec _)
          fun e s1 h1 => h1.invoked hrec _)
      · exact Later.dropped ((h.promise _ _).invoked hrec _)

theorem step_later (hrec : Keeps rec) (c : Call) (s : State) : Later s (step rec c s).st := by
  have h := Later.now s
  cases c with
  | Start w caller => exact Start_later hrec h w caller
  | End w => exact End_later hrec h w
  | Interrupt w error => exact Interrupt_later hrec h w error
  | Throw w error => exact h.invoked hrec _
  | loop w => exact Coroutine.turn_later hrec h w
  | invoke r args => exact Callback.call_later hrec h r args
  | newWait object seconds => exact Wait.new_later hrec h object seconds
  | OnTimeOut w => exact Wait.OnTimeOut_later hrec h w
  | next g input => exact Generator.next_later hrec h g input
  | inject g error => exact Generator.inject_later hrec h g error
  | run g => exact Generator.run_later hrec h g
  | fire handle => exact fire_later hrec h handle
  | resolve p => exact h.promise _ _
  | reject p error => exact h.promise _ _
  | react p => exact react_later hrec h p

end LaterMethods

/-- Every call, with every bound, only leads to later states. -/
theorem exec_later (fuel : Nat) : Keeps (exec fuel) := by
  induction fuel with
  | zero => intro c s; exact Later.now s
  | succ n ih => intro c s; exact step_later ih c s

/-- A request that has been cancelled stays cancelled: handles are issued once. -/
theorem Later.stays_cancelled {s0 s : State} (h : Later s0 s) {x : Nat}
    (hx : x < s0.nextHandle) (hc : Cancelled x s0) : Cancelled x s ∧ x < s.nextHandle := by
  refine ⟨?_, Nat.lt_of_lt_of_le hx h.handles⟩
  intro t ht
  rcases h.timers t ht with h1 | h1
  · exact hc t h1
  · exact fun heq => absurd (heq ▸ h1) (Nat.not_le.2 hx)

/-- The timer service has nothing to do for a request that is not pending. -/
theorem fire_cancelled {rec : Call → State → Res} {x : Nat} {s : State} (hc : Cancelled x s) :
    fire rec x s = ok s := by
  unfold fire
  cases hf : s.timers.find? (fun t => t.handle == x) with
  | none => rfl
  | some t =>
    have hm := List.mem_of_find?_eq_some hf
    have hp := List.find?_some hf
    simp only [beq_iff_eq] at hp
    exact absurd hp (hc t hm)


/-! ## How a call begins -/

theorem Begins.later {s0 s s1 : State} {p : List Event} (h : Begins s0 p s) (h1 : Later s s1) :
    Begins s0 p s1 := by
  obtain ⟨l, hl⟩ := h
  obtain ⟨l1, hl1⟩ := h1.log
  exact ⟨l ++ l1, by rw [hl1, hl, List.append_assoc]⟩

theorem Begins.sequel {s0 : State} {p : List Event} {r : Res} {k : State → Res}
    (h : Begins s0 p r.st) (hk : ∀ s1, Later s1 (k s1).st) : Begins s0 p (r.andThen k).st :=
  Res.andThen_ind h fun s1 h1 => h1.later (hk s1)

theorem Begins.handled {s0 : State} {p : List Event} {r : Res} {k : Value → State → Res}
    (h : Begins s0 p r.st) (hk : ∀ e s1, Later s1 (k e s1).st) : Begins s0 p (r.orCatch k).st :=
  Res.orCatch_ind h fun e s1 h1 => h1.later (hk e s1)

/-- Entries written before the call are put in front. -/
theorem Begins.from {s0 s1 s : State} {p q : List Event} (h : Begins s1 p s)
    (h1 : s1.log = s0.log ++ q) : Begins s0 (q ++ p) s := by
  obtain ⟨l, hl⟩ := h
  exact ⟨l, by rw [hl, h1]; simp⟩

/-- The host call `generator.next(input)` is traced at once. -/
theorem next_begins (fuel : Nat) (g : Ref) (input : Value) (s : State) :
    Begins s [.next g input] (exec (fuel + 1) (.next g input) s).st := by
  have h : Begins s [.next g input] (s.emit (.next g input)) := ⟨[], by simp⟩
  show Begins s _ (Generator.next (exec fuel) g input s).st
  unfold Generator.next
  simp only []
  split
  · exact h
  · split
    · exact h
    · exact h.later ((Later.now _).generator _ _)
    · exact h.later (((Later.now _).generator _ _).invoked (exec_later fuel) _)
    · exact h.later (((Later.now _).generator _ _).invoked (exec_later fuel) _)

/-- A turn of the loop of a driver whose last step was not final advances the routine. -/
theorem turn_begins (fuel : Nat) {d g : Ref} {callee : Callee} {cur : IterResult} {s : State}
    {self : YieldInstruction} (hd : s.objs[d]? = some self)
    (hcls : self.cls = .Coroutine g callee cur) (hcur : cur.done = false) :
    Begins s [.next g (Coroutine.input s callee)]
      (Coroutine.OnStarted (exec (fuel + 1)) d s).st := by
  unfold Coroutine.OnStarted
  simp only [hd, hcls, hcur]
  refine Begins.sequel (next_begins fuel g _ s) ?_
  intro s1
  split
  · exact (((Later.now _).current_set _ _).converted _ |>.callee_set _ _).invoked
      (exec_later _) _
  · exact (((Later.now _).current_set _ _).converted _).invoked (exec_later _) _

/-- The input of the next step does not depend on the trace, nor on the callers. -/
theorem input_congr {s s1 : State} (callee : Callee)
    (h : ∀ r : Ref, (s1.objs[r]?).map (fun o : YieldInstruction => o.argumentsQueue) =
      (s.objs[r]?).map (fun o : YieldInstruction => o.argumentsQueue)) :
    Coroutine.input s1 callee = Coroutine.input s callee := by
  unfold Coroutine.input
  cases callee with
  | stub => rfl
  | yi r =>
    have hr := h r
    simp only []
    cases h1 : s1.objs[r]? <;> cases h2 : s.objs[r]? <;> rw [h1, h2] at hr <;>
      simp_all

/-- `Start` on a pending driver whose last step was not final advances the routine, whatever
the state of the waitable it is suspended on. -/
theorem Start_begins (fuel : Nat) {d g : Ref} {callee : Callee} {cur : IterResult} {s : State}
    {self : YieldInstruction} (caller : Caller) (hd : s.objs[d]? = some self)
    (hcls : self.cls = .Coroutine g callee cur) (hdone : self.done = false)
    (hint : self.interrupted = false) (hcur : cur.done = false) :
    Begins s [.Start d caller, .OnStarted d, .next g (Coroutine.input s callee)]
      (exec (fuel + 2) (.Start d caller) s).st := by
  show Begins s _ (YieldInstruction.Start (exec (fuel + 1)) d caller s).st
  rw [Start_pending _ caller hd hdone hint]
  refine Begins.handled ?_ fun e s1 => exec_later _ _ _
  unfold OnStarted
  have hq : ∃ self1, (queued d caller s).objs[d]? = some self1 ∧
      self1.cls = .Coroutine g callee cur := by
    cases caller with
    | ref c =>
      refine ⟨{ self with callers := self.callers ++ [c] }, ?_, hcls⟩
      simp [queued, update_objs_self, hd]
    | undefined => exact ⟨self, by simpa [queued] using hd, hcls⟩
    | null => exact ⟨self, by simpa [queued] using hd, hcls⟩
  obtain ⟨self1, hq1, hq2⟩ := hq
  have hq3 : ((queued d caller s).emit (.OnStarted d)).objs[d]? = some self1 := hq1
  simp only [hq3, hq2]
  have hin : Coroutine.input ((queued d caller s).emit (.OnStarted d)) callee =
      Coroutine.input s callee := by
    apply input_congr
    intro r
    cases caller with
    | ref c =>
      simp only [queued, emit_objs, update_objs]
      split
      · rename_i h1
        subst h1
        cases s.objs[r]? <;> rfl
      · rfl
    | undefined => rfl
    | null => rfl
  have hb := turn_begins fuel hq3 hq2 hcur
  rw [hin] at hb
  have hl : ((queued d caller s).emit (.OnStarted d)).log =
      s.log ++ [.Start d caller, .OnStarted d] := by
    cases caller <;> simp [queued, update_log]
  exact hb.from hl

/-- `End` on a waitable whose first caller is a pending driver, suspended after a step that
was not final: the loop of `End` resumes the driver, which advances its routine. -/
theorem End_begins (fuel : Nat) {w d g : Ref} {callee : Callee} {cur : IterResult} {s : State}
    {waited self : YieldInstruction} {rest : List Ref} (hw : s.objs[w]? = some waited)
    (hwi : waited.interrupted = false) (hcs : waited.callers = d :: rest)
    (hd : s.objs[d]? = some self) (hcls : self.cls = .Coroutine g callee cur)
    (hdone : self.done = false) (hint : self.interrupted = false) (hcur : cur.done = false)
    (hne : d ≠ w) :
    Begins s [.End w, .resumes w d, .Start d .undefined, .OnStarted d,
        .next g (Coroutine.input s callee)]
      (exec (fuel + 3) (.End w) s).st := by
  show Begins s _ (YieldInstruction.End (exec (fuel + 2)) w s).st
  rw [End_unfold _ hw hwi, hcs]
  refine Begins.sequel ?_ fun s1 => ?_
  · unfold forEachStart
    refine Begins.sequel ?_ fun s1 => forEachStart_later (exec_later _) _ _ (Later.now _)
    have hd1 : ((((s.emit (.End w)).update w fun o => { o with done := true }).emit
        (.resumes w d)).objs[d]?) = some self := by
      rw [emit_objs, update_objs_other _ _ _ _ hne]
      exact hd
    have hb := Start_begins fuel .undefined hd1 hcls hdone hint hcur
    have hin : Coroutine.input (((s.emit (.End w)).update w fun o => { o with done := true }).emit
        (.resumes w d)) callee = Coroutine.input s callee := by
      apply input_congr
      intro r
      simp only [emit_objs, update_objs]
      split
      · rename_i h1
        subst h1
        cases s.objs[r]? <;> rfl
      · rfl
    rw [hin] at hb
    have hl : (((s.emit (.End w)).update w fun o => { o with done := true }).emit
        (.resumes w d)).log = s.log ++ [.End w, .resumes w d] := by
      simp [update_log]
    exact hb.from hl
  · refine Later.rewritten (Later.now _) _ _ ?_ ?_ ?_
    · exact fun _ h => h
    · exact fun _ h => h
    · exact fun _ => List.prefix_refl _


/-! ## The combinator `Wait` -/

/-- A sequence that ends with nothing more to do is its first part. -/
theorem Res.andThen_ok_self (r : Res) : (r.andThen fun s1 => ok s1) = r := by
  cases r with
  | mk st out => cases out <;> rfl

theorem execAll_later (calls : List (Nat × Call)) : ∀ s, Later s (execAll calls s) := by
  induction calls with
  | nil => intro s; exact Later.now s
  | cons c cs ih =>
    intro s
    exact (exec_later c.1 c.2 s).after (ih _)

/-- `End` on an object that is not interrupted returns exactly when its callers are resumed
in order, each of them returning. -/
theorem End_returns_iff {s : State} {w : Ref} {self : YieldInstruction}
    (hself : s.objs[w]? = some self) (hi : self.interrupted = false) (s1 : State) :
    Returns (.End w) s s1 ↔
      ∃ s2, ResumedInOrder w self.callers (endedState w s) s2 ∧
        s1 = s2.update w fun o => { o with callers := [] } := by
  constructor
  · rintro ⟨fuel, h⟩
    cases fuel with
    | zero => cases h
    | succ n =>
      have hE : exec (n + 1) (.End w) s = YieldInstruction.End (exec n) w s := rfl
      rw [hE, End_unfold (exec n) hself hi] at h
      obtain ⟨h1, h2⟩ := Res.andThen_eq_ok h
      refine ⟨_, forEachStart_returns h1, ?_⟩
      cases h2
      rfl
  · rintro ⟨s2, hr, rfl⟩
    obtain ⟨n, hn⟩ := forEachStart_of_resumed hr
    refine ⟨n + 1, ?_⟩
    have hE : exec (n + 1) (.End w) s = YieldInstruction.End (exec n) w s := rfl
    rw [hE, End_unfold (exec n) hself hi]
    unfold endedState at hn
    rw [hn]
    rfl

/-- From a state in which `w` is done and `h` is cancelled, the combinator has completed for
good. -/
theorem CompletedFor.of_later {w : Ref} {h : Nat} {q : List Value} {s0 s1 : State}
    {o : YieldInstruction} (ho : s0.objs[w]? = some o) (hd : o.done = true)
    (hq : o.argumentsQueue = q) (hc : Cancelled h s0) (hh : h < s0.nextHandle)
    (hl : Later s0 s1) : CompletedFor w h q s1 := by
  intro calls
  have hl2 := hl.after (execAll_later calls s1)
  obtain ⟨o1, ho1, hd1, _, hq1⟩ := hl2.objs w o ho
  have hc1 := (hl2.stays_cancelled hh hc).1
  refine ⟨⟨o1, ho1, hd1 hd, by rw [← hq]; exact hq1⟩, hc1, ?_⟩
  intro n
  exact fire_cancelled hc1

/-- The hook `OnStarted` of a combinator whose wrapped waitable is done. -/
theorem OnStarted_wrapped_done (rec : Call → State → Res) {w y : Ref} {h : Option Nat}
    {sec : Option Int} {s : State} {self inner : YieldInstruction}
    (hw : s.objs[w]? = some self) (hcls : self.cls = .Wait (some y) sec h)
    (hy : s.objs[y]? = some inner) (hyd : inner.done = true) :
    OnStarted rec w s =
      rec (.End w) (completedState w h (inner.argumentsQueue.headD undef) s) := by
  unfold OnStarted
  simp only [emit_objs, hw, hcls]
  unfold Wait.OnStarted
  simp only [emit_objs, hy, hyd]
  rfl

theorem completedState_get {w : Ref} {h : Option Nat} {arg : Value} {s : State}
    {self : YieldInstruction} (hw : s.objs[w]? = some self) :
    (completedState w h arg s).objs[w]? =
      some { self with argumentsQueue := self.argumentsQueue ++ [arg] } := by
  unfold completedState
  rw [update_objs_self, clearTimeout_objs, emit_objs, hw]
  rfl

theorem completedState_cancelled (w : Ref) (h : Nat) (arg : Value) (s : State) :
    Cancelled h (completedState w (some h) arg s) ∧
      (completedState w (some h) arg s).nextHandle = s.nextHandle := by
  unfold completedState
  constructor
  · intro t ht
    rw [update_timers] at ht
    have ht1 : t ∈ (s.emit (.OnStarted w)).timers.filter (fun t => t.handle != h) := ht
    have := (List.mem_filter.1 ht1).2
    simpa using this
  · rw [update_nextHandle]
    rfl

theorem endedState_get {w : Ref} {s : State} {self : YieldInstruction}
    (hw : s.objs[w]? = some self) :
    (endedState w s).objs[w]? = some { self with done := true } := by
  unfold endedState
  rw [update_objs_self, emit_objs, hw]
  rfl

/-- `Start` on a pending combinator whose wrapped waitable is done: the deadline is cancelled,
the first argument of the wrapped waitable is queued and `End` is called; however `Start`
stops, its last state comes after one in which the combinator is done and the deadline is
cancelled. -/
theorem Start_wrapped_done (fuel : Nat) {w y : Ref} {h : Nat} {sec : Option Int} {s : State}
    {self inner : YieldInstruction} (caller : Caller)
    (hw : s.objs[w]? = some self) (hcls : self.cls = .Wait (some y) sec (some h))
    (hdone : self.done = false) (hint : self.interrupted = false)
    (hy : s.objs[y]? = some inner) (hyd : inner.done = true) (hh : h < s.nextHandle) :
    exec (fuel + 2) (.Start w caller) s =
        ((exec (fuel + 1) (.End w)
          (completedState w (some h) (inner.argumentsQueue.headD undef)
            (queued w caller s))).orCatch
          fun error s2 => exec (fuel + 1) (.Throw w error) s2) ∧
      ∃ s0 o, s0.objs[w]? = some o ∧ o.done = true ∧
        o.argumentsQueue = self.argumentsQueue ++ [inner.argumentsQueue.headD undef] ∧
        Cancelled h s0 ∧ h < s0.nextHandle ∧
        Later s0 (exec (fuel + 2) (.Start w caller) s).st := by
  have hne : y ≠ w := by
    intro heq
    subst heq
    rw [hw] at hy
    cases hy
    rw [hdone] at hyd
    cases hyd
  obtain ⟨selfq, hwq, hclsq, hiq, hqq⟩ : ∃ selfq, (queued w caller s).objs[w]? = some selfq ∧
      selfq.cls = self.cls ∧ selfq.interrupted = false ∧
      selfq.argumentsQueue = self.argumentsQueue := by
    cases caller with
    | ref c =>
      exact ⟨{ self with callers := self.callers ++ [c] },
        by simp [queued, update_objs_self, hw], rfl, hint, rfl⟩
    | undefined => exact ⟨self, by simpa [queued] using hw, rfl, hint, rfl⟩
    | null => exact ⟨self, by simpa [queued] using hw, rfl, hint, rfl⟩
  have hyq : (queued w caller s).objs[y]? = some inner := by
    cases caller with
    | ref c =>
      simp only [queued, emit_objs]
      rw [update_objs_other _ _ _ _ hne]
      exact hy
    | undefined => exact hy
    | null => exact hy
  have hnq : (queued w caller s).nextHandle = s.nextHandle := by
    cases caller <;> simp [queued, State.emit]
  have hcall : exec (fuel + 2) (.Start w caller) s =
      ((exec (fuel + 1) (.End w)
        (completedState w (some h) (inner.argumentsQueue.headD undef)
          (queued w caller s))).orCatch
        fun error s2 => exec (fuel + 1) (.Throw w error) s2) := by
    show YieldInstruction.Start (exec (fuel + 1)) w caller s = _
    rw [Start_pending _ caller hw hdone hint,
      OnStarted_wrapped_done _ hwq (hclsq.trans hcls) hyq hyd]
  refine ⟨hcall, ?_⟩
  rw [hcall]
  have hwc : (completedState w (some h) (inner.argumentsQueue.headD undef)
      (queued w caller s)).objs[w]? =
      some { selfq with
        argumentsQueue := selfq.argumentsQueue ++ [inner.argumentsQueue.headD undef] } :=
    completedState_get hwq
  have hwe := endedState_get hwc
  have hcan := completedState_cancelled w h (inner.argumentsQueue.headD undef)
    (queued w caller s)
  have hl : Later (endedState w (completedState w (some h)
      (inner.argumentsQueue.headD undef) (queued w caller s)))
      ((exec (fuel + 1) (.End w)
        (completedState w (some h) (inner.argumentsQueue.headD undef)
          (queued w caller s))).orCatch
        fun error s2 => exec (fuel + 1) (.Throw w error) s2).st := by
    refine Res.orCatch_ind ?_ fun e s2 h2 => h2.invoked (exec_later _) _
    show Later _ (YieldInstruction.End (exec fuel) w _).st
    rw [End_unfold _ hwc hiq]
    refine Res.andThen_ind (forEachStart_later (exec_later _) _ _ (Later.now _)) ?_
    intro s1 h1
    refine Later.rewritten h1 _ _ ?_ ?_ ?_
    · exact fun _ h2 => h2
    · exact fun _ h2 => h2
    · exact fun _ => List.prefix_refl _
  refine ⟨_, _, hwe, rfl, ?_, ?_, ?_, hl⟩
  · simp [hqq]
  · intro t ht
    have ht1 : t ∈ (completedState w (some h) (inner.argumentsQueue.headD undef)
        (queued w caller s)).timers := by
      simpa [endedState, State.emit] using ht
    exact hcan.1 t ht1
  · have hn : ∀ x : State, (endedState w x).nextHandle = x.nextHandle := by
      intro x
      simp [endedState, State.emit]
    rw [hn, hcan.2, hnq]
    exact hh

/-- The deadline request `h` of a pending combinator `w` fires.  The combinator becomes
interrupted with the timeout error stored, and its hook
`OnInterrupted` does nothing: in the state in which the loop over its callers starts, every
other object, the wrapped waitable among them, is as it was, and the pending requests are
those of before without `h`.  What is left of the call is that loop and the escalation:
the error goes to the callers of the combinator, and with no caller it is raised. -/
theorem deadline_interrupts_only_callers (fuel h : Nat) (w : Ref) (s : State)
    (self : YieldInstruction) (y : Option Ref) (seconds : Int) (t : Option Nat) (ms : Int)
    (hfind : s.timers.find? (fun t => t.handle == h) = some ⟨h, .OnTimeOut, w, ms⟩)
    (hw : s.objs[w]? = some self) (hcls : self.cls = .Wait y (some seconds) t)
    (hdone : self.done = false) (hint : self.interrupted = false) :
    exec (fuel + 4) (.fire h) s =
        afterHook (exec fuel) w (.atom (.error (.timedOut seconds)))
          (timedOutState h w (.atom (.error (.timedOut seconds))) s) ∧
      (timedOutState h w (.atom (.error (.timedOut seconds))) s).objs[w]? =
        some { self with error := .atom (.error (.timedOut seconds)), interrupted := true } ∧
      (∀ x : Ref, x ≠ w →
        (timedOutState h w (.atom (.error (.timedOut seconds))) s).objs[x]? = s.objs[x]?) ∧
      (timedOutState h w (.atom (.error (.timedOut seconds))) s).timers =
        s.timers.filter (fun t => t.handle != h) ∧
      (self.callers = [] →
        exec (fuel + 4) (.fire h) s =
          ⟨((timedOutState h w (.atom (.error (.timedOut seconds))) s).update w
              fun o => { o with callers := [] }).emit
              (.OnThown w (.atom (.error (.timedOut seconds)))),
            .thrown (.atom (.error (.timedOut seconds)))⟩) := by
  have hobj : (timedOutState h w (.atom (.error (.timedOut seconds))) s).objs[w]? =
      some { self with error := .atom (.error (.timedOut seconds)), interrupted := true } := by
    simp [timedOutState, interruptedState, update_objs_self, hw]
  have hcall : exec (fuel + 4) (.fire h) s =
      afterHook (exec fuel) w (.atom (.error (.timedOut seconds)))
        (timedOutState h w (.atom (.error (.timedOut seconds))) s) := by
    show fire (exec (fuel + 3)) h s = _
    unfold fire
    simp only [hfind]
    show Wait.OnTimeOut (exec (fuel + 2)) w _ = _
    unfold Wait.OnTimeOut
    have hw1 : ((({ s with timers := s.timers.filter (fun t => t.handle != h) } : State).emit
        (.fire h)).emit (.OnTimeOut w)).objs[w]? = some self := hw
    simp only [hw1, hcls]
    show YieldInstruction.Interrupt (exec fuel) w _ _ = _
    rw [Interrupt_pending _ _ hw1 hdone hint]
    have hw2 : (interruptedState w (.atom (.error (.timedOut seconds)))
        ((({ s with timers := s.timers.filter (fun t => t.handle != h) } : State).emit
          (.fire h)).emit (.OnTimeOut w))).objs[w]? =
        some { self with error := .atom (.error (.timedOut seconds)), interrupted := true } := by
      simp [interruptedState, update_objs_self, hw]
    have hhook : OnInterrupted (exec fuel) w (interruptedState w
        (.atom (.error (.timedOut seconds)))
        ((({ s with timers := s.timers.filter (fun t => t.handle != h) } : State).emit
          (.fire h)).emit (.OnTimeOut w))) =
        ok (timedOutState h w (.atom (.error (.timedOut seconds))) s) := by
      unfold OnInterrupted
      simp only [emit_objs, hw2, hcls]
      rfl
    rw [hhook]
    rfl
  refine ⟨hcall, hobj, ?_, ?_, ?_⟩
  · intro x hx
    simp [timedOutState, interruptedState, update_objs_other _ _ _ _ hx]
  · simp [timedOutState, interruptedState, State.emit]
  · intro hcs
    rw [hcall]
    unfold afterHook
    simp only [hobj, hcs, forEachInterrupt]
    show afterLoop _ _ _ _ = _
    unfold afterLoop
    simp only [ok_st, hobj, hcs]
    have hne : ((([] : List Ref).length == 0) &&
        ((.atom (.error (.timedOut seconds)) : Value) != undef)) = true := by
      simp [undef]
    simp only [hne, if_true]
    unfold OnThown
    simp [update_objs_self, hobj, hcls, raise]

/-- The loop of `End` over a list in two parts. -/
theorem forEachStart_append (rec : Call → State → Res) (w : Ref) (a b : List Ref) :
    ∀ s, forEachStart rec w (a ++ b) s =
      (forEachStart rec w a s).andThen (forEachStart rec w b) := by
  induction a with
  | nil => intro s; rfl
  | cons c a ih =>
    intro s
    simp only [List.cons_append, forEachStart]
    unfold Res.andThen
    cases hout : (rec (.Start c .undefined) (s.emit (.resumes w c))).out with
    | ok => exact ih _
    | thrown e => simp only [hout]
    | outOfFuel => simp only [hout]


/-! ## Chains of suspended drivers -/

theorem suspendedOn_iff {s : State} {d r : Ref} :
    suspendedOn s d r = true ↔
      ∃ self g cur, s.objs[d]? = some self ∧ self.cls = .Coroutine g (.yi r) cur ∧
        self.done = false ∧ self.interrupted = false := by
  unfold suspendedOn
  constructor
  · intro h
    cases ho : s.objs[d]? with
    | none => rw [ho] at h; cases h
    | some self =>
      rw [ho] at h
      simp only [Bool.and_eq_true, Bool.not_eq_true'] at h
      obtain ⟨⟨h1, h2⟩, h3⟩ := h
      cases hc : self.cls with
      | Coroutine g callee cur =>
        rw [hc] at h1
        cases callee with
        | stub => cases h1
        | yi c =>
          simp only [beq_iff_eq] at h1
          subst h1
          exact ⟨self, g, cur, rfl, hc, h2, h3⟩
      | YieldInstruction => rw [hc] at h1; cases h1
      | WaitForSeconds _ _ => rw [hc] at h1; cases h1
      | PromiseYieldInstruction _ => rw [hc] at h1; cases h1
      | Wait _ _ _ => rw [hc] at h1; cases h1
  · rintro ⟨self, g, cur, ho, hc, h2, h3⟩
    simp [ho, hc, h2, h3]

theorem suspendedOn_unique {s : State} {d r1 r2 : Ref} (h1 : suspendedOn s d r1 = true)
    (h2 : suspendedOn s d r2 = true) : r1 = r2 := by
  obtain ⟨a, _, _, ha, hca, _, _⟩ := suspendedOn_iff.1 h1
  obtain ⟨b, _, _, hb, hcb, _, _⟩ := suspendedOn_iff.1 h2
  rw [ha] at hb
  cases hb
  rw [hca] at hcb
  cases hcb
  rfl

theorem suspendedOn_congr {s s1 : State} {d : Ref} (r : Ref)
    (h : s1.objs[d]? = s.objs[d]?) : suspendedOn s1 d r = suspendedOn s d r := by
  unfold suspendedOn
  rw [h]

theorem chained_head {s : State} {t d : Ref} {ds : List Ref}
    (h : chained s t (d :: ds) = true) : ∃ r, suspendedOn s d r = true := by
  cases ds with
  | nil => exact ⟨t, h⟩
  | cons d1 rest =>
    simp only [chained, Bool.and_eq_true] at h
    exact ⟨d1, h.1⟩

/-- The chain that starts at a driver is determined by the heap, when `t` is no driver. -/
theorem chained_unique {s : State} {t : Ref} (ht : ∀ r, suspendedOn s t r = false) :
    ∀ (l1 l2 : List Ref) (d : Ref), chained s t (d :: l1) = true →
      chained s t (d :: l2) = true → l1 = l2 := by
  intro l1
  induction l1 with
  | nil =>
    intro l2 d h1 h2
    cases l2 with
    | nil => rfl
    | cons d2 r2 =>
      simp only [chained, Bool.and_eq_true] at h1 h2
      have := suspendedOn_unique h1 h2.1
      subst this
      obtain ⟨r, hr⟩ := chained_head h2.2
      rw [ht r] at hr
      cases hr
  | cons d1 r1 ih =>
    intro l2 d h1 h2
    cases l2 with
    | nil =>
      simp only [chained, Bool.and_eq_true] at h1 h2
      have := suspendedOn_unique h1.1 h2
      subst this
      obtain ⟨r, hr⟩ := chained_head h1.2
      rw [ht r] at hr
      cases hr
    | cons d2 r2 =>
      simp only [chained, Bool.and_eq_true] at h1 h2
      have := suspendedOn_unique h1.1 h2.1
      subst this
      rw [ih r2 d1 h1.2 h2.2]

theorem chained_suffix {s : State} {t : Ref} :
    ∀ (a : List Ref) (d : Ref) (b : List Ref), chained s t (a ++ d :: b) = true →
      chained s t (d :: b) = true := by
  intro a
  induction a with
  | nil => intro d b h; exact h
  | cons x a ih =>
    intro d b h
    cases a with
    | nil =>
      simp only [List.cons_append, List.nil_append, chained, Bool.and_eq_true] at h
      exact h.2
    | cons x1 a1 =>
      simp only [List.cons_append, chained, Bool.and_eq_true] at h
      exact ih d b h.2

/-- A driver is not met again further down its own chain. -/
theorem chained_fresh {s : State} {t d : Ref} {ds : List Ref}
    (ht : ∀ r, suspendedOn s t r = false) (h : chained s t (d :: ds) = true) : d ∉ ds := by
  intro hmem
  obtain ⟨a, b, hab⟩ := List.append_of_mem hmem
  have h1 : chained s t ((d :: a) ++ d :: b) = true := by
    rw [List.cons_append, ← hab]
    exact h
  have h2 := chained_suffix (d :: a) d b h1
  have h3 := chained_unique ht ds b d h h2
  have h4 := congrArg List.length hab
  rw [h3] at h4
  simp at h4
  omega

theorem chained_tail {s : State} {t d d1 : Ref} {ds : List Ref}
    (h : chained s t (d :: d1 :: ds) = true) :
    suspendedOn s d d1 = true ∧ chained s t (d1 :: ds) = true := by
  simpa [chained] using h

/-- The chain is still there when only objects outside it have changed. -/
theorem chained_congr {s s1 : State} {t : Ref} :
    ∀ l : List Ref, (∀ x ∈ l, s1.objs[x]? = s.objs[x]?) →
      chained s1 t l = chained s t l := by
  intro l
  induction l with
  | nil => intro _; rfl
  | cons d l ih =>
    intro h
    cases l with
    | nil =>
      simp only [chained]
      exact suspendedOn_congr t (h d (List.mem_cons_self _ _))
    | cons d1 rest =>
      simp only [chained]
      rw [suspendedOn_congr d1 (h d (List.mem_cons_self _ _)),
        ih fun x hx => h x (List.mem_cons_of_mem _ hx)]

/-! ## Interruption runs down a chain of drivers -/

theorem since_of_log {s s1 : State} {l : List Event} (h : s1.log = s.log ++ l) :
    since s s1 = l := by
  unfold since
  rw [h]
  simp

theorem Unwound.persists {s s0 s1 : State} {t : Ref} {h : Nat} {ds : List Ref}
    (hu : Unwound s t h ds s0) (hl : Later s0 s1) : Unwound s t h ds s1 := by
  obtain ⟨l0, h0⟩ := hu.later.log
  obtain ⟨l1, h1⟩ := hl.log
  refine ⟨hu.later.after hl, ?_, ?_, ?_, (hl.stays_cancelled hu.issued hu.cancelled).1,
    (hl.stays_cancelled hu.issued hu.cancelled).2⟩
  · intro x hx
    obtain ⟨o, ho, hi⟩ := hu.drivers x hx
    obtain ⟨o1, ho1, _, hi1, _⟩ := hl.objs x o ho
    exact ⟨o1, ho1, hi1 hi⟩
  · obtain ⟨o, ho, hi⟩ := hu.timer
    obtain ⟨o1, ho1, _, hi1, _⟩ := hl.objs t o ho
    exact ⟨o1, ho1, hi1 hi⟩
  · have hc := hu.cleared
    rw [since_of_log h0] at hc
    rw [since_of_log (l := l0 ++ l1) (by rw [h1, h0, List.append_assoc])]
    exact List.mem_append_left _ hc

/-- The state in which `Interrupt` on a pending object calls the hook comes later. -/
theorem interruptedState_later (w : Ref) (error : Value) (s : State) :
    Later s (interruptedState w error s) := by
  unfold interruptedState
  refine Later.rewritten ?_ _ _ ?_ ?_ ?_
  · refine Later.rewritten ((Later.now s).logged _) _ _ ?_ ?_ ?_
    · exact fun _ h => h
    · exact fun _ h => h
    · exact fun _ => List.prefix_refl _
  · exact fun _ h => h
  · exact fun _ _ => rfl
  · exact fun _ => List.prefix_refl _

theorem interruptedState_other {w x : Ref} (error : Value) (s : State) (h : x ≠ w) :
    (interruptedState w error s).objs[x]? = s.objs[x]? := by
  unfold interruptedState
  rw [update_objs_other _ _ _ _ h, update_objs_other _ _ _ _ h]
  rfl

/-- `Interrupt` on a pending timer waitable: its hook cancels the request at once. -/
theorem timer_unwinds (m : Nat) {t : Ref} {h : Nat} {sec : Int} {s : State}
    {tw : YieldInstruction} (error : Value) (ht : s.objs[t]? = some tw)
    (hcls : tw.cls = .WaitForSeconds sec (some h)) (hd : tw.done = false)
    (hi : tw.interrupted = false) (hh : h < s.nextHandle) :
    ∃ s0, Unwound s t h [] s0 ∧ Later s0 (exec (m + 1) (.Interrupt t error) s).st := by
  have hget := interruptedState_get error ht
  have hhook : OnInterrupted (exec m) t (interruptedState t error s) =
      ok ((clearTimeout (some h) ((interruptedState t error s).emit (.OnInterrupted t))).update t
        (YieldInstruction.setTimer none)) := by
    unfold OnInterrupted
    simp only [emit_objs, hget, hcls]
    rfl
  refine ⟨(clearTimeout (some h) ((interruptedState t error s).emit (.OnInterrupted t))).update t
      (YieldInstruction.setTimer none), ⟨?_, ?_, ?_, ?_, ?_, ?_⟩, ?_⟩
  · exact (((interruptedState_later t error s).logged _).cancelled _).timer_set _ _
  · intro x hx
    cases hx
  · refine ⟨YieldInstruction.setTimer none { tw with error := error, interrupted := true },
      ?_, ?_⟩
    · rw [update_objs_self, clearTimeout_objs, emit_objs, hget]
      rfl
    · rw [(setTimer_frame none _).2.1]
  · have hl : ((clearTimeout (some h)
        ((interruptedState t error s).emit (.OnInterrupted t))).update t
          (YieldInstruction.setTimer none)).log =
        s.log ++ [.Interrupt t error, .OnInterrupted t, .clearTimeout (some h)] := by
      simp [update_log, clearTimeout, interruptedState, State.emit]
    rw [since_of_log hl]
    simp
  · intro x hx
    rw [update_timers] at hx
    have hx1 : x ∈ ((interruptedState t error s).emit (.OnInterrupted t)).timers.filter
        (fun t => t.handle != h) := hx
    simpa using (List.mem_filter.1 hx1).2
  · have : ((clearTimeout (some h)
        ((interruptedState t error s).emit (.OnInterrupted t))).update t
          (YieldInstruction.setTimer none)).nextHandle = s.nextHandle := by
      simp [clearTimeout, interruptedState, State.emit]
    rw [this]
    exact hh
  · show Later _ (YieldInstruction.Interrupt (exec m) t error s).st
    rw [Interrupt_pending _ error ht hd hi, hhook]
    exact Res.andThen_ind (Later.now _) fun s1 h1 => afterHook_later (exec_later m) h1 _ _

/-- `Interrupt` on a pending driver suspended on `r`: its hook calls `r.Interrupt()`. -/
theorem driver_hook {rec : Call → State → Res} {d r : Ref} {s : State} (error : Value)
    (h : suspendedOn s d r = true) :
    YieldInstruction.Interrupt rec d error s =
      (rec (.Interrupt r undef) ((interruptedState d error s).emit (.OnInterrupted d))).andThen
        (afterHook rec d error) := by
  obtain ⟨self, g, cur, hd, hcls, hdone, hint⟩ := suspendedOn_iff.1 h
  rw [Interrupt_pending _ error hd hdone hint]
  have hget := interruptedState_get error hd
  congr 1
  unfold OnInterrupted
  simp only [emit_objs, hget, hcls]
  rfl

/-- `Interrupt` on the first driver of a chain reaches the timer waitable at its end. -/
theorem chain_unwinds {t : Ref} {h : Nat} {sec : Int} :
    ∀ (ds : List Ref) (d : Ref) (s : State) (error : Value) (m : Nat) (tw : YieldInstruction),
      s.objs[t]? = some tw → tw.cls = .WaitForSeconds sec (some h) → tw.done = false →
      tw.interrupted = false → h < s.nextHandle → chained s t (d :: ds) = true →
      ∃ s0, Unwound s t h (d :: ds) s0 ∧
        Later s0 (exec (m + ds.length + 2) (.Interrupt d error) s).st := by
  intro ds
  induction ds with
  | nil =>
    intro d s error m tw ht hcls htd hti hh hch
    have hsus : suspendedOn s d t = true := hch
    obtain ⟨self, g, cur, hd, hdc, hdone, hint⟩ := suspendedOn_iff.1 hsus
    have hne : t ≠ d := by
      intro heq
      subst heq
      rw [hd] at ht
      cases ht
      rw [hdc] at hcls
      cases hcls
    have htJ : ((interruptedState d error s).emit (.OnInterrupted d)).objs[t]? = some tw := by
      rw [emit_objs, interruptedState_other error s hne]
      exact ht
    have hnJ : ((interruptedState d error s).emit (.OnInterrupted d)).nextHandle =
        s.nextHandle := by
      simp [interruptedState, State.emit]
    have hlJ : Later s ((interruptedState d error s).emit (.OnInterrupted d)) :=
      (interruptedState_later d error s).logged _
    obtain ⟨s0, hu, hl⟩ := timer_unwinds m undef htJ hcls htd hti (by rw [hnJ]; exact hh)
    refine ⟨s0, ⟨hlJ.after hu.later, ?_, hu.timer, ?_, hu.cancelled, hu.issued⟩, ?_⟩
    · intro x hx
      rw [List.mem_singleton] at hx
      subst hx
      obtain ⟨o1, ho1, _, hi1, _⟩ := hu.later.objs x _
        (show ((interruptedState x error s).emit (.OnInterrupted x)).objs[x]? = _ from
          interruptedState_get error hd)
      exact ⟨o1, ho1, hi1 rfl⟩
    · obtain ⟨l0, h0⟩ := hu.later.log
      have hc := hu.cleared
      rw [since_of_log h0] at hc
      obtain ⟨lJ, hJ⟩ := hlJ.log
      rw [since_of_log (l := lJ ++ l0) (by rw [h0, hJ, List.append_assoc])]
      exact List.mem_append_right _ hc
    · show Later s0 (YieldInstruction.Interrupt (exec (m + 1)) d error s).st
      rw [driver_hook error hsus]
      exact Res.andThen_ind hl fun s1 h1 => afterHook_later (exec_later _) h1 _ _
  | cons d1 rest ih =>
    intro d s error m tw ht hcls htd hti hh hch
    obtain ⟨hsus, hch1⟩ := chained_tail hch
    obtain ⟨self, g, cur, hd, hdc, hdone, hint⟩ := suspendedOn_iff.1 hsus
    have htno : ∀ r, suspendedOn s t r = false := by
      intro r
      cases hx : suspendedOn s t r with
      | false => rfl
      | true =>
        obtain ⟨a, _, _, ha, hca, _, _⟩ := suspendedOn_iff.1 hx
        rw [ht] at ha
        cases ha
        rw [hcls] at hca
        cases hca
    have hfresh := chained_fresh htno hch
    have hne : t ≠ d := by
      intro heq
      subst heq
      rw [htno d1] at hsus
      cases hsus
    have htJ : ((interruptedState d error s).emit (.OnInterrupted d)).objs[t]? = some tw := by
      rw [emit_objs, interruptedState_other error s hne]
      exact ht
    have hnJ : ((interruptedState d error s).emit (.OnInterrupted d)).nextHandle =
        s.nextHandle := by
      simp [interruptedState, State.emit]
    have hlJ : Later s ((interruptedState d error s).emit (.OnInterrupted d)) :=
      (interruptedState_later d error s).logged _
    have hchJ : chained ((interruptedState d error s).emit (.OnInterrupted d)) t
        (d1 :: rest) = true := by
      rw [chained_congr (s := s)]
      · exact hch1
      · intro x hx
        rw [emit_objs]
        apply interruptedState_other
        intro heq
        subst heq
        exact hfresh hx
    obtain ⟨s0, hu, hl⟩ := ih d1 _ undef m tw htJ hcls htd hti (by rw [hnJ]; exact hh) hchJ
    refine ⟨s0, ⟨hlJ.after hu.later, ?_, hu.timer, ?_, hu.cancelled, hu.issued⟩, ?_⟩
    · intro x hx
      rcases List.mem_cons.1 hx with hx | hx
      · subst hx
        obtain ⟨o1, ho1, _, hi1, _⟩ := hu.later.objs x _
          (show ((interruptedState x error s).emit (.OnInterrupted x)).objs[x]? = _ from
            interruptedState_get error hd)
        exact ⟨o1, ho1, hi1 rfl⟩
      · exact hu.drivers x hx
    · obtain ⟨l0, h0⟩ := hu.later.log
      have hc := hu.cleared
      rw [since_of_log h0] at hc
      obtain ⟨lJ, hJ⟩ := hlJ.log
      rw [since_of_log (l := lJ ++ l0) (by rw [h0, hJ, List.append_assoc])]
      exact List.mem_append_right _ hc
    · have hf : m + (d1 :: rest).length + 2 = (m + rest.length + 2) + 1 := by
        simp only [List.length_cons]
        omega
      rw [hf]
      show Later s0 (YieldInstruction.Interrupt (exec (m + rest.length + 2)) d error s).st
      rw [driver_hook error hsus]
      exact Res.andThen_ind hl fun s1 h1 => afterHook_later (exec_later _) h1 _ _

/-! ## Claim C1 -/

/-- Claim C1 fails as stated.  The pending waitable `0` has the callers `1` and `2`; `End()`
on it raises out of the resumption of `1`, `0` is done afterwards, and `2` was never
notified.  In `exReentrant` the resumption of the only caller `1` enters `End()` on `0`
again: `End()` returns and `1` was notified twice.  And in `exRestart` the resumption of
the caller `1` calls `Start(2)` on `0`, which is done by then: `End()` returns, it was
entered once, and `2.Start()` was called twice, from line 46 and from the loop. -/
theorem notification_counterexample :
    (exSkipped.objs[0]?).map (fun o => (o.callers, o.done, o.interrupted))
        = some ([1, 2], false, false) ∧
      ((exec 9 (.End 0) exSkipped).st.objs[0]?).map (fun o => o.done) = some true ∧
      sent 0 (since exSkipped (exec 9 (.End 0) exSkipped).st) = [.resumes 0 1] ∧
      (exReentrant.objs[0]?).map (fun o => (o.callers, o.done, o.interrupted))
        = some ([1], false, false) ∧
      (exec 12 (.End 0) exReentrant).out = .ok ∧
      sent 0 (since exReentrant (exec 12 (.End 0) exReentrant).st)
        = [.resumes 0 1, .resumes 0 1] ∧
      (exRestart.objs[0]?).map (fun o => (o.callers, o.done, o.interrupted))
        = some ([1, 2], false, false) ∧
      (exec 12 (.End 0) exRestart).out = .ok ∧
      (since exRestart (exec 12 (.End 0) exRestart).st).count (Event.End 0) = 1 ∧
      told 0 (since exRestart (exec 12 (.End 0) exRestart).st)
        = [.resumes 0 1, .Start 0 (.ref 2), .resumes 0 2] ∧
      (since exRestart (exec 12 (.End 0) exRestart).st).count (Event.Start 2 .undefined)
        = 2 := by
  decide

/-- With no call `Start(c)` on `w` in a trace, all that `w` told is what its loops sent. -/
theorem told_eq_sent {w : Ref} {l : List Event} (h : direct w l = []) : told w l = sent w l := by
  unfold told sent
  unfold direct at h
  apply List.filter_congr
  intro e he
  have h1 : e.startsOn w = false := by
    cases hx : e.startsOn w with
    | false => rfl
    | true =>
      have : e ∈ l.filter (Event.startsOn w) := List.mem_filter.2 ⟨he, hx⟩
      rw [h] at this
      cases this
  rw [h1, Bool.or_false]

/-- The body of `Start(c)` on an interrupted object: the caller is interrupted with the
stored error (line 38). -/
theorem Start_interrupted (rec : Call → State → Res) {w : Ref} {s : State}
    {self : YieldInstruction} (c : Ref) (hself : s.objs[w]? = some self)
    (hi : self.interrupted = true) :
    YieldInstruction.Start rec w (.ref c) s =
      rec (.Interrupt c self.error) (s.emit (.Start w (.ref c))) := by
  unfold YieldInstruction.Start
  simp [hself, hi]

/-- Claim C1, amended: let `w` be pending with the callers `cs`.  If `Interrupt(e)` on `w`
returns, the notifications that the loop of `w` sent during the call are exactly
`c.Interrupt(e)`, one for each entry of `cs`, in order, and no `c.Start()`.  If `End()` on
`w` returns and `End` was not entered again on `w` during the call, they are exactly
`c.Start()`, one for each entry of `cs`, in order, and no `c.Interrupt`.  If moreover no
`Start(c)` was called on `w` during the call, this is all that `w` told anybody.  In both
cases the loops of `w` never notify anybody again, whatever is called later.  Apart from
its loops, a settled `w` notifies the caller of every `Start(c)` that is called on it,
queued or not: by `c.Interrupt(error)` when it is interrupted, by `c.Start()` when it is
done. -/
theorem each_caller_notified_once (fuel : Nat) (s : State) (w : Ref) (o : YieldInstruction)
    (e : Value) (ho : s.objs[w]? = some o) (hd : o.done = false)
    (hi : o.interrupted = false) :
    ((exec fuel (.Interrupt w e) s).out = .ok →
      sent w (since s (exec fuel (.Interrupt w e) s).st)
          = o.callers.map (fun c => Event.interrupts w c e) ∧
        (direct w (since s (exec fuel (.Interrupt w e) s).st) = [] →
          told w (since s (exec fuel (.Interrupt w e) s).st)
            = o.callers.map (fun c => Event.interrupts w c e)) ∧
        ∀ calls, sent w (since (exec fuel (.Interrupt w e) s).st
          (execAll calls (exec fuel (.Interrupt w e) s).st)) = []) ∧
    ((exec fuel (.End w) s).out = .ok →
      (since s (exec fuel (.End w) s).st).count (Event.End w) = 1 →
      sent w (since s (exec fuel (.End w) s).st)
          = o.callers.map (fun c => Event.resumes w c) ∧
        (direct w (since s (exec fuel (.End w) s).st) = [] →
          told w (since s (exec fuel (.End w) s).st)
            = o.callers.map (fun c => Event.resumes w c)) ∧
        ∀ calls, sent w (since (exec fuel (.End w) s).st
          (execAll calls (exec fuel (.End w) s).st)) = []) ∧
    ∀ (s1 : State) (o1 : YieldInstruction) (c : Ref) (n : Nat), s1.objs[w]? = some o1 →
      (o1.interrupted = true →
        exec (n + 1) (.Start w (.ref c)) s1 =
          exec n (.Interrupt c o1.error) (s1.emit (.Start w (.ref c)))) ∧
      (o1.interrupted = false → o1.done = true →
        exec (n + 1) (.Start w (.ref c)) s1 =
          (exec n (.Start c .undefined) (s1.emit (.Start w (.ref c)))).andThen fun s2 =>
            (OnStarted (exec n) w s2).orCatch fun error s3 => exec n (.Throw w error) s3) := by
  have hold : ((exec fuel (.Interrupt w e) s).out = .ok →
      sent w (since s (exec fuel (.Interrupt w e) s).st)
          = o.callers.map (fun c => Event.interrupts w c e) ∧
        ∀ calls, sent w (since (exec fuel (.Interrupt w e) s).st
          (execAll calls (exec fuel (.Interrupt w e) s).st)) = []) ∧
    ((exec fuel (.End w) s).out = .ok →
      (since s (exec fuel (.End w) s).st).count (Event.End w) = 1 →
      sent w (since s (exec fuel (.End w) s).st)
          = o.callers.map (fun c => Event.resumes w c) ∧
        ∀ calls, sent w (since (exec fuel (.End w) s).st
          (execAll calls (exec fuel (.End w) s).st)) = []) := by
    constructor
    · intro hok
      cases fuel with
      | zero => cases hok
      | succ n =>
        have hrec := exec_evolves n
        have hE : exec (n + 1) (.Interrupt w e) s = YieldInstruction.Interrupt (exec n) w e s :=
          rfl
        rw [hE] at hok ⊢
        obtain ⟨l, k, htr, _, hk, hesc, hnot⟩ := Interrupt_pending_trace hrec e ho hd hi
        have hhook : (OnInterrupted (exec n) w (interruptedState w e s)).out = .ok := by
          rw [Interrupt_pending (exec n) e ho hd hi] at hok
          exact (Res.andThen_ok hok).1
        constructor
        · rw [htr.since_eq, ← sent_own]
          by_cases hcase : o.callers = [] ∧ e ≠ undef
          · rw [hesc hcase.1 hcase.2 hhook, hcase.1]
            rfl
          · have hcase2 : o.callers ≠ [] ∨ e = undef := by
              by_cases h1 : o.callers = []
              · exact Or.inr (by_contra fun h2 => hcase ⟨h1, h2⟩)
              · exact Or.inl h1
            rw [hnot hcase2, hk hok, List.take_length, sent_interrupts]
        · intro calls
          obtain ⟨o1, h1, hi1⟩ := Interrupt_pending_sets_flag hrec e ho hd hi
          rw [← sent_own, (execAll_evolves calls _).own_interrupted h1 hi1]
          rfl
    · intro hok hcount
      cases fuel with
      | zero => cases hok
      | succ n =>
        have hrec := exec_evolves n
        have hE : exec (n + 1) (.End w) s = YieldInstruction.End (exec n) w s := rfl
        rw [hE] at hok hcount ⊢
        obtain ⟨l, htr, hown⟩ := End_trace hrec ho hi
        have hnotin := since_cons_count htr hcount
        constructor
        · rw [htr.since_eq, ← sent_own]
          have h1 : own w (Event.End w :: l) = own w l := by
            simp [own, Event.own, Event.escalates, Event.interruptsFrom, Event.resumesFrom]
          rw [h1, hown hok hnotin, sent_resumes]
        · intro calls
          have hret : Returns (.End w) s (YieldInstruction.End (exec n) w s).st := by
            refine ⟨n + 1, ?_⟩
            rw [hE]
            cases hr : YieldInstruction.End (exec n) w s with
            | mk st out =>
              rw [hr] at hok
              simp only at hok
              rw [hok]
          obtain ⟨o1, h1, hd1, hc1⟩ :=
            End_returns_cleared ho hi hret
          rw [← sent_own, (execAll_evolves calls _).own_done_cleared h1 hd1 hc1]
          rfl
  refine ⟨fun hok => ?_, fun hok hcount => ?_, fun s1 o1 c n h1 => ⟨fun h2 => ?_, fun h2 h3 => ?_⟩⟩
  · obtain ⟨ha, hb⟩ := hold.1 hok
    exact ⟨ha, fun hno => (told_eq_sent hno).trans ha, hb⟩
  · obtain ⟨ha, hb⟩ := hold.2 hok hcount
    exact ⟨ha, fun hno => (told_eq_sent hno).trans ha, hb⟩
  · exact Start_interrupted (exec n) c h1 h2
  · exact Start_done (exec n) c h1 h3 h2

/-- The amended claim C1 at a pending waitable with two callers that return: both loops,
and `Start(2)` on the waitable once it is done. -/
theorem each_caller_notified_once_witness :
    (told 0 (since exTwo (exec 9 (.Interrupt 0 undef) exTwo).st)
          = [.interrupts 0 1 undef, .interrupts 0 2 undef] ∧
        ∀ calls, sent 0 (since (exec 9 (.Interrupt 0 undef) exTwo).st
          (execAll calls (exec 9 (.Interrupt 0 undef) exTwo).st)) = []) ∧
      (told 0 (since exTwo (exec 9 (.End 0) exTwo).st) = [.resumes 0 1, .resumes 0 2] ∧
        ∀ calls, sent 0 (since (exec 9 (.End 0) exTwo).st
          (execAll calls (exec 9 (.End 0) exTwo).st)) = []) ∧
      exec 9 (.Start 0 (.ref 2)) (exec 9 (.End 0) exTwo).st =
        ((exec 8 (.Start 2 .undefined)
          ((exec 9 (.End 0) exTwo).st.emit (.Start 0 (.ref 2)))).andThen fun s2 =>
            (OnStarted (exec 8) 0 s2).orCatch fun error s3 => exec 8 (.Throw 0 error) s3) :=
  have h := each_caller_notified_once 9 exTwo 0 { fresh with callers := [1, 2] } undef
    (by decide) rfl rfl
  ⟨⟨(h.1 (by decide)).2.1 (by decide), (h.1 (by decide)).2.2⟩,
    ⟨(h.2.1 (by decide) (by decide)).2.1 (by decide), (h.2.1 (by decide) (by decide)).2.2⟩,
    (h.2.2 (exec 9 (.End 0) exTwo).st { fresh with done := true } 2 8 (by decide)).2 rfl rfl⟩

/-! ## Claim C2 -/

/-- Claim C2: whatever outermost calls are made one after the other (`Start`, `End`,
`Interrupt`, `Throw`, a `Callback` invocation, a timer or a promise event), on objects of any
class and with any bound on the call depth, so also when the run is cut inside nested calls,
no object ends with both `done` and `interrupted` set, and a flag that was set stays set. -/
theorem flags_exclusive_and_monotone (calls : List (Nat × Call)) (s : State)
    (h : Exclusive s) :
    Exclusive (execAll calls s) ∧
      ∀ (w : Ref) (o : YieldInstruction), s.objs[w]? = some o →
        ∃ o1, (execAll calls s).objs[w]? = some o1 ∧
          (o.done = true → o1.done = true) ∧
          (o.interrupted = true → o1.interrupted = true) := by
  have hev := execAll_evolves calls s
  refine ⟨hev.exclusive h, ?_⟩
  intro w o ho
  obtain ⟨o1, h1, ht⟩ := hev.lookup ho
  exact ⟨o1, h1, ht.done, ht.interrupted⟩

/-- Claim C2 at a driver suspended on a waitable that is completed, then interrupted. -/
theorem flags_exclusive_and_monotone_witness :
    Exclusive exSuspended ∧
      (Exclusive (execAll [(9, .invoke 0 [.num 1]), (9, .Interrupt 0 e7), (1, .End 1)]
          exSuspended) ∧
        ∀ (w : Ref) (o : YieldInstruction), exSuspended.objs[w]? = some o →
          ∃ o1, (execAll [(9, .invoke 0 [.num 1]), (9, .Interrupt 0 e7), (1, .End 1)]
              exSuspended).objs[w]? = some o1 ∧
            (o.done = true → o1.done = true) ∧
            (o.interrupted = true → o1.interrupted = true)) :=
  ⟨by unfold Exclusive; decide,
    flags_exclusive_and_monotone _ exSuspended (by unfold Exclusive; decide)⟩

/-! ## Claim C3 -/

/-- Claim C3, amended: when `End()` or `Interrupt(e)` is called on a pending object and
returns, the object has left the pending state and its `callers` list is empty; and once
the `done` or `interrupted` flag of an object is set, no later call, `Start(caller)`
included, adds an entry to its `callers`: the list stays as it is or becomes empty. -/
theorem settled_callers_never_grow (fuel : Nat) (c : Call) (calls : List (Nat × Call))
    (s : State) (w : Ref) (o : YieldInstruction) (ho : s.objs[w]? = some o) :
    (o.done = true ∨ o.interrupted = true →
      ∃ o1, (execAll calls s).objs[w]? = some o1 ∧
        (o1.callers = o.callers ∨ o1.callers = [])) ∧
    (o.done = false → o.interrupted = false → (c = .End w ∨ ∃ e, c = .Interrupt w e) →
      (exec fuel c s).out = .ok →
      ∃ o1, (exec fuel c s).st.objs[w]? = some o1 ∧
        (o1.done = true ∨ o1.interrupted = true) ∧ o1.callers = []) := by
  constructor
  · intro hs
    obtain ⟨o1, h1, ht⟩ := (execAll_evolves calls s).lookup ho
    refine ⟨o1, h1, ?_⟩
    rcases hs with hs | hs
    · exact ht.callers_done hs
    · exact Or.inl (ht.callers_interrupted hs)
  · intro hd hi hc hok
    cases fuel with
    | zero => cases hok
    | succ n =>
      have hrec : Pres (exec n) := exec_evolves n
      rcases hc with hc | ⟨e, hc⟩
      · subst hc
        have hE : exec (n + 1) (.End w) s = YieldInstruction.End (exec n) w s := rfl
        rw [hE, End_unfold (exec n) ho hi] at hok ⊢
        obtain ⟨hok1, heq⟩ := Res.andThen_ok hok
        rw [heq]
        have hs1 : ((s.emit (.End w)).update w fun o => { o with done := true }).objs[w]? =
            some { o with done := true } := by
          rw [update_objs_self, emit_objs, ho]
          rfl
        have hev := forEachStart_grows hrec w o.callers
          ((s.emit (.End w)).update w fun o => { o with done := true })
        obtain ⟨o2, h2, ht⟩ := hev.find hs1
        refine ⟨{ o2 with callers := [] }, ?_, Or.inl (ht.done rfl), rfl⟩
        rw [ok_st, update_objs_self, h2]
        rfl
      · subst hc
        have hE : exec (n + 1) (.Interrupt w e) s = YieldInstruction.Interrupt (exec n) w e s :=
          rfl
        rw [hE, Interrupt_pending (exec n) e ho hd hi] at hok ⊢
        obtain ⟨_, heq⟩ := Res.andThen_ok hok
        rw [heq] at hok ⊢
        have hs2 := interruptedState_get e ho
        have hev3 := OnInterrupted_evolves hrec (Evolves.start (interruptedState w e s)) w
        obtain ⟨o3, h3, ht3⟩ := hev3.lookup hs2
        unfold afterHook at hok ⊢
        rw [h3] at hok ⊢
        simp only [] at hok ⊢
        obtain ⟨_, heq2⟩ := Res.andThen_ok hok
        rw [heq2]
        have hev4 := forEachInterrupt_grows hrec w e o3.callers
          (OnInterrupted (exec n) w (interruptedState w e s)).st
        obtain ⟨o4, h4, ht4⟩ := hev4.find h3
        obtain ⟨o1, h1, hi1, hc1⟩ := afterLoop_cleared (exec n) hrec w e _ o4 h4
          (ht4.interrupted (ht3.interrupted rfl))
        exact ⟨o1, h1, Or.inr hi1, hc1⟩


/-- Claim C3 fails as stated: the waitable `0` has the caller `1`; `Interrupt(e7)` on `0`
raises out of the notification of `1`, and afterwards `0` is interrupted with `1` still in
its `callers`. -/
theorem settled_callers_counterexample :
    SettledCleared exQueued ∧
      (exec 9 (.Interrupt 0 e7) exQueued).out = .thrown e7 ∧
      ¬SettledCleared (exec 9 (.Interrupt 0 e7) exQueued).st := by
  unfold SettledCleared
  decide

/-- The amended claim C3 at a failed waitable that is started again, and at a pending
waitable whose interruption returns. -/
theorem settled_callers_never_grow_witness :
    (∃ o1, (execAll [(9, .Start 0 (.ref 0)), (9, .End 0)] exFailed).objs[0]? = some o1 ∧
        (o1.callers = [] ∨ o1.callers = [])) ∧
      ∃ o1, (exec 9 (.Interrupt 0 undef) exQueued).st.objs[0]? = some o1 ∧
        (o1.done = true ∨ o1.interrupted = true) ∧ o1.callers = [] :=
  ⟨(settled_callers_never_grow 0 (.End 0) [(9, .Start 0 (.ref 0)), (9, .End 0)] exFailed 0
      { fresh with interrupted := true, error := e7 } (by decide)).1 (Or.inr rfl),
    (settled_callers_never_grow 9 (.Interrupt 0 undef) [] exQueued 0
      { fresh with callers := [1] } (by decide)).2 rfl rfl (Or.inr ⟨undef, rfl⟩) (by decide)⟩

/-! ## Claim C4 -/

/-- Claim C4: `End()` on an interrupted object changes no field and resumes nobody (it only
leaves its entry in the trace).  On an object that is not interrupted, `End()` returns
exactly when, after `done` is set, the callers are resumed by `c.Start()` with no caller
argument in the order of the `callers` list, each of them returning, and `callers` is then
emptied; the object is done with no caller afterwards.  The order of the list is the order
of registration: `Start(c)` on a pending object queues `c` behind the callers already there
before it runs the hook. -/
theorem End_resumes_callers_in_order (s : State) (w : Ref) (self : YieldInstruction)
    (hself : s.objs[w]? = some self) :
    (self.interrupted = true → ∀ fuel, exec (fuel + 1) (.End w) s = ok (s.emit (.End w))) ∧
    (self.interrupted = false → ∀ s1, Returns (.End w) s s1 ↔
      ∃ s2, ResumedInOrder w self.callers
          ((s.emit (.End w)).update w fun o => { o with done := true }) s2 ∧
        s1 = s2.update w fun o => { o with callers := [] }) ∧
    (self.interrupted = false → ∀ s1, Returns (.End w) s s1 →
      ∃ o1, s1.objs[w]? = some o1 ∧ o1.done = true ∧ o1.callers = []) ∧
    (self.done = false → self.interrupted = false → ∀ c fuel,
      (queued w (.ref c) s).objs[w]? = some { self with callers := self.callers ++ [c] } ∧
      exec (fuel + 1) (.Start w (.ref c)) s =
        (OnStarted (exec fuel) w (queued w (.ref c) s)).orCatch
          fun error s2 => exec fuel (.Throw w error) s2) := by
  refine ⟨?_, ?_, ?_, ?_⟩
  · intro hi fuel
    exact End_interrupted (exec fuel) hself hi
  · intro hi s1
    constructor
    · rintro ⟨fuel, h⟩
      cases fuel with
      | zero => cases h
      | succ n =>
        have hE : exec (n + 1) (.End w) s = YieldInstruction.End (exec n) w s := rfl
        rw [hE, End_unfold (exec n) hself hi] at h
        obtain ⟨h1, h2⟩ := Res.andThen_eq_ok h
        refine ⟨_, forEachStart_returns h1, ?_⟩
        cases h2
        rfl
    · rintro ⟨s2, hr, rfl⟩
      obtain ⟨n, hn⟩ := forEachStart_of_resumed hr
      refine ⟨n + 1, ?_⟩
      have hE : exec (n + 1) (.End w) s = YieldInstruction.End (exec n) w s := rfl
      rw [hE, End_unfold (exec n) hself hi, hn]
      rfl
  · intro hi s1 h
    exact End_returns_cleared hself hi h
  · intro hd hi c fuel
    constructor
    · unfold queued
      rw [update_objs_self, emit_objs, hself]
      rfl
    · exact Start_pending (exec fuel) (.ref c) hself hd hi

/-- Claim C4 at a failed waitable, and at a pending waitable with two callers. -/
theorem End_resumes_callers_in_order_witness :
    exec 1 (.End 0) exFailed = ok (exFailed.emit (.End 0)) ∧
      (∃ s2, ResumedInOrder 0 [1, 2]
          ((exTwo.emit (.End 0)).update 0 fun o => { o with done := true }) s2 ∧
        (exec 3 (.End 0) exTwo).st = s2.update 0 fun o => { o with callers := [] }) ∧
      (∃ o1, (exec 3 (.End 0) exTwo).st.objs[0]? = some o1 ∧ o1.done = true ∧
        o1.callers = []) ∧
      (exec 3 (.Start 0 (.ref 1)) exTwo =
        (OnStarted (exec 2) 0 (queued 0 (.ref 1) exTwo)).orCatch
          fun error s2 => exec 2 (.Throw 0 error) s2) :=
  ⟨(End_resumes_callers_in_order exFailed 0 { fresh with interrupted := true, error := e7 }
      (by decide)).1 rfl 0,
    ((End_resumes_callers_in_order exTwo 0 { fresh with callers := [1, 2] }
      (by decide)).2.1 rfl _).1 ⟨3, by decide⟩,
    (End_resumes_callers_in_order exTwo 0 { fresh with callers := [1, 2] }
      (by decide)).2.2.1 rfl _ ⟨3, by decide⟩,
    ((End_resumes_callers_in_order exTwo 0 { fresh with callers := [1, 2] }
      (by decide)).2.2.2 rfl rfl 1 2).2⟩

/-! ## Claim C5 -/

/-- Claim C5, the code at the failing input: the waitable `0` is interrupted with the stored
error `e7`; `Interrupt(undefined)` on it returns, leaves the flags, the callers and the
argument queue as they were, and replaces the stored error by `undefined`. -/
theorem Interrupt_on_settled_overwrites_error :
    exFailed.objs[0]? = some { fresh with interrupted := true, error := e7 } ∧
      (exec 9 (.Interrupt 0 undef) exFailed).out = .ok ∧
      (exec 9 (.Interrupt 0 undef) exFailed).st.objs[0]? =
        some { fresh with interrupted := true, error := undef } ∧
      e7 ≠ undef := by
  decide

/-! ## Claim C6 -/

/-- Claim C6, the code at the failing input: the driver `1` is suspended on the waitable `0`.
If `0` fails with `e7`, it ends interrupted with the stored error `undefined`; if instead the
driver is interrupted with `e7`, the driver ends interrupted with the stored error
`undefined`. -/
theorem stored_error_is_overwritten :
    exSuspended.objs[0]? = some { fresh with callers := [1] } ∧
      ((exec 9 (.Throw 0 e7) exSuspended).st.objs[0]?).map
        (fun o => (o.interrupted, o.error)) = some (true, undef) ∧
      ((exec 9 (.Interrupt 1 e7) exSuspended).st.objs[1]?).map
        (fun o => (o.interrupted, o.error)) = some (true, undef) ∧
      e7 ≠ undef := by
  decide

/-! ## Claim C7 -/

/-- Claim C7 fails as stated: the hook `OnStarted` of the pending driver `0` raises `e7`
(its routine raises), nobody waits for the driver, and `Start()` raises `e7` to its invoker;
the same with the caller `1`. -/
theorem Start_rethrows_hook_failure :
    exRaising.objs[0]? = some (Coroutine.new 0) ∧
      (OnStarted (exec 8) 0 (queued 0 .undefined exRaising)).out = .thrown e7 ∧
      (exec 9 (.Start 0 .undefined) exRaising).out = .thrown e7 ∧
      (exec 9 (.Start 0 (.ref 1))
        (store [Coroutine.new 0, fresh] [routine [.raise e7]])).out = .thrown e7 := by
  decide

/-- Claim C7, amended: when the hook `OnStarted` of a pending object raises `x`,
`Start(caller)`, with or without a caller, catches `x`, calls `Throw(x)`, that is
`Interrupt(x)`, and stops exactly as that call stops: it returns if `Interrupt(x)` returns
and raises what `Interrupt(x)` raises.  Unless the hook had completed the object before it
raised, the object is interrupted afterwards. -/
theorem Start_routes_hook_failure (fuel : Nat) (s : State) (w : Ref) (caller : Caller)
    (self : YieldInstruction) (x : Value) (hself : s.objs[w]? = some self)
    (hd : self.done = false) (hi : self.interrupted = false)
    (hook : (OnStarted (exec fuel) w (queued w caller s)).out = .thrown x) :
    exec (fuel + 1) (.Start w caller) s =
        exec fuel (.Throw w x) (OnStarted (exec fuel) w (queued w caller s)).st ∧
      (2 ≤ fuel →
        ∀ o2, (OnStarted (exec fuel) w (queued w caller s)).st.objs[w]? = some o2 →
          o2.done = false →
          ∃ o1, (exec (fuel + 1) (.Start w caller) s).st.objs[w]? = some o1 ∧
            o1.interrupted = true) := by
  have h1 : exec (fuel + 1) (.Start w caller) s =
      exec fuel (.Throw w x) (OnStarted (exec fuel) w (queued w caller s)).st := by
    have hE : exec (fuel + 1) (.Start w caller) s =
        YieldInstruction.Start (exec fuel) w caller s := rfl
    rw [hE, Start_pending (exec fuel) caller hself hd hi]
    unfold Res.orCatch
    rw [hook]
  refine ⟨h1, ?_⟩
  intro hfuel o2 ho2 hd2
  rw [h1]
  obtain ⟨n, rfl⟩ : ∃ n, fuel = n + 2 := ⟨fuel - 2, by omega⟩
  have hT : exec (n + 2) (.Throw w x) (OnStarted (exec (n + 2)) w (queued w caller s)).st =
      YieldInstruction.Interrupt (exec n) w x
        (OnStarted (exec (n + 2)) w (queued w caller s)).st := rfl
  rw [hT]
  cases hi2 : o2.interrupted with
  | false => exact Interrupt_pending_sets_flag (exec_evolves n) x ho2 hd2 hi2
  | true =>
    rw [Interrupt_settled (exec n) x ho2 (Or.inr hi2)]
    refine ⟨{ o2 with error := x }, ?_, hi2⟩
    rw [ok_st, update_objs_self, emit_objs, ho2]
    rfl

/-- The amended claim C7 at a driver whose routine raises when it is first advanced. -/
theorem Start_routes_hook_failure_witness :
    exec 9 (.Start 0 .undefined) exRaising =
        exec 8 (.Throw 0 e7) (OnStarted (exec 8) 0 (queued 0 .undefined exRaising)).st ∧
      ∃ o1, (exec 9 (.Start 0 .undefined) exRaising).st.objs[0]? = some o1 ∧
        o1.interrupted = true :=
  ⟨(Start_routes_hook_failure 8 exRaising 0 .undefined (Coroutine.new 0) e7 (by decide) rfl rfl
      (by decide)).1,
    (Start_routes_hook_failure 8 exRaising 0 .undefined (Coroutine.new 0) e7 (by decide) rfl rfl
      (by decide)).2 (by decide) (Coroutine.new 0) (by decide) rfl⟩

/-! ## Claim C8 -/

/-- Claim C8 fails as stated: the pending waitable `0` has the callers `1` and `2`, two
waitables that nobody waits for.  `Interrupt(e7)` on `0` does not enter the hook `OnThown`
of `0`, but the error is not passed to every caller: the notification of `1` raises, and
`2` is never notified. -/
theorem escalation_counterexample :
    (exTwo.objs[0]?).map (fun o => (o.callers, o.done, o.interrupted))
        = some ([1, 2], false, false) ∧
      (exec 9 (.Interrupt 0 e7) exTwo).out = .thrown e7 ∧
      escalations 0 (since exTwo (exec 9 (.Interrupt 0 e7) exTwo).st) = [] ∧
      sent 0 (since exTwo (exec 9 (.Interrupt 0 e7) exTwo).st) = [.interrupts 0 1 e7] ∧
      Event.Interrupt 2 e7 ∉ since exTwo (exec 9 (.Interrupt 0 e7) exTwo).st := by
  decide

/-- Claim C8, amended: `Interrupt(e)` on a pending object `w` enters the hook `OnThown(e)` of
`w` exactly once if `w` had no caller and `e` is not `undefined` (in a heap without dangling
references, and for every bound that the call does not exhaust); it does not enter it at all
if `w` had a caller or `e` is `undefined`, and then, if the call returns, `e` has been passed
to every caller through `c.Interrupt(e)` (a notification that raises ends the loop).  Nothing
that is called later enters the hook `OnThown` of `w` again.  With the hook of the base
class, which every class but `Coroutine` uses, the escalation raises `e` out of
`Interrupt`. -/
theorem escalation_exactly_once (fuel : Nat) (s : State) (w : Ref) (o : YieldInstruction)
    (e : Value) (ho : s.objs[w]? = some o) (hd : o.done = false)
    (hi : o.interrupted = false) :
    (o.callers = [] → e ≠ undef → WellFormed s →
      (exec (fuel + 1) (.Interrupt w e) s).out ≠ .outOfFuel →
      escalations w (since s (exec (fuel + 1) (.Interrupt w e) s).st) = [Event.OnThown w e]) ∧
    (o.callers ≠ [] ∨ e = undef →
      escalations w (since s (exec (fuel + 1) (.Interrupt w e) s).st) = []) ∧
    ((exec (fuel + 1) (.Interrupt w e) s).out = .ok →
      ∀ c ∈ o.callers, Event.interrupts w c e ∈ since s (exec (fuel + 1) (.Interrupt w e) s).st) ∧
    (∀ calls, escalations w (since (exec (fuel + 1) (.Interrupt w e) s).st
      (execAll calls (exec (fuel + 1) (.Interrupt w e) s).st)) = []) ∧
    (o.cls.kind ≠ 3 → o.callers = [] → e ≠ undef →
      (exec (fuel + 1) (.Interrupt w e) s).out = .thrown e) := by
  have hrec := exec_evolves fuel
  have hE : exec (fuel + 1) (.Interrupt w e) s = YieldInstruction.Interrupt (exec fuel) w e s :=
    rfl
  rw [hE]
  obtain ⟨l, k, htr, _, hk, hesc, hnot⟩ := Interrupt_pending_trace hrec e ho hd hi
  refine ⟨?_, ?_, ?_, ?_, ?_⟩
  · intro hnil hne hwf hfin
    have hhook : (OnInterrupted (exec fuel) w (interruptedState w e s)).out = .ok := by
      refine OnInterrupted_returns fuel e hwf ho ?_
      intro hout
      apply hfin
      rw [Interrupt_pending (exec fuel) e ho hd hi]
      unfold Res.andThen
      rw [hout]
      exact hout
    rw [htr.since_eq, ← escalations_own, hesc hnil hne hhook]
    simp [escalations, Event.escalates]
  · intro hcase
    rw [htr.since_eq, ← escalations_own, hnot hcase, escalations_interrupts]
  · intro hok c hc
    have hcase : o.callers ≠ [] ∨ e = undef := Or.inl (List.ne_nil_of_mem hc)
    rw [htr.since_eq]
    apply mem_of_own (w := w)
    rw [hnot hcase, hk hok, List.take_length]
    exact List.mem_map.2 ⟨c, hc, rfl⟩
  · intro calls
    obtain ⟨o1, h1, hi1⟩ := Interrupt_pending_sets_flag hrec e ho hd hi
    rw [← escalations_own, (execAll_evolves calls _).own_interrupted h1 hi1]
    rfl
  · intro hkind hnil hne
    have hI := interruptedState_get e ho
    have hhook : (OnInterrupted (exec fuel) w (interruptedState w e s)).out = .ok :=
      OnInterrupted_default_ok (exec fuel) hI hkind
    have hev3 := OnInterrupted_evolves hrec (Evolves.start (interruptedState w e s)) w
    obtain ⟨o3, h3, ht3⟩ := hev3.lookup hI
    have hc3 : o3.callers = [] := (ht3.callers_interrupted rfl).trans hnil
    have hk3 : o3.cls.kind ≠ 3 := by
      rw [ht3.kind]
      exact hkind
    rw [Interrupt_pending (exec fuel) e ho hd hi]
    rcases Res.andThen_cases (OnInterrupted (exec fuel) w (interruptedState w e s))
      (afterHook (exec fuel) w e) with ⟨_, heq⟩ | ⟨hne2, _⟩
    · rw [heq]
      unfold afterHook
      rw [h3]
      simp only [hc3]
      have hloop : forEachInterrupt (exec fuel) w e []
          (OnInterrupted (exec fuel) w (interruptedState w e s)).st =
          ok (OnInterrupted (exec fuel) w (interruptedState w e s)).st := rfl
      rw [hloop]
      have hseq : (ok (OnInterrupted (exec fuel) w (interruptedState w e s)).st).andThen
          (afterLoop (exec fuel) w e) =
          afterLoop (exec fuel) w e (OnInterrupted (exec fuel) w (interruptedState w e s)).st :=
        rfl
      rw [hseq]
      unfold afterLoop
      rw [h3]
      have hcond : (o3.callers.length == 0 && e != undef) = true := by
        simp [hc3, hne]
      simp only [hcond, if_true]
      have h5 : ((OnInterrupted (exec fuel) w (interruptedState w e s)).st.update w
          fun o => { o with callers := [] }).objs[w]? = some { o3 with callers := [] } := by
        rw [update_objs_self, h3]
        rfl
      exact OnThown_default_raises (exec fuel) e h5 hk3
    · exact absurd hhook hne2

/-- The amended claim C8 at a fresh waitable that fails with nobody waiting, and at a
pending waitable with two callers that is cancelled. -/
theorem escalation_exactly_once_witness :
    escalations 0 (since (store [fresh] []) (exec 1 (.Interrupt 0 e7) (store [fresh] [])).st)
        = [Event.OnThown 0 e7] ∧
      escalations 0 (since exTwo (exec 9 (.Interrupt 0 undef) exTwo).st) = [] ∧
      (∀ c ∈ [1, 2],
        Event.interrupts 0 c undef ∈ since exTwo (exec 9 (.Interrupt 0 undef) exTwo).st) ∧
      (∀ calls, escalations 0 (since (exec 1 (.Interrupt 0 e7) (store [fresh] [])).st
        (execAll calls (exec 1 (.Interrupt 0 e7) (store [fresh] [])).st)) = []) ∧
      (exec 1 (.Interrupt 0 e7) (store [fresh] [])).out = .thrown e7 :=
  ⟨(escalation_exactly_once 0 (store [fresh] []) 0 fresh e7 rfl rfl rfl).1 rfl (by decide)
      (by unfold WellFormed; decide) (by decide),
    (escalation_exactly_once 8 exTwo 0 { fresh with callers := [1, 2] } undef (by decide)
      rfl rfl).2.1 (Or.inr rfl),
    (escalation_exactly_once 8 exTwo 0 { fresh with callers := [1, 2] } undef (by decide)
      rfl rfl).2.2.1 (by decide),
    (escalation_exactly_once 0 (store [fresh] []) 0 fresh e7 rfl rfl rfl).2.2.2.1,
    (escalation_exactly_once 0 (store [fresh] []) 0 fresh e7 rfl rfl rfl).2.2.2.2 (by decide)
      rfl (by decide)⟩

/-! ## Claim C9 -/

/-- Claim C9 fails as stated: the waitable `0` is done and the driver `1` has a routine that
yields the pending waitable `2`.  `Start(1)` on `0` returns, and `1` is then in the
`callers` of `2`: its own resumption has queued it there. -/
theorem Start_on_done_queues_elsewhere :
    (exDone.objs[0]?).map (fun o => (o.done, o.interrupted)) = some (true, false) ∧
      (exDone.objs[2]?).map (fun o => o.callers) = some [] ∧
      (exec 9 (.Start 0 (.ref 1)) exDone).out = .ok ∧
      ((exec 9 (.Start 0 (.ref 1)) exDone).st.objs[2]?).map (fun o => o.callers) = some [1] := by
  decide

/-- Claim C9, amended: `Start(c)` on a done object first calls `c.Start()` with no caller
argument, then, if that returned, runs its own hook `OnStarted` as on any start; it never
adds `c` to the `callers` of the done object, which keep no entry they did not have. -/
theorem Start_on_done_resumes_caller (fuel : Nat) (s : State) (w c : Ref)
    (self : YieldInstruction) (hself : s.objs[w]? = some self) (hd : self.done = true)
    (hi : self.interrupted = false) :
    exec (fuel + 1) (.Start w (.ref c)) s =
        ((exec fuel (.Start c .undefined) (s.emit (.Start w (.ref c)))).andThen fun s1 =>
          (OnStarted (exec fuel) w s1).orCatch fun error s2 => exec fuel (.Throw w error) s2) ∧
      ∃ o1, (exec (fuel + 1) (.Start w (.ref c)) s).st.objs[w]? = some o1 ∧
        (o1.callers = self.callers ∨ o1.callers = []) := by
  refine ⟨Start_done (exec fuel) c hself hd hi, ?_⟩
  obtain ⟨o1, h1, ht⟩ := (exec_evolves (fuel + 1) (.Start w (.ref c)) s).lookup hself
  exact ⟨o1, h1, ht.callers_done hd⟩

/-- The amended claim C9 at a done waitable on which a driver is started. -/
theorem Start_on_done_resumes_caller_witness :
    exec 9 (.Start 0 (.ref 1)) exDone =
        ((exec 8 (.Start 1 .undefined) (exDone.emit (.Start 0 (.ref 1)))).andThen fun s1 =>
          (OnStarted (exec 8) 0 s1).orCatch fun error s2 => exec 8 (.Throw 0 error) s2) ∧
      ∃ o1, (exec 9 (.Start 0 (.ref 1)) exDone).st.objs[0]? = some o1 ∧
        (o1.callers = [] ∨ o1.callers = []) :=
  Start_on_done_resumes_caller 8 exDone 0 1 { fresh with done := true } (by decide) rfl rfl

/-! ## Claim C10 -/

/-- Claim C10, the code at the failing input: the waitable `0` is interrupted with the stored
error `e7`, and the driver `1` has it as `callee`.  `Start(1)` on `0` returns, and afterwards
the stored error of `0` is `undefined`; the same happens when the driver itself is started and
its routine yields `0`. -/
theorem Start_on_interrupted_changes_error :
    exLateCall.objs[0]? = some { fresh with interrupted := true, error := e7 } ∧
      (exec 9 (.Start 0 (.ref 1)) exLateCall).out = .ok ∧
      (exec 9 (.Start 0 (.ref 1)) exLateCall).st.objs[0]? =
        some { fresh with interrupted := true, error := undef } ∧
      exLate.objs[0]? = some { fresh with interrupted := true, error := e7 } ∧
      (exec 9 (.Start 1 .undefined) exLate).st.objs[0]? =
        some { fresh with interrupted := true, error := undef } := by
  decide

/-! ## Claim C11 -/

/-- Claim C11, the code at the failing input: the `Callback` with the waitable `0` has been
invoked once, so `0` is done.  The second invocation returns, and `0` is still done and not
interrupted, with both argument lists queued and the error of line 128 stored.  `Start(1)` on
it afterwards returns and resumes the caller `1` by `Start()`: nobody is interrupted, and `1`
is as it was. -/
theorem second_callback_call_leaves_done :
    exOnce.objs[0]? = some { fresh with done := true, argumentsQueue := [.args [.num 1]] } ∧
      (exec 9 (.invoke 0 [.num 2]) exOnce).out = .ok ∧
      since exOnce exTwice =
        [.invoke 0 [.num 2], .Interrupt 0 (.atom (.error .multipleCall)), .End 0] ∧
      exTwice.objs[0]? =
        some { fresh with done := true, interrupted := false,
                          argumentsQueue := [.args [.num 1], .args [.num 2]],
                          error := .atom (.error .multipleCall) } ∧
      (exec 9 (.Start 0 (.ref 1)) exTwice).out = .ok ∧
      since exTwice (exec 9 (.Start 0 (.ref 1)) exTwice).st =
        [.Start 0 (.ref 1), .Start 1 .undefined, .OnStarted 1, .OnStarted 0] ∧
      (exec 9 (.Start 0 (.ref 1)) exTwice).st.objs[1]? = some fresh := by
  decide

/-! ## Claim C12 -/

/-- Claim C12.  A pending driver `d` is suspended, after a step that was not final, on the
fresh waitable `w` of a `Callback` (pending, nothing queued), and is the first of its callers.
One invocation of the `Callback` with `args` queues `args` and calls `End`: in the state
in which the loop of `End` starts, `w` is done and its `argumentsQueue` is `[args]`;
inside the invocation the driver is resumed and advances its routine by
`generator.next(args)`; and when the invocation stops, `w` is done with `args` as the first
entry of its `argumentsQueue`. -/
theorem Callback_resumes_driver_with_args (fuel : Nat) (w d g : Ref) (cur : IterResult)
    (s : State) (waited self : YieldInstruction) (rest : List Ref) (args : List Atom)
    (hw : s.objs[w]? = some waited) (hbase : waited.cls = .YieldInstruction)
    (hwd : waited.done = false) (hwi : waited.interrupted = false)
    (hq : waited.argumentsQueue = []) (hcs : waited.callers = d :: rest)
    (hd : s.objs[d]? = some self) (hcls : self.cls = .Coroutine g (.yi w) cur)
    (hdone : self.done = false) (hint : self.interrupted = false) (hcur : cur.done = false) :
    (endedState w (invokedState w args s)).objs[w]? =
        some { waited with argumentsQueue := [.args args], done := true } ∧
      exec (fuel + 4) (.invoke w args) s =
        ((forEachStart (exec (fuel + 2)) w (d :: rest)
          (endedState w (invokedState w args s))).andThen fun s3 =>
            ok (s3.update w fun o => { o with callers := [] })) ∧
      Begins s [.invoke w args, .End w, .resumes w d, .Start d .undefined, .OnStarted d,
          .next g (.args args)]
        (exec (fuel + 4) (.invoke w args) s).st ∧
      ∃ o, (exec (fuel + 4) (.invoke w args) s).st.objs[w]? = some o ∧ o.done = true ∧
        [.args args] <+: o.argumentsQueue := by
  have hne : d ≠ w := by
    intro h
    subst h
    rw [hw] at hd
    cases hd
    rw [hbase] at hcls
    cases hcls
  have hw1 : (invokedState w args s).objs[w]? =
      some { waited with argumentsQueue := [.args args] } := by
    unfold invokedState
    rw [update_objs_self, emit_objs, hw]
    simp [hq]
  have hd1 : (invokedState w args s).objs[d]? = some self := by
    unfold invokedState
    rw [update_objs_other _ _ _ _ hne]
    exact hd
  have hcall : exec (fuel + 4) (.invoke w args) s =
      exec (fuel + 3) (.End w) (invokedState w args s) := by
    show Callback.call (exec (fuel + 3)) w args s = _
    have hw2 := hw1
    unfold invokedState at hw2
    unfold Callback.call
    simp only [emit_objs, hw, hw2, hwd]
    rfl
  have hend : YieldInstruction.End (exec (fuel + 2)) w (invokedState w args s) =
      ((forEachStart (exec (fuel + 2)) w (d :: rest)
        (endedState w (invokedState w args s))).andThen fun s3 =>
          ok (s3.update w fun o => { o with callers := [] })) := by
    rw [End_unfold (exec (fuel + 2)) hw1 hwi]
    simp only [hcs]
    rfl
  have hw3 : (endedState w (invokedState w args s)).objs[w]? =
      some { waited with argumentsQueue := [.args args], done := true } := by
    unfold endedState
    rw [update_objs_self, emit_objs, hw1]
    rfl
  refine ⟨hw3, ?_, ?_, ?_⟩
  · rw [hcall]
    exact hend
  · rw [hcall]
    have hb := End_begins fuel hw1 hwi hcs hd1 hcls hdone hint hcur hne
    have hin : Coroutine.input (invokedState w args s) (.yi w) = .args args := by
      simp [Coroutine.input, hw1]
    rw [hin] at hb
    have hl : (invokedState w args s).log = s.log ++ [.invoke w args] := by
      simp [invokedState, update_log]
    exact hb.from hl
  · rw [hcall]
    show ∃ o, (YieldInstruction.End (exec (fuel + 2)) w _).st.objs[w]? = some o ∧ _
    rw [hend]
    refine Res.andThen_ind (P := fun st => ∃ o, st.objs[w]? = some o ∧ o.done = true ∧
      [.args args] <+: o.argumentsQueue) ?_ ?_
    · have hl := forEachStart_later (exec_later (fuel + 2)) w (d :: rest)
        (Later.now (endedState w (invokedState w args s)))
      obtain ⟨o1, ho1, hd2, _, hq2⟩ := hl.objs w _ hw3
      exact ⟨o1, ho1, hd2 rfl, hq2⟩
    · rintro s1 ⟨o, ho, hod, hoq⟩
      exact ⟨{ o with callers := [] }, by simp [update_objs_self, ho], hod, hoq⟩

/-- Claim C12 at the driver of `exSuspended`, suspended on the waitable `0`, and the
arguments `[5]`. -/
theorem Callback_resumes_driver_with_args_witness :
    (endedState 0 (invokedState 0 [.num 5] exSuspended)).objs[0]? =
        some { fresh with callers := [1], argumentsQueue := [.args [.num 5]], done := true } ∧
      exec 4 (.invoke 0 [.num 5]) exSuspended =
        ((forEachStart (exec 2) 0 [1]
          (endedState 0 (invokedState 0 [.num 5] exSuspended))).andThen fun s3 =>
            ok (s3.update 0 fun o => { o with callers := [] })) ∧
      Begins exSuspended [.invoke 0 [.num 5], .End 0, .resumes 0 1, .Start 1 .undefined,
          .OnStarted 1, .next 0 (.args [.num 5])]
        (exec 4 (.invoke 0 [.num 5]) exSuspended).st ∧
      ∃ o, (exec 4 (.invoke 0 [.num 5]) exSuspended).st.objs[0]? = some o ∧ o.done = true ∧
        [.args [.num 5]] <+: o.argumentsQueue :=
  Callback_resumes_driver_with_args 0 0 1 0 ⟨.atom (.yi 0), false⟩ exSuspended
    { fresh with callers := [1] }
    (YieldInstruction.new (.Coroutine 0 (.yi 0) ⟨.atom (.yi 0), false⟩)) [] [.num 5]
    (by decide) rfl rfl rfl rfl rfl (by decide) rfl rfl rfl rfl

/-! ## Claim C13 -/

/-- Claim C13, the code at the failing input: the combinator `1` with a deadline of five
seconds is pending and suspended on the timer waitable `0` of ten seconds, which it has
started.  The deadline request `0` fires: the combinator is interrupted with the timeout
error, which it escalates, having no caller.  `Interrupt` is not called on the wrapped
waitable: `0` is as it was, pending with the combinator as its caller, and its own request
`1` is still pending. -/
theorem deadline_leaves_wrapped_pending :
    exDeadline.objs =
        [{ YieldInstruction.new (.WaitForSeconds 10 (some 1)) with callers := [1] },
          YieldInstruction.new (.Wait (some 0) (some 5) (some 0))] ∧
      exDeadline.timers = [⟨0, .OnTimeOut, 1, 5000⟩, ⟨1, .End, 0, 10000⟩] ∧
      (exec 9 (.fire 0) exDeadline).out = .thrown (.atom (.error (.timedOut 5))) ∧
      (exec 9 (.fire 0) exDeadline).st.objs[1]? =
        some { YieldInstruction.new (.Wait (some 0) (some 5) (some 0)) with
                 interrupted := true, error := .atom (.error (.timedOut 5)) } ∧
      (exec 9 (.fire 0) exDeadline).st.objs[0]? =
        some { YieldInstruction.new (.WaitForSeconds 10 (some 1)) with callers := [1] } ∧
      (exec 9 (.fire 0) exDeadline).st.timers = [⟨1, .End, 0, 10000⟩] ∧
      since exDeadline (exec 9 (.fire 0) exDeadline).st =
        [.fire 0, .OnTimeOut 1, .Interrupt 1 (.atom (.error (.timedOut 5))), .OnInterrupted 1,
          .OnThown 1 (.atom (.error (.timedOut 5)))] := by
  decide

/-! ## Claim C14 -/

/-- Claim C14 fails as stated.  The wrapped waitable `0` is pending with the callers `1`
and `2`: the driver `1`, whose routine raises `e7` when it is resumed, was queued ahead of
the combinator `2`, which was started while pending.  `End()` on `0` raises out of the
resumption of `1`: `0` is done, but the combinator was not resumed and is still pending
with nothing queued, and its deadline request `0` is still pending.  When the deadline
fires, `OnTimeOut` runs and the combinator ends interrupted with the timeout error. -/
theorem completion_can_miss_combinator :
    exBlocked.objs[0]? = some { fresh with callers := [1, 2] } ∧
      exBlocked.objs[2]? = some (YieldInstruction.new (.Wait (some 0) (some 5) (some 0))) ∧
      exBlocked.timers = [⟨0, .OnTimeOut, 2, 5000⟩] ∧
      (exec 9 (.End 0) exBlocked).out = .thrown e7 ∧
      ((exec 9 (.End 0) exBlocked).st.objs[0]?).map (fun o => o.done) = some true ∧
      (exec 9 (.End 0) exBlocked).st.objs[2]? =
        some (YieldInstruction.new (.Wait (some 0) (some 5) (some 0))) ∧
      (exec 9 (.End 0) exBlocked).st.timers = [⟨0, .OnTimeOut, 2, 5000⟩] ∧
      since (exec 9 (.End 0) exBlocked).st
          (exec 9 (.fire 0) (exec 9 (.End 0) exBlocked).st).st =
        [.fire 0, .OnTimeOut 2, .Interrupt 2 (.atom (.error (.timedOut 5))),
          .OnInterrupted 2, .OnThown 2 (.atom (.error (.timedOut 5)))] ∧
      (exec 9 (.fire 0) (exec 9 (.End 0) exBlocked).st).st.objs[2]? =
        some { YieldInstruction.new (.Wait (some 0) (some 5) (some 0)) with
                 interrupted := true, error := .atom (.error (.timedOut 5)) } := by
  decide

/-- Claim C14, amended.  A pending combinator `w` wraps the waitable `y` and holds the
handle `h` of its deadline request.  If `y` is done when `Start` is called on `w`, with any
caller, the hook cancels the deadline, queues the first queued argument of `y` and calls
`End`, which returns exactly when the callers of `w` are resumed in order, each of them
returning.  If `y` is pending with the callers `pre ++ w :: post`, and in `End` on `y` the
callers `pre` queued ahead of `w` are resumed and return, leaving `w` a pending combinator
in the state `s1`, then the loop resumes `w` by `Start()`, which does the same.  In both
cases, however the call stops and whatever is called afterwards, `w` is done with that
argument queued behind what it had, and the deadline request is gone: the timer service has
nothing to do for `h`, so `OnTimeOut` is not run by it. -/
theorem Wait_completes_and_cancels_deadline (fuel : Nat) (w y : Ref) (h : Nat)
    (sec : Option Int) (s : State) (self inner : YieldInstruction)
    (hw : s.objs[w]? = some self) (hcls : self.cls = .Wait (some y) sec (some h))
    (hdone : self.done = false) (hint : self.interrupted = false)
    (hy : s.objs[y]? = some inner) (hh : h < s.nextHandle) :
    (inner.done = true → ∀ caller : Caller,
      exec (fuel + 2) (.Start w caller) s =
          ((exec (fuel + 1) (.End w)
            (completedState w (some h) (inner.argumentsQueue.headD undef)
              (queued w caller s))).orCatch
            fun error s2 => exec (fuel + 1) (.Throw w error) s2) ∧
        CompletedFor w h (self.argumentsQueue ++ [inner.argumentsQueue.headD undef])
          (exec (fuel + 2) (.Start w caller) s).st ∧
        ∀ s1, Returns (.End w)
            (completedState w (some h) (inner.argumentsQueue.headD undef)
              (queued w caller s)) s1 ↔
          ∃ s2, ResumedInOrder w (caller.joined self.callers)
              (endedState w (completedState w (some h) (inner.argumentsQueue.headD undef)
                (queued w caller s))) s2 ∧
            s1 = s2.update w fun o => { o with callers := [] }) ∧
      (inner.done = false → inner.interrupted = false →
        ∀ (pre post : List Ref) (n : Nat) (s1 : State) (self1 inner1 : YieldInstruction)
          (sec1 : Option Int),
        inner.callers = pre ++ w :: post →
        forEachStart (exec n) y pre (endedState y s) = ⟨s1, .ok⟩ →
        s1.objs[w]? = some self1 → self1.cls = .Wait (some y) sec1 (some h) →
        self1.done = false → self1.interrupted = false → s1.objs[y]? = some inner1 →
        exec (n + fuel + 3) (.End y) s =
            (((exec (n + fuel + 2) (.Start w .undefined) (s1.emit (.resumes y w))).andThen
              (forEachStart (exec (n + fuel + 2)) y post)).andThen fun s2 =>
                ok (s2.update y fun o => { o with callers := [] })) ∧
          exec (n + fuel + 2) (.Start w .undefined) (s1.emit (.resumes y w)) =
            ((exec (n + fuel + 1) (.End w)
              (completedState w (some h) (inner1.argumentsQueue.headD undef)
                (queued w .undefined (s1.emit (.resumes y w))))).orCatch
              fun error s2 => exec (n + fuel + 1) (.Throw w error) s2) ∧
          CompletedFor w h (self1.argumentsQueue ++ [inner1.argumentsQueue.headD undef])
            (exec (n + fuel + 3) (.End y) s).st ∧
          ∀ s2, Returns (.End w)
              (completedState w (some h) (inner1.argumentsQueue.headD undef)
                (queued w .undefined (s1.emit (.resumes y w)))) s2 ↔
            ∃ s3, ResumedInOrder w self1.callers
                (endedState w (completedState w (some h) (inner1.argumentsQueue.headD undef)
                  (queued w .undefined (s1.emit (.resumes y w))))) s3 ∧
              s2 = s3.update w fun o => { o with callers := [] }) := by
  have hjoin : ∀ (caller : Caller) (s0 : State) (a b : YieldInstruction),
      s0.objs[w]? = some a → a.interrupted = false →
      ∃ selfq, (completedState w (some h) (b.argumentsQueue.headD undef)
          (queued w caller s0)).objs[w]? = some selfq ∧ selfq.interrupted = false ∧
        selfq.callers = caller.joined a.callers := by
    intro caller s0 a b h0 ha
    cases caller with
    | ref c =>
      have hq : (queued w (.ref c) s0).objs[w]? =
          some { a with callers := a.callers ++ [c] } := by
        simp [queued, update_objs_self, h0]
      exact ⟨_, completedState_get hq, ha, rfl⟩
    | undefined => exact ⟨_, completedState_get (by simpa [queued] using h0), ha, rfl⟩
    | null => exact ⟨_, completedState_get (by simpa [queued] using h0), ha, rfl⟩
  constructor
  · intro hyd caller
    obtain ⟨hcall, s0, o, ho, hod, hoq, hc, hn, hl⟩ :=
      Start_wrapped_done fuel caller hw hcls hdone hint hy hyd hh
    obtain ⟨selfq, hq1, hq2, hq3⟩ := hjoin caller s self inner hw hint
    refine ⟨hcall, CompletedFor.of_later ho hod hoq hc hn hl, ?_⟩
    intro s1
    rw [End_returns_iff hq1 hq2 s1, hq3]
  · intro hyd hyi pre post n s1 self1 inner1 sec1 hcs hpre hw1 hcls1 hdone1 hint1 hy1
    have hlE : Later s (endedState y s) := by
      unfold endedState
      refine Later.rewritten ((Later.now s).logged _) _ _ ?_ ?_ ?_
      · exact fun _ _ => rfl
      · exact fun _ h1 => h1
      · exact fun _ => List.prefix_refl _
    have hl1 : Later (endedState y s) s1 := by
      have := forEachStart_later (exec_later n) y pre (Later.now (endedState y s))
      rw [hpre] at this
      exact this
    have hyd1 : inner1.done = true := by
      obtain ⟨o1, ho1, hd1, _⟩ := hl1.objs y _ (endedState_get hy)
      rw [hy1] at ho1
      cases ho1
      exact hd1 rfl
    have hh1 : h < (s1.emit (.resumes y w)).nextHandle :=
      Nat.lt_of_lt_of_le hh (hlE.after hl1).handles
    have hstab : forEachStart (exec (n + fuel + 2)) y pre (endedState y s) = ⟨s1, .ok⟩ := by
      have := forEachStart_stable (exec_agree_le (show n ≤ n + fuel + 2 by omega)) y pre
        (endedState y s) (by rw [hpre]; simp)
      rw [this, hpre]
    obtain ⟨hcall, s0, o, ho, hod, hoq, hc, hn, hl⟩ :=
      Start_wrapped_done (s := s1.emit (.resumes y w)) (n + fuel) .undefined hw1 hcls1
        hdone1 hint1 hy1 hyd1 hh1
    have hend : exec (n + fuel + 3) (.End y) s =
        (((exec (n + fuel + 2) (.Start w .undefined) (s1.emit (.resumes y w))).andThen
          (forEachStart (exec (n + fuel + 2)) y post)).andThen fun s2 =>
            ok (s2.update y fun o => { o with callers := [] })) := by
      show YieldInstruction.End (exec (n + fuel + 2)) y s = _
      rw [End_unfold _ hy hyi, hcs, forEachStart_append]
      have hE : ((s.emit (.End y)).update y fun o => { o with done := true }) =
          endedState y s := rfl
      rw [hE, hstab]
      rfl
    obtain ⟨selfq, hq1, hq2, hq3⟩ :=
      hjoin .undefined (s1.emit (.resumes y w)) self1 inner1 hw1 hint1
    refine ⟨hend, hcall, ?_, ?_⟩
    · refine CompletedFor.of_later ho hod hoq hc hn (hl.after ?_)
      rw [hend]
      refine Res.andThen_ind (Res.andThen_ind (Later.now _) ?_) ?_
      · intro s2 h2
        exact forEachStart_later (exec_later _) _ _ h2
      · intro s2 h2
        refine Later.rewritten h2 _ _ ?_ ?_ ?_
        · exact fun _ h3 => h3
        · exact fun _ h3 => h3
        · exact fun _ => List.prefix_refl _
    · intro s2
      rw [End_returns_iff hq1 hq2 s2, hq3]
      rfl

/-- The amended claim C14 at the combinator of `exReady`, whose wrapped waitable is done
when it is started, and at the combinator of `exShared`, which is resumed by `End` on its
wrapped waitable after the fresh waitable queued ahead of it. -/
theorem Wait_completes_and_cancels_deadline_witness :
    CompletedFor 1 0 [undef] (exec 2 (.Start 1 .undefined) exReady).st ∧
      CompletedFor 2 0 [undef] (exec 5 (.End 0) exShared).st :=
  ⟨((Wait_completes_and_cancels_deadline 0 1 0 0 (some 5) exReady
      (YieldInstruction.new (.Wait (some 0) (some 5) (some 0))) { fresh with done := true }
      (by decide) rfl rfl rfl (by decide) (by decide)).1 rfl .undefined).2.1,
    ((Wait_completes_and_cancels_deadline 0 2 0 0 (some 5) exShared
      (YieldInstruction.new (.Wait (some 0) (some 5) (some 0)))
      { fresh with callers := [1, 2] }
      (by decide) rfl rfl rfl (by decide) (by decide)).2 rfl rfl [1] [] 2
      (forEachStart (exec 2) 0 [1] (endedState 0 exShared)).st
      (YieldInstruction.new (.Wait (some 0) (some 5) (some 0)))
      { fresh with callers := [1, 2], done := true } (some 5)
      rfl (by decide) (by decide) rfl rfl rfl (by decide)).2.2.1⟩

/-! ## Claim C15 -/

/-- Claim C15.  For every value that `ConvertToYieldInstruction` maps to nothing, every
deadline and every state, `new Wait(value, seconds)` raises the not-yieldable error once the
bound is at least three: the new object is left interrupted with that error stored, the
trace shows `Interrupt`, the hook `OnInterrupted` and the hook `OnThown` on it and no
`setTimeout`, and the pending timer requests and the next handle are those of before. -/
theorem Wait_new_rejects_before_scheduling (object : Value) (seconds : Int) (s : State)
    (fuel : Nat) (hno : ∀ s0, (ConvertToYieldInstruction object s0).2 = none) :
    exec (fuel + 3) (.newWait object seconds) s =
        ⟨{ s with
            objs := s.objs ++ [{ YieldInstruction.new (.Wait none none none) with
                                  interrupted := true, error := .atom (.error .notYieldable) }],
            log := s.log ++ [.Interrupt s.objs.length (.atom (.error .notYieldable)),
                             .OnInterrupted s.objs.length,
                             .OnThown s.objs.length (.atom (.error .notYieldable))] },
          .thrown (.atom (.error .notYieldable))⟩ ∧
      (exec (fuel + 3) (.newWait object seconds) s).st.timers = s.timers ∧
      (exec (fuel + 3) (.newWait object seconds) s).st.nextHandle = s.nextHandle := by
  have hc : ∀ s0, ConvertToYieldInstruction object s0 = (s0, none) := by
    intro s0
    have h := hno s0
    unfold ConvertToYieldInstruction at h ⊢
    split <;> simp_all [State.alloc]
  have hr : exec (fuel + 3) (.newWait object seconds) s =
      ⟨{ s with
          objs := s.objs ++ [{ YieldInstruction.new (.Wait none none none) with
                                interrupted := true, error := .atom (.error .notYieldable) }],
          log := s.log ++ [.Interrupt s.objs.length (.atom (.error .notYieldable)),
                           .OnInterrupted s.objs.length,
                           .OnThown s.objs.length (.atom (.error .notYieldable))] },
        .thrown (.atom (.error .notYieldable))⟩ := by
    simp only [exec, step, Wait.new, hc, State.alloc, YieldInstruction.Throw,
      YieldInstruction.Interrupt]
    simp [State.emit, State.update, OnInterrupted, forEachInterrupt, OnThown, Res.andThen, ok,
      raise, YieldInstruction.new]
  rw [hr]
  exact ⟨rfl, rfl, rfl⟩

/-- Claim C15 at the number `5`, a deadline of two seconds and the empty store. -/
theorem Wait_new_rejects_before_scheduling_witness :
    exec 3 (.newWait (.atom (.num 5)) 2) (store [] []) =
        ⟨{ store [] [] with
            objs := [{ YieldInstruction.new (.Wait none none none) with
                        interrupted := true, error := .atom (.error .notYieldable) }],
            log := [.Interrupt 0 (.atom (.error .notYieldable)), .OnInterrupted 0,
                     .OnThown 0 (.atom (.error .notYieldable))] },
          .thrown (.atom (.error .notYieldable))⟩ ∧
      (exec 3 (.newWait (.atom (.num 5)) 2) (store [] [])).st.timers = [] ∧
      (exec 3 (.newWait (.atom (.num 5)) 2) (store [] [])).st.nextHandle = 0 :=
  Wait_new_rejects_before_scheduling (.atom (.num 5)) 2 (store [] []) 0 (fun _ => rfl)

/-! ## Claim C16 -/

/-- Claim C16.  The pending driver `d` is suspended on the pending timer waitable `t`,
directly or through the nested drivers `ds`, each pending and suspended on the next; `t`
holds the handle `h` of its request.  `Interrupt` on `d`, with any error or none, once the
bound covers the depth of the chain: however the call stops and whatever is called
afterwards, every driver of the chain and `t` are interrupted, `clearTimeout(h)` has been
called, no request with the handle `h` is pending, and the timer service has nothing to do
for `h`, so the `End` of the timer waitable is not run by it. -/
theorem Interrupt_cascades_to_timer (fuel : Nat) (s : State) (t d : Ref) (ds : List Ref)
    (h : Nat) (sec : Int) (tw : YieldInstruction) (error : Value)
    (calls : List (Nat × Call)) (ht : s.objs[t]? = some tw)
    (hcls : tw.cls = .WaitForSeconds sec (some h)) (htd : tw.done = false)
    (hti : tw.interrupted = false) (hh : h < s.nextHandle)
    (hch : chained s t (d :: ds) = true) :
    Unwound s t h (d :: ds)
        (execAll calls (exec (fuel + ds.length + 2) (.Interrupt d error) s).st) ∧
      ∀ n, exec (n + 1) (.fire h)
          (execAll calls (exec (fuel + ds.length + 2) (.Interrupt d error) s).st) =
        ok (execAll calls (exec (fuel + ds.length + 2) (.Interrupt d error) s).st) := by
  obtain ⟨s0, hu, hl⟩ := chain_unwinds ds d s error fuel tw ht hcls htd hti hh hch
  have hu1 := hu.persists (hl.after (execAll_later calls _))
  exact ⟨hu1, fun n => fire_cancelled hu1.cancelled⟩

/-- Claim C16 at the drivers of `exNested`: `Interrupt(e7)` on the outer driver `1`, which
is suspended on the driver `2`, which is suspended on the timer waitable `0`. -/
theorem Interrupt_cascades_to_timer_witness :
    Unwound exNested 0 0 [1, 2] (exec 3 (.Interrupt 1 e7) exNested).st ∧
      ∀ n, exec (n + 1) (.fire 0) (exec 3 (.Interrupt 1 e7) exNested).st =
        ok (exec 3 (.Interrupt 1 e7) exNested).st :=
  Interrupt_cascades_to_timer 0 exNested 0 1 [2] 0 10
    { YieldInstruction.new (.WaitForSeconds 10 (some 0)) with callers := [2] } e7 []
    (by decide) rfl rfl rfl (by decide) (by decide)

/-! ## Claim C17 -/

/-- Claim C17, counterexample: the driver `1` is pending and suspended on the waitable `0`,
yielded inside a `try` whose handler yields the waitable `2`.  `Interrupt(e7)` on the driver,
which has no caller, injects `e7`; the routine catches it and produces `2`, and `Interrupt`
returns.  The driver is interrupted, its `callee` and `current` are those of before, and
`2` has not been started.  When `2` is completed later and the driver is started again, the
driver is still interrupted and not done. -/
theorem caught_error_leaves_driver_interrupted :
    exCatching.objs[1]? =
        some (YieldInstruction.new (.Coroutine 0 (.yi 0) ⟨.atom (.yi 0), false⟩)) ∧
      (exec 9 (.Interrupt 1 e7) exCatching).out = .ok ∧
      (exec 9 (.Interrupt 1 e7) exCatching).st.gens[0]? =
        some ⟨[.yield (.atom (.yi 2))], .suspendedYield, ⟨.atom (.yi 2), false⟩⟩ ∧
      (exec 9 (.Interrupt 1 e7) exCatching).st.objs[1]? =
        some { YieldInstruction.new (.Coroutine 0 (.yi 0) ⟨.atom (.yi 0), false⟩) with
                 interrupted := true, error := undef } ∧
      (exec 9 (.Interrupt 1 e7) exCatching).st.objs[2]? = some fresh ∧
      (execAll [(9, .Interrupt 1 e7), (9, .End 2), (9, .Start 1 .undefined)]
          exCatching).objs[1]? =
        some { YieldInstruction.new (.Coroutine 0 (.yi 0) ⟨.atom (.yi 0), false⟩) with
                 interrupted := true, error := undef } := by
  decide

/-- Claim C17, as amended.  `Interrupt(error)` with a defined error on a pending driver `d`
marks it interrupted before anything else; when the hook `OnInterrupted` has returned and
the driver has no caller, the error is injected by `generator.throw(error)`, and what that
call does is what `Interrupt` does: nothing is done with what the routine produces.  If
the routine is suspended inside a `try`, it goes on in its handler; otherwise the error is
raised out of `Interrupt`.  However the call stops, the driver is interrupted and not done
afterwards, and stays so whatever is called later. -/
theorem injected_error_never_revives_driver (fuel : Nat) (d g : Ref) (c3 : Callee)
    (cur3 : IterResult) (s : State) (self self3 : YieldInstruction) (error : Value)
    (hd : s.objs[d]? = some self) (hdone : self.done = false)
    (hint : self.interrupted = false) (hne : (error != undef) = true)
    (hout : (OnInterrupted (exec (fuel + 1)) d (interruptedState d error s)).out = .ok)
    (hd3 : (OnInterrupted (exec (fuel + 1)) d (interruptedState d error s)).st.objs[d]? =
      some self3)
    (hcls3 : self3.cls = .Coroutine g c3 cur3) (hcs3 : self3.callers = []) :
    exec (fuel + 2) (.Interrupt d error) s =
        Generator.inject (exec fuel) g error
          (escalatedState d error
            (OnInterrupted (exec (fuel + 1)) d (interruptedState d error s)).st) ∧
      (∀ (G : Generator) (v : Value) (rest : List GenInstr),
        (OnInterrupted (exec (fuel + 1)) d (interruptedState d error s)).st.gens[g]? = some G →
        G.status = .suspendedYield → G.body = .yieldCaught v :: rest →
        exec (fuel + 2) (.Interrupt d error) s =
          exec fuel (.run g)
            (((escalatedState d error
              (OnInterrupted (exec (fuel + 1)) d (interruptedState d error s)).st).emit
                (.inject g error)).updateGen g
              fun G => { G with status := .executing, body := rest })) ∧
      (∀ (G : Generator),
        (OnInterrupted (exec (fuel + 1)) d (interruptedState d error s)).st.gens[g]? = some G →
        G.status = .suspendedYield → (∀ v rest, G.body ≠ .yieldCaught v :: rest) →
        (exec (fuel + 2) (.Interrupt d error) s).out = .thrown error) ∧
      ∀ calls : List (Nat × Call), ∃ o,
        (execAll calls (exec (fuel + 2) (.Interrupt d error) s).st).objs[d]? = some o ∧
          o.interrupted = true ∧ o.done = false := by
  have hcall : exec (fuel + 2) (.Interrupt d error) s =
      Generator.inject (exec fuel) g error
        (escalatedState d error
          (OnInterrupted (exec (fuel + 1)) d (interruptedState d error s)).st) := by
    show YieldInstruction.Interrupt (exec (fuel + 1)) d error s = _
    rw [Interrupt_pending _ error hd hdone hint]
    unfold Res.andThen
    simp only [hout]
    unfold afterHook
    simp only [hd3, hcs3, forEachInterrupt]
    show afterLoop _ _ _ _ = _
    unfold afterLoop
    simp only [ok_st, hd3, hcs3]
    have hzero : ((([] : List Ref).length == 0) && (error != undef)) = true := by
      simp [hne]
    simp only [hzero, if_true]
    unfold OnThown
    have hd4 : (((OnInterrupted (exec (fuel + 1)) d (interruptedState d error s)).st.update d
        fun o => { o with callers := [] }).emit (.OnThown d error)).objs[d]? =
        some { self3 with callers := [] } := by
      simp [update_objs_self, hd3]
    simp only [hd4, hcls3]
    rfl
  refine ⟨hcall, ?_, ?_, ?_⟩
  · intro G v rest hG hst hbody
    rw [hcall]
    unfold Generator.inject
    have hG1 : ((escalatedState d error
        (OnInterrupted (exec (fuel + 1)) d (interruptedState d error s)).st).emit
          (.inject g error)).gens[g]? = some G := by
      simpa [escalatedState] using hG
    simp only [hG1, hst, hbody]
  · intro G hG hst hbody
    rw [hcall]
    unfold Generator.inject
    have hG1 : ((escalatedState d error
        (OnInterrupted (exec (fuel + 1)) d (interruptedState d error s)).st).emit
          (.inject g error)).gens[g]? = some G := by
      simpa [escalatedState] using hG
    simp only [hG1, hst]
    rfl
  · intro calls
    have hev : Evolves s (execAll calls (exec (fuel + 2) (.Interrupt d error) s).st) :=
      (exec_evolves _ _ _).append (execAll_evolves _ _)
    obtain ⟨o, ho, ht⟩ := hev.lookup hd
    have hflag : ∃ o1, (exec (fuel + 2) (.Interrupt d error) s).st.objs[d]? = some o1 ∧
        o1.interrupted = true := by
      have h1 := Interrupt_pending_sets_flag (exec_evolves (fuel + 1)) error hd hdone hint
      exact h1
    obtain ⟨o1, ho1, hi1⟩ := hflag
    obtain ⟨o2, ho2, ht2⟩ := (execAll_evolves calls _).lookup ho1
    rw [ho] at ho2
    cases ho2
    have hi := ht2.interrupted hi1
    refine ⟨o, ho, hi, ?_⟩
    cases hdn : o.done with
    | false => rfl
    | true =>
      exact absurd ⟨hdn, hi⟩ (ht.exclusive (by rw [hdone]; simp))

/-- Claim C17 as amended, at the driver of `exCatching` and the error `e7`: the call is the
injection of `e7`, and the driver is interrupted and not done after `2` has been completed
and the driver started again. -/
theorem injected_error_never_revives_driver_witness :
    exec 9 (.Interrupt 1 e7) exCatching =
        Generator.inject (exec 7) 0 e7
          (escalatedState 1 e7 (OnInterrupted (exec 8) 1 (interruptedState 1 e7 exCatching)).st) ∧
      ∃ o, (execAll [(9, .End 2), (9, .Start 1 .undefined)]
          (exec 9 (.Interrupt 1 e7) exCatching).st).objs[1]? = some o ∧
        o.interrupted = true ∧ o.done = false :=
  have h := injected_error_never_revives_driver 7 1 0 (.yi 0) ⟨.atom (.yi 0), false⟩ exCatching
    (YieldInstruction.new (.Coroutine 0 (.yi 0) ⟨.atom (.yi 0), false⟩))
    { YieldInstruction.new (.Coroutine 0 (.yi 0) ⟨.atom (.yi 0), false⟩) with
        interrupted := true, error := undef }
    e7 (by decide) rfl rfl (by decide) (by decide) (by decide) rfl rfl
  ⟨h.1, h.2.2.2 [(9, .End 2), (9, .Start 1 .undefined)]⟩

/-! ## Claim C18 -/

/-- Claim C18, counterexample: the driver `1` is pending and suspended on the waitable `0`,
which is pending with the driver as its only caller.  A second `Start` on the driver, with
the caller `3`, returns and has advanced the routine by `generator.next(undefined)`: the
driver has started the waitable `2` that the routine yielded next, while `0` is still
pending. -/
theorem second_Start_advances_while_pending :
    exSecond.objs[0]? = some { fresh with callers := [1] } ∧
      exSecond.objs[1]? =
        some (YieldInstruction.new (.Coroutine 0 (.yi 0) ⟨.atom (.yi 0), false⟩)) ∧
      (exec 9 (.Start 1 (.ref 3)) exSecond).out = .ok ∧
      since exSecond (exec 9 (.Start 1 (.ref 3)) exSecond).st =
        [.Start 1 (.ref 3), .OnStarted 1, .next 0 undef, .Start 2 (.ref 1), .OnStarted 2] ∧
      (exec 9 (.Start 1 (.ref 3)) exSecond).st.objs[0]? = some { fresh with callers := [1] } ∧
      (exec 9 (.Start 1 (.ref 3)) exSecond).st.objs[1]? =
        some { YieldInstruction.new (.Coroutine 0 (.yi 2) ⟨.atom (.yi 2), false⟩) with
                 callers := [3] } := by
  decide

/-- Claim C18, as amended.  A pending driver `d` whose last step was not final is suspended
with the field `callee`.  Every `Start` on it, with any caller, advances the routine at once
by `generator.next` with the first queued argument of the callee as input, whatever the
state of the callee; and `End` on a waitable `w` that is not interrupted and has the driver
as its first caller resumes the driver, which advances the routine in the same way. -/
theorem Start_advances_suspended_driver (fuel : Nat) (d g : Ref) (callee : Callee)
    (cur : IterResult) (s : State) (self : YieldInstruction) (caller : Caller)
    (hd : s.objs[d]? = some self) (hcls : self.cls = .Coroutine g callee cur)
    (hdone : self.done = false) (hint : self.interrupted = false) (hcur : cur.done = false) :
    Begins s [.Start d caller, .OnStarted d, .next g (Coroutine.input s callee)]
        (exec (fuel + 2) (.Start d caller) s).st ∧
      ∀ (w : Ref) (waited : YieldInstruction) (rest : List Ref), s.objs[w]? = some waited →
        waited.interrupted = false → waited.callers = d :: rest → d ≠ w →
        Begins s [.End w, .resumes w d, .Start d .undefined, .OnStarted d,
            .next g (Coroutine.input s callee)]
          (exec (fuel + 3) (.End w) s).st :=
  ⟨Start_begins fuel caller hd hcls hdone hint hcur,
    fun _ _ _ hw hwi hcs hne => End_begins fuel hw hwi hcs hd hcls hdone hint hcur hne⟩

/-- Claim C18 as amended, at the suspended driver of `exSecond` and the caller `3`. -/
theorem Start_advances_suspended_driver_witness :
    Begins exSecond [.Start 1 (.ref 3), .OnStarted 1, .next 0 (Coroutine.input exSecond (.yi 0))]
        (exec 2 (.Start 1 (.ref 3)) exSecond).st ∧
      ∀ (w : Ref) (waited : YieldInstruction) (rest : List Ref),
        exSecond.objs[w]? = some waited →
        waited.interrupted = false → waited.callers = 1 :: rest → 1 ≠ w →
        Begins exSecond [.End w, .resumes w 1, .Start 1 .undefined, .OnStarted 1,
            .next 0 (Coroutine.input exSecond (.yi 0))]
          (exec 3 (.End w) exSecond).st :=
  Start_advances_suspended_driver 0 1 0 (.yi 0) ⟨.atom (.yi 0), false⟩ exSecond
    (YieldInstruction.new (.Coroutine 0 (.yi 0) ⟨.atom (.yi 0), false⟩)) (.ref 3)
    (by decide) rfl rfl rfl rfl

/-! ## Claim C19 -/

/-- An object of the kind of `Coroutine` is one. -/
theorem kind_driver {o : YieldInstruction} (h : o.cls.kind = 3) :
    ∃ g callee cur, o.cls = .Coroutine g callee cur := by
  cases hc : o.cls <;> rw [hc] at h <;> simp [Class.kind] at h
  exact ⟨_, _, _, rfl⟩

/-- Claim C19, counterexample: the routine of the driver `1` returns the waitable `0` at
once.  `Start()` on the driver returns; the step was final, and the same `OnStarted` has
converted the returned value and started the waitable `0` with the driver as caller: `End`
was not called on the driver, which is pending and suspended on `0`. -/
theorem returned_waitable_is_started :
    (exec 9 (.Start 1 .undefined) exReturning).out = .ok ∧
      (exec 9 (.Start 1 .undefined) exReturning).st.gens[0]? =
        some ⟨[], .completed, ⟨.atom (.yi 0), true⟩⟩ ∧
      since exReturning (exec 9 (.Start 1 .undefined) exReturning).st =
        [.Start 1 .undefined, .OnStarted 1, .next 0 undef, .Start 0 (.ref 1), .OnStarted 0] ∧
      (exec 9 (.Start 1 .undefined) exReturning).st.objs =
        [{ fresh with callers := [1] },
         YieldInstruction.new (.Coroutine 0 (.yi 0) ⟨.atom (.yi 0), true⟩)] := by
  decide

/-- After a final step has been stored, the next turn of the loop is `this.End()`. -/
theorem turn_after_final (rec : Call → State → Res) {d g1 : Ref} {c1 : Callee}
    {cur1 : IterResult} {s1 : State} {self1 : YieldInstruction} (v : Value)
    (hd1 : s1.objs[d]? = some self1) (hcls1 : self1.cls = .Coroutine g1 c1 cur1) :
    Coroutine.OnStarted rec d (s1.update d (YieldInstruction.setCurrent ⟨v, true⟩)) =
      rec (.End d) (s1.update d (YieldInstruction.setCurrent ⟨v, true⟩)) := by
  unfold Coroutine.OnStarted
  simp [update_objs_self, hd1, YieldInstruction.setCurrent, hcls1]

/-- Claim C19, as amended.  The hook `OnStarted` of a driver whose last step was not final
advances the routine; when that call returns and reports a final step with the value `v`,
the same `OnStarted` stores the result and converts `v`.  If `v` converts to nothing, it
leaves the loop and calls `End` on the driver, and that is all it does; if `v` converts to a
waitable `r`, it stores `r` as `callee` and calls `r.Start(driver)`, and that is all it
does. -/
theorem finished_step_is_converted (fuel : Nat) (d g : Ref) (callee : Callee)
    (cur : IterResult) (s : State) (self : YieldInstruction) (v : Value) (G : Generator)
    (hd : s.objs[d]? = some self) (hcls : self.cls = .Coroutine g callee cur)
    (hcur : cur.done = false) (hnext : (stepped (fuel + 2) d g callee s).out = .ok)
    (hG : (stepped (fuel + 2) d g callee s).st.gens[g]? = some G)
    (hres : G.result = ⟨v, true⟩) :
    OnStarted (exec (fuel + 2)) d s =
      match ConvertToYieldInstruction v
          ((stepped (fuel + 2) d g callee s).st.update d
            (YieldInstruction.setCurrent ⟨v, true⟩)) with
      | (s2, some r) =>
        exec (fuel + 2) (.Start r (.ref d)) (s2.update d (YieldInstruction.setCallee (.yi r)))
      | (s2, none) => exec (fuel + 1) (.End d) s2 := by
  have hev : Evolves (s.emit (.OnStarted d)) (stepped (fuel + 2) d g callee s).st :=
    exec_evolves _ _ _
  have hd0 : (s.emit (.OnStarted d)).objs[d]? = some self := hd
  obtain ⟨self1, hd1, ht⟩ := hev.lookup hd0
  obtain ⟨g1, c1, cur1, hcls1⟩ := kind_driver (o := self1) (by rw [ht.kind, hcls]; rfl)
  have hloop := turn_after_final (exec (fuel + 1)) v hd1 hcls1
  have hturn : OnStarted (exec (fuel + 2)) d s =
      (stepped (fuel + 2) d g callee s).andThen fun s1 =>
        let current : IterResult :=
          match s1.gens[g]? with
          | some G => G.result
          | none => ⟨undef, true⟩
        let s1 := s1.update d (YieldInstruction.setCurrent current)
        let value := current.value
        let (s1, yieldInstruction) := ConvertToYieldInstruction value s1
        match yieldInstruction with
        | some r =>
          let s1 := s1.update d (YieldInstruction.setCallee (.yi r))
          exec (fuel + 2) (.Start r (.ref d)) s1
        | none => exec (fuel + 2) (.loop d) s1 := by
    unfold OnStarted
    simp only [hd0, hcls]
    unfold Coroutine.OnStarted
    simp only [hd0, hcls, hcur]
    rfl
  rw [hturn]
  unfold Res.andThen
  simp only [hnext, hG, hres]
  generalize (stepped (fuel + 2) d g callee s).st = s1 at hloop ⊢
  cases v with
  | args xs => exact hloop
  | atom a =>
    cases a with
    | undefined => exact hloop
    | null => exact hloop
    | num n => exact hloop
    | error e => exact hloop
    | yi r => rfl
    | generator x => rfl
    | callback r => rfl
    | promise x => rfl

/-- Claim C19 as amended, at the driver of `exPlain`, whose routine returns `5`. -/
theorem finished_step_is_converted_witness :
    OnStarted (exec 2) 0 exPlain =
      match ConvertToYieldInstruction (.atom (.num 5))
          ((stepped 2 0 0 .stub exPlain).st.update 0
            (YieldInstruction.setCurrent ⟨.atom (.num 5), true⟩)) with
      | (s2, some r) =>
        exec 2 (.Start r (.ref 0)) (s2.update 0 (YieldInstruction.setCallee (.yi r)))
      | (s2, none) => exec 1 (.End 0) s2 :=
  finished_step_is_converted 0 0 0 .stub ⟨undef, false⟩ exPlain (Coroutine.new 0)
    (.atom (.num 5)) ⟨[], .completed, ⟨.atom (.num 5), true⟩⟩ (by decide) rfl rfl (by decide)
    (by decide) rfl

/-! ## Claim C20 -/

/-- Claim C20, the code at the failing input: the combinator `1` of `exDeadline`, pending
and suspended on the timer waitable `0`, is interrupted from outside by `Interrupt(e7)`.
It is interrupted afterwards with `e7` stored, and its deadline request `0` is still
pending: no `clearTimeout` was called.  When that request fires, `OnTimeOut` runs and
`Interrupt` replaces the stored error by the timeout error. -/
theorem interrupted_Wait_keeps_deadline :
    exDeadline.objs[1]? = some (YieldInstruction.new (.Wait (some 0) (some 5) (some 0))) ∧
      since exDeadline exOutside =
        [.Interrupt 1 e7, .OnInterrupted 1, .OnThown 1 e7] ∧
      exOutside.objs[1]? =
        some { YieldInstruction.new (.Wait (some 0) (some 5) (some 0)) with
                 interrupted := true, error := e7 } ∧
      exOutside.timers = exDeadline.timers ∧
      exOutside.timers.find? (fun t => t.handle == 0) = some ⟨0, .OnTimeOut, 1, 5000⟩ ∧
      (exec 9 (.fire 0) exOutside).out = .ok ∧
      since exOutside (exec 9 (.fire 0) exOutside).st =
        [.fire 0, .OnTimeOut 1, .Interrupt 1 (.atom (.error (.timedOut 5)))] ∧
      (exec 9 (.fire 0) exOutside).st.objs[1]? =
        some { YieldInstruction.new (.Wait (some 0) (some 5) (some 0)) with
                 interrupted := true, error := .atom (.error (.timedOut 5)) } := by
  decide

end CoroutineJs
